import Mathlib

/-!
# d.colortable: grid layout and swatch rendering

A shallow embedding of `main` of `display/d.colortable/main.c`.

Modelling conventions
* A C `double` is a rational number (`ℚ`). The double arithmetic that decides the grid and
  the cell positions (lines 148-151, 165-166 and 180) rounds every result to the nearest
  binary64 value, ties to even (`fl`, `flsqrt`); the exponent range is unbounded upward.
  The ramp of lines 222-258 is computed over exact rationals. The model is silent (`none`)
  where a double operation has no finite value (division by zero, `sqrt` of a negative
  number).
* A C `int` is an `Int`. The results of `cats_num`, of `1 + cats_num / ...` and of
  `++atcat` are reduced to 32-bit two's complement (`wrap32`), the value the machine
  stores when the exact result does not fit; pixel positions and box offsets are exact.
* Conversion of a `double` to `int` truncates toward zero (`toInt`); where the converted
  value decides the grid the model is silent when it does not fit an `int` (`toInt32`).
  `int / int` truncates toward zero and has no value on a zero divisor (`cdiv`).
* The calls into the display library are recorded, in call order, as a list of `Cmd`.
-/

namespace Colortable

/-- Conversion of a `double` to an `int` (C truncates toward zero). -/
def toInt (q : ℚ) : Int := Int.tdiv q.num (q.den : Int)

/-- The value an `int` holds after an operation whose exact result is `x`: `x` reduced to
32-bit two's complement. -/
def wrap32 (x : Int) : Int := (x + 2147483648) % 4294967296 - 2147483648

/-- Conversion of a `double` to an `int` whose value must fit: the truncated value lies in
`[-2^31, 2^31 - 1]`; otherwise the conversion is undefined and the model is silent. -/
def toInt32 (q : ℚ) : Option Int :=
  if -2147483649 < q ∧ q < 2147483648 then some (toInt q) else none

/-- The integer nearest to `x`, the even one of the two when `x` lies half-way. -/
def rne (x : ℚ) : Int :=
  if x - (⌊x⌋ : ℚ) < 1 / 2 then ⌊x⌋
  else if 1 / 2 < x - (⌊x⌋ : ℚ) then ⌊x⌋ + 1
  else if ⌊x⌋ % 2 = 0 then ⌊x⌋ else ⌊x⌋ + 1

/-- The exponent of the last place of a binary64 value of magnitude `|q|`: 52 below the
exponent of `|q|`, and `-1074` in the subnormal range. -/
def ulpExp (q : ℚ) : Int := max (Int.log 2 |q| - 52) (-1074)

/-- The result of a double operation whose exact value is `q`: `q` rounded to the nearest
binary64 value (53 significant bits), ties to even. -/
def fl (q : ℚ) : ℚ := (rne (q / 2 ^ ulpExp q) : ℚ) * 2 ^ ulpExp q

/-- The double `sqrt(x)`: the square root of `x` rounded to the nearest binary64 value,
ties to even. With `e` the exponent of the last place of the root and `y = x / 4^e`, the
root is `sqrt y` in units of `2^e`; the integer part of `sqrt y` is the integer square
root of the integer part of `y`, and comparing `y` with the square of the half-way point
decides the rounding. -/
def flsqrt (x : ℚ) : ℚ :=
  if x ≤ 0 then 0
  else
    let e : Int := Int.log 2 x / 2 - 52
    let y : ℚ := x / 4 ^ e
    let m : Nat := Nat.sqrt ⌊y⌋₊
    let c : ℚ := ((m : ℚ) + 1 / 2) ^ 2
    let n : Nat := if y < c then m else if c < y then m + 1 else if m % 2 = 0 then m else m + 1
    (n : ℚ) * 2 ^ e

/-- The `int` stored by `cols = 1 + sqrt(x)` (line 151): the double `1 + sqrt(x)` converted
to `int`. `sqrt` of a negative number is not a number, where the model is silent. -/
def onePlusSqrtToInt (x : ℚ) : Option Int :=
  if 0 ≤ x then toInt32 (fl (1 + flsqrt x)) else none

/-- The `int` quotient `a / b` of C, truncated toward zero; division by zero has no
value. -/
def cdiv (a b : Int) : Option Int :=
  if b = 0 then none else some (Int.tdiv a b)

/-- Everything `main` reads from its environment before the layout is computed. -/
structure Input where
  /-- Result of `G_raster_map_is_fp`: the map is floating-point. -/
  fp : Bool
  /-- Answer of option `lines` (`opt3->answer`), already scanned with `%d`. -/
  opt3 : Option Int
  /-- Answer of option `cols` (`opt4->answer`), already scanned with `%d`. -/
  opt4 : Option Int
  /-- Value of `D_translate_color(opt2->answer)`, the separator colour. -/
  color : Int
  /-- Value of `D_translate_color("black")`. -/
  black : Int
  /-- The CELL null pattern stored by `G_set_c_null_value(&atcat, 1)`. -/
  cnull : Int
  /-- Range minimum from `G_get_fp_range_min_max`. -/
  dmin : ℚ
  /-- Range maximum from `G_get_fp_range_min_max`. -/
  dmax : ℚ
  /-- Frame top from `D_get_src`. -/
  t : ℚ
  /-- Frame bottom from `D_get_src`. -/
  b : ℚ
  /-- Frame left from `D_get_src`. -/
  l : ℚ
  /-- Frame right from `D_get_src`. -/
  r : ℚ
deriving DecidableEq

/-- Value of `lines` after option handling (source lines 106-116). -/
def lines0 (inp : Input) : Int :=
  let lines : Int := if inp.fp then 1 else 0
  match inp.opt3 with
  | some v => if inp.fp then lines else v
  | none => lines

/-- Value of `cols` after option handling (source lines 118-128). -/
def cols0 (inp : Input) : Int :=
  let cols : Int := if inp.fp then 1 else 0
  match inp.opt4 with
  | some v => if inp.fp then cols else v
  | none => cols

/-- Line 144: `cats_num = (int)dmax - (int)dmin + 1`, in 32-bit `int` arithmetic. -/
def cats_num (inp : Input) : Int := wrap32 (wrap32 (toInt inp.dmax - toInt inp.dmin) + 1)

/-- Lines 145-163: the resolved `(lines, cols)`. Every double operation of lines 148-151
is rounded; the sums `1 + cats_num / ...` are 32-bit `int` sums. -/
def layout (inp : Input) : Option (Int × Int) :=
  let lines := lines0 inp
  let cols := cols0 inp
  if lines ≤ 0 ∧ cols ≤ 0 then
    let dy := fl (inp.b - inp.t)
    let dx := fl (inp.r - inp.l)
    if dx = 0 then none
    else
      let ratio := fl (dy / dx)
      if ratio = 0 then none
      else
        match onePlusSqrtToInt (fl (fl (fl (inp.dmax - inp.dmin) + 1) / ratio)) with
        | none => none
        | some cols => (cdiv (cats_num inp) cols).map (fun q => (wrap32 (1 + q), cols))
  else if lines > 0 ∧ cols ≤ 0 then
    (cdiv (cats_num inp) lines).map (fun q => (lines, wrap32 (1 + q)))
  else if cols > 0 ∧ lines ≤ 0 then
    (cdiv (cats_num inp) cols).map (fun q => (wrap32 (1 + q), cols))
  else
    some (lines, cols)

/-- Line 165: `dots_per_line = (b - t) / lines`: the double difference divided by `lines`
as a double, the quotient converted to `int`. -/
def dots_per_line (inp : Input) (lines : Int) : Option Int :=
  if lines = 0 then none else toInt32 (fl (fl (inp.b - inp.t) / (lines : ℚ)))

/-- Line 166: `dots_per_col = (r - l) / cols`: the double difference divided by `cols` as
a double, the quotient converted to `int`. -/
def dots_per_col (inp : Input) (cols : Int) : Option Int :=
  if cols = 0 then none else toInt32 (fl (fl (inp.r - inp.l) / (cols : ℚ)))

/-- The resolved grid with its per-swatch extents. -/
structure Grid where
  lines : Int
  cols : Int
  dots_per_line : Int
  dots_per_col : Int
deriving DecidableEq

/-- Lines 144-166 together. -/
def grid (inp : Input) : Option Grid :=
  match layout inp with
  | none => none
  | some (lines, cols) =>
    match dots_per_line inp lines, dots_per_col inp cols with
    | some dl, some dc => some ⟨lines, cols, dl, dc⟩
    | _, _ => none

/-- A call into the display library. -/
inductive Cmd where
  | D_use_color (c : Int)
  | D_begin
  | D_move_abs (x y : ℚ)
  | D_cont_rel (dx dy : ℚ)
  | D_end
  | D_stroke
  | D_color (cat : Int)
  | D_d_color (dval : Option ℚ)
  | D_pos_abs (x y : ℚ)
  | D_polygon_rel (x_box y_box : List ℚ) (n : Nat)
  | fprintf_dots_per_line (n : Int)
deriving DecidableEq

/-- Lines 168-172: the array `x_box`. -/
def x_box (g : Grid) : List ℚ :=
  [0, 0, ((g.dots_per_col - 6 : Int) : ℚ), 0, ((6 - g.dots_per_col : Int) : ℚ)]

/-- Lines 168-172: the array `y_box`. -/
def y_box (g : Grid) : List ℚ :=
  [0, ((6 - g.dots_per_line : Int) : ℚ), 0, ((g.dots_per_line - 6 : Int) : ℚ), 0]

/-- The block under `Draw white box` (lines 185-193 and 225-233). -/
def whiteBox (inp : Input) (g : Grid) (cur_dot_col cur_dot_row : Int) : List Cmd :=
  [ .D_use_color inp.color,
    .D_begin,
    .D_move_abs ((cur_dot_col + 2 : Int) : ℚ) ((cur_dot_row - 1 : Int) : ℚ),
    .D_cont_rel 0 ((2 - g.dots_per_line : Int) : ℚ),
    .D_cont_rel ((g.dots_per_col - 2 : Int) : ℚ) 0,
    .D_cont_rel 0 ((g.dots_per_line - 2 : Int) : ℚ),
    .D_cont_rel ((2 - g.dots_per_col : Int) : ℚ) 0,
    .D_end,
    .D_stroke ]

/-- The block under `Draw black box` (lines 195-203 and 235-243). -/
def blackBox (inp : Input) (g : Grid) (cur_dot_col cur_dot_row : Int) : List Cmd :=
  [ .D_use_color inp.black,
    .D_begin,
    .D_move_abs ((cur_dot_col + 3 : Int) : ℚ) ((cur_dot_row - 2 : Int) : ℚ),
    .D_cont_rel 0 ((4 - g.dots_per_line : Int) : ℚ),
    .D_cont_rel ((g.dots_per_col - 4 : Int) : ℚ) 0,
    .D_cont_rel 0 ((g.dots_per_line - 4 : Int) : ℚ),
    .D_cont_rel ((4 - g.dots_per_col : Int) : ℚ) 0,
    .D_end,
    .D_stroke ]

/-- The block under `Color box` (lines 205-207). -/
def colorBox (g : Grid) (atcat cur_dot_col cur_dot_row : Int) : List Cmd :=
  [ .D_color atcat,
    .D_pos_abs ((cur_dot_col + 4 : Int) : ℚ) ((cur_dot_row - 3 : Int) : ℚ),
    .D_polygon_rel (x_box g) (y_box g) 5 ]

/-- The calls of one pass of the `atline` loop (lines 184-207): the three blocks. -/
def swatch (inp : Input) (g : Grid) (atcat cur_dot_col cur_dot_row : Int) : List Cmd :=
  whiteBox inp g cur_dot_col cur_dot_row ++ blackBox inp g cur_dot_col cur_dot_row
    ++ colorBox g atcat cur_dot_col cur_dot_row

/-- The variables the discrete loops assign, and the calls issued so far. -/
structure LoopState where
  atcat : Int
  count : Int
  cur_dot_row : Int
  out : List Cmd
deriving DecidableEq

/-- One pass through the body of the `atline` loop (lines 183-214); the flag tells
whether the pass left through `break`. `++atcat` is a 32-bit `int` increment. -/
def lineBody (inp : Input) (g : Grid) (cur_dot_col : Int) (s : LoopState) :
    LoopState × Bool :=
  let cur_dot_row := s.cur_dot_row + g.dots_per_line
  let out := s.out ++ swatch inp g s.atcat cur_dot_col cur_dot_row
  let count := s.count + 1
  if count = 1 then
    (⟨toInt inp.dmin, count, cur_dot_row, out⟩, false)
  else
    let atcat := wrap32 (s.atcat + 1)
    (⟨atcat, count, cur_dot_row, out⟩, decide (atcat > toInt inp.dmax))

/-- The loop `for (atline = 0; atline < lines; atline++)` (line 182); the first argument
is the number of passes left, `lines - atline`. -/
def lineLoop (inp : Input) (g : Grid) (cur_dot_col : Int) : Nat → LoopState → LoopState
  | 0, s => s
  | k + 1, s =>
    match lineBody inp g cur_dot_col s with
    | (s1, true) => s1
    | (s1, false) => lineLoop inp g cur_dot_col k s1

/-- The loop `for (atcol = 0; atcol < cols; atcol++)` (lines 178-218); the first argument
is the number of passes left, `cols - atcol`. Line 180 adds the `int` product to the
double `l` as a double and converts the sum to `int`. -/
def colLoop (inp : Input) (g : Grid) : Nat → Int → LoopState → LoopState
  | 0, _, s => s
  | k + 1, atcol, s =>
    let cur_dot_row := toInt inp.t
    let cur_dot_col := toInt (fl (inp.l + ((atcol * g.dots_per_col : Int) : ℚ)))
    let s1 := lineLoop inp g cur_dot_col g.lines.toNat
      { s with cur_dot_row := cur_dot_row, count := 0 }
    if s1.atcat > toInt inp.dmax then s1
    else colLoop inp g k (atcol + 1) s1

/-- Lines 177-219: the calls issued for an integer map. -/
def discrete (inp : Input) (g : Grid) : List Cmd :=
  (colLoop inp g g.cols.toNat 0 ⟨inp.cnull, 0, 0, []⟩).out

/-- Lines 248-249: `y_box[1] = -1; y_box[3] = 1;`. -/
def y_box_ramp (g : Grid) : List ℚ := ((y_box g).set 1 (-1)).set 3 1

/-- Lines 252-256: the value `dval` of the strip at `r` (`none` is the null value). -/
def dval (inp : Input) (g : Grid) (r : ℚ) : Option ℚ :=
  if r ≤ 4 then none
  else some (inp.dmin + (r - 1) * (inp.dmax - inp.dmin)
    / ((g.dots_per_line - 6 - 5 : Int) : ℚ))

/-- The loop `for (r = 0; r < dots_per_line - 6; r++)` (lines 251-260); the first argument
is the number of passes left. -/
def rampLoop (inp : Input) (g : Grid) (cur_dot_col cur_dot_row : Int) : Nat → ℚ → List Cmd
  | 0, _ => []
  | k + 1, r =>
    [ .D_d_color (dval inp g r),
      .D_pos_abs ((cur_dot_col + 4 : Int) : ℚ) (((cur_dot_row - 3 : Int) : ℚ) - r),
      .D_polygon_rel (x_box g) (y_box_ramp g) 5 ]
    ++ rampLoop inp g cur_dot_col cur_dot_row k (r + 1)

/-- Lines 220-261: the calls issued for a floating-point map. -/
def continuous (inp : Input) (g : Grid) : List Cmd :=
  let cur_dot_row := toInt (inp.t + (g.dots_per_line : ℚ))
  let cur_dot_col := toInt inp.l
  whiteBox inp g cur_dot_col cur_dot_row
    ++ blackBox inp g cur_dot_col cur_dot_row
    ++ [.fprintf_dots_per_line g.dots_per_line]
    ++ rampLoop inp g cur_dot_col cur_dot_row (g.dots_per_line - 6).toNat 0

/-- The drawing calls of `main` from line 144 on, in call order. -/
def main (inp : Input) : Option (List Cmd) :=
  match grid inp with
  | none => none
  | some g => if !inp.fp then some (discrete inp g) else some (continuous inp g)

/-- The colour selection in force on the display. -/
inductive Pen where
  /-- Selected by `D_use_color`. -/
  | index (c : Int)
  /-- Selected by `D_color` for a category key. -/
  | cat (k : Int)
  /-- Selected by `D_d_color` for a value (`none` is the null value). -/
  | val (v : Option ℚ)
deriving DecidableEq

/-- The colour selection in force after a call sequence that started with `pen`. -/
def penAfter (pen : Option Pen) : List Cmd → Option Pen
  | [] => pen
  | .D_use_color c :: cs => penAfter (some (.index c)) cs
  | .D_color k :: cs => penAfter (some (.cat k)) cs
  | .D_d_color v :: cs => penAfter (some (.val v)) cs
  | _ :: cs => penAfter pen cs

/-- The fill polygons of a call sequence, each given as the colour selection in force at
its `D_polygon_rel` call, in call order. -/
def fills (pen : Option Pen) : List Cmd → List (Option Pen)
  | [] => []
  | .D_use_color c :: cs => fills (some (.index c)) cs
  | .D_color k :: cs => fills (some (.cat k)) cs
  | .D_d_color v :: cs => fills (some (.val v)) cs
  | .D_polygon_rel _ _ _ :: cs => pen :: fills pen cs
  | .D_begin :: cs => fills pen cs
  | .D_move_abs _ _ :: cs => fills pen cs
  | .D_cont_rel _ _ :: cs => fills pen cs
  | .D_end :: cs => fills pen cs
  | .D_stroke :: cs => fills pen cs
  | .D_pos_abs _ _ :: cs => fills pen cs
  | .fprintf_dots_per_line _ :: cs => fills pen cs

/-- The map is an integer map, so both ends of its range are integers. -/
def Discrete (inp : Input) : Prop :=
  inp.fp = false ∧ ((toInt inp.dmin : Int) : ℚ) = inp.dmin
    ∧ ((toInt inp.dmax : Int) : ℚ) = inp.dmax

instance (inp : Input) : Decidable (Discrete inp) := by
  unfold Discrete; infer_instance

/-- The range ends are 32-bit `int` values, their difference is one, and the category
count `max - min + 1` lies below `2^31 - 1`, so that `cats_num` and `1 + cats_num / c` for
`c ≥ 1` fit an `int`. -/
def IntRange (inp : Input) : Prop :=
  -2147483648 ≤ toInt inp.dmin ∧ toInt inp.dmax ≤ 2147483647
    ∧ -2147483648 ≤ toInt inp.dmax - toInt inp.dmin
    ∧ toInt inp.dmax - toInt inp.dmin + 1 < 2147483647

instance (inp : Input) : Decidable (IntRange inp) := by
  unfold IntRange; infer_instance

/-- The frame has the integer pixel coordinates `ti` (top), `bi` (bottom), `li` (left) and
`ri` (right), each of magnitude at most `2^26`: the double arithmetic on them is exact and
every extent fits an `int`. -/
def IntFrame (inp : Input) (ti bi li ri : Int) : Prop :=
  inp.t = (ti : ℚ) ∧ inp.b = (bi : ℚ) ∧ inp.l = (li : ℚ) ∧ inp.r = (ri : ℚ)
    ∧ |ti| ≤ 67108864 ∧ |bi| ≤ 67108864 ∧ |li| ≤ 67108864 ∧ |ri| ≤ 67108864

/-- An integer map with range `imin..imax`, options `opt3`/`opt4` and frame `t b l r`;
the colour indices are sample values and the null pattern is that of a 32-bit CELL. -/
def intMap (imin imax : Int) (opt3 opt4 : Option Int) (t b l r : ℚ) : Input :=
  { fp := false, opt3 := opt3, opt4 := opt4, color := 7, black := 0,
    cnull := -2147483648, dmin := imin, dmax := imax, t := t, b := b, l := l, r := r }

/-- A floating-point map with range `dmin..dmax`, options `opt3`/`opt4` and frame
`t b l r`; the colour indices are sample values. -/
def fpMap (dmin dmax : ℚ) (opt3 opt4 : Option Int) (t b l r : ℚ) : Input :=
  { fp := true, opt3 := opt3, opt4 := opt4, color := 7, black := 0,
    cnull := -2147483648, dmin := dmin, dmax := dmax, t := t, b := b, l := l, r := r }

/-- The calls for the swatches of `keys`, laid out column-major from cell `k` on: cell `k`
is in column `k / lines` and row `k % lines`, with `cur_dot_col` and `cur_dot_row` as
lines 179-183 compute them. -/
def columnMajor (inp : Input) (g : Grid) : Nat → List Int → List Cmd
  | _, [] => []
  | k, a :: keys =>
    swatch inp g a
        (toInt (fl (inp.l
          + ((((k / g.lines.toNat : Nat) : Int) * g.dots_per_col : Int) : ℚ))))
        (toInt inp.t + (((k % g.lines.toNat : Nat) : Int) + 1) * g.dots_per_line)
      ++ columnMajor inp g (k + 1) keys

/-- A figure drawn on the display: the colour selection in force, whether it is filled,
and its vertices in drawing order. -/
structure Shape where
  pen : Option Pen
  filled : Bool
  pts : List (ℚ × ℚ)
deriving DecidableEq

/-- Modelled from the spec: the display library (`D_begin`, `D_move_abs`, `D_cont_rel`,
`D_stroke`, `D_pos_abs`, `D_polygon_rel`, ...) is not among the sources. This is the
drawing state of spec sections 3 and 4.1: the pen, the current position, the path under
construction and the figures rendered so far. -/
structure Canvas where
  pen : Option Pen
  cur : ℚ × ℚ
  path : List (ℚ × ℚ)
  shapes : List Shape

/-- Modelled from the spec: the vertices of a polygon given by relative offsets (spec
section 4.1, `fillPolygonRelative`), the first offset taken from the anchor and each
further one from the vertex before it. -/
def relToAbs : ℚ × ℚ → List ℚ → List ℚ → List (ℚ × ℚ)
  | cur, x :: xs, y :: ys => (cur.1 + x, cur.2 + y) :: relToAbs (cur.1 + x, cur.2 + y) xs ys
  | _, _, _ => []

/-- Modelled from the spec: the effect of one display call on the drawing state (spec
section 4.1): colour calls select the pen, `D_begin` opens a path, `D_move_abs` and
`D_cont_rel` extend it from an absolute point and by a relative offset, `D_stroke` renders
it, `D_pos_abs` sets the anchor and `D_polygon_rel` renders a filled polygon there. -/
def exec (d : Canvas) : Cmd → Canvas
  | .D_use_color c => { d with pen := some (Pen.index c) }
  | .D_color k => { d with pen := some (Pen.cat k) }
  | .D_d_color v => { d with pen := some (Pen.val v) }
  | .D_begin => { d with path := [] }
  | .D_move_abs x y => { d with cur := (x, y), path := d.path ++ [(x, y)] }
  | .D_cont_rel dx dy =>
    { d with cur := (d.cur.1 + dx, d.cur.2 + dy),
             path := d.path ++ [(d.cur.1 + dx, d.cur.2 + dy)] }
  | .D_end => d
  | .D_stroke => { d with shapes := d.shapes ++ [⟨d.pen, false, d.path⟩] }
  | .D_pos_abs x y => { d with cur := (x, y) }
  | .D_polygon_rel xs ys n =>
    { d with shapes := d.shapes ++ [⟨d.pen, true, relToAbs d.cur (xs.take n) (ys.take n)⟩] }
  | .fprintf_dots_per_line _ => d

/-- The drawing state before any call. -/
def blank : Canvas := ⟨none, (0, 0), [], []⟩

/-- The figures a call sequence renders, in drawing order. -/
def render (cmds : List Cmd) : List Shape :=
  (cmds.foldl exec blank).shapes

/-- The vertex sequence of the axis-aligned rectangle with left side `x0`, top side `y0`,
right side `x1` and bottom side `y1` (device rows grow downward), drawn from the bottom
left corner upward, to the right, downward and back. -/
def rect (x0 y0 x1 y1 : ℚ) : List (ℚ × ℚ) :=
  [(x0, y1), (x0, y0), (x1, y0), (x1, y1), (x0, y1)]

/-- The vertex sequence returns to its first vertex. -/
def Closed (pts : List (ℚ × ℚ)) : Prop :=
  pts ≠ [] ∧ pts.head? = pts.getLast?

/-- Every edge of the vertex sequence is horizontal or vertical. -/
def AxisAligned (pts : List (ℚ × ℚ)) : Prop :=
  List.Chain' (fun p q => p.1 = q.1 ∨ p.2 = q.2) pts

/-- Sample input: the integer map with categories 1..5 drawn with `lines=2 cols=2` into
the frame 400 wide and 200 high. -/
def sampleMap : Input := intMap 1 5 (some 2) (some 2) 0 200 0 400

/-- The grid of `sampleMap`. -/
def sampleGrid : Grid := ⟨2, 2, 100, 200⟩

/-- Sample input: the integer map with categories 1..5 drawn with `lines=2 cols=2` into
the frame 20 wide and 20 high. -/
def smallMap : Input := intMap 1 5 (some 2) (some 2) 0 20 0 20

/-- The grid of `smallMap`. -/
def smallGrid : Grid := ⟨2, 2, 10, 10⟩

/-- Sample input: the floating-point map with range 1/2..15/2 drawn into the frame 40
wide and 20 high. -/
def rampMap : Input := fpMap (1 / 2) (15 / 2) none none 0 20 0 40

/-- The grid of `rampMap`. -/
def rampGrid : Grid := ⟨1, 1, 20, 40⟩

/-! ## Conversions and rounding -/

theorem wrap32_of_mem {x : Int} (h1 : -2147483648 ≤ x) (h2 : x ≤ 2147483647) : wrap32 x = x := by
  unfold wrap32; omega

theorem rne_sub_abs (x : ℚ) : |(rne x : ℚ) - x| ≤ 1 / 2 := by
  have h1 := Int.floor_le x
  have h2 := Int.lt_floor_add_one x
  unfold rne
  split_ifs with a b c
  · rw [abs_le]; constructor <;> linarith
  · rw [abs_le]; push_cast; constructor <;> linarith
  · rw [abs_le]; constructor <;> linarith
  · rw [abs_le]; push_cast; constructor <;> linarith

theorem rne_eq_of_lt (x : ℚ) (n : Int) (h : |(n : ℚ) - x| < 1 / 2) : rne x = n := by
  have h1 := rne_sub_abs x
  rw [abs_le] at h1
  rw [abs_lt] at h
  have h3 : ((rne x : Int) : ℚ) < (n : ℚ) + 1 := by linarith
  have h4 : (n : ℚ) < ((rne x : Int) : ℚ) + 1 := by linarith
  have h5 : rne x < n + 1 := by exact_mod_cast h3
  have h6 : n < rne x + 1 := by exact_mod_cast h4
  omega

theorem rne_intCast (n : Int) : rne (n : ℚ) = n :=
  rne_eq_of_lt _ n (by simp)


theorem toInt_intCast (n : Int) : toInt (n : ℚ) = n := by
  simp [toInt]

theorem toInt_of_nonneg {q : ℚ} (h : 0 ≤ q) : toInt q = ⌊q⌋ := by
  rw [Rat.floor_def]
  exact Int.tdiv_eq_ediv (Rat.num_nonneg.mpr h) (Int.ofNat_nonneg _)

theorem toInt_neg (q : ℚ) : toInt (-q) = - toInt q := by
  simp [toInt, Int.neg_tdiv]

theorem toInt_of_nonpos {q : ℚ} (h : q ≤ 0) : toInt q = ⌈q⌉ := by
  have h1 : toInt q = - toInt (-q) := by rw [toInt_neg]; ring
  rw [h1, toInt_of_nonneg (by linarith), Int.floor_neg]; ring

theorem two_zpow_pos (e : Int) : (0 : ℚ) < 2 ^ e := zpow_pos (by norm_num) e

theorem ulpExp_ge (q : ℚ) : -1074 ≤ ulpExp q := le_max_right _ _

theorem ulpExp_log_le (q : ℚ) : Int.log 2 |q| - 52 ≤ ulpExp q := le_max_left _ _

theorem abs_lt_zpow_ulpExp (q : ℚ) : |q| < 2 ^ (ulpExp q + 53) := by
  have h := Int.lt_zpow_succ_log_self (R := ℚ) (b := 2) (by norm_num) |q|
  have h2 : ((2 : ℕ) : ℚ) = 2 := by norm_num
  rw [h2] at h
  refine lt_of_lt_of_le h (zpow_le_zpow_right₀ (by norm_num) ?_)
  have := ulpExp_log_le q
  omega

theorem ulpExp_of_mem {q : ℚ} {k : Int} (hk : -1022 ≤ k) (h1 : 2 ^ k ≤ |q|)
    (h2 : |q| < 2 ^ (k + 1)) : ulpExp q = k - 52 := by
  have hpos : 0 < |q| := lt_of_lt_of_le (two_zpow_pos k) h1
  have h2' : ((2 : ℕ) : ℚ) = 2 := by norm_num
  have ha : k ≤ Int.log 2 |q| := by
    rw [← Int.zpow_le_iff_le_log (by norm_num) hpos, h2']; exact h1
  have hb : Int.log 2 |q| < k + 1 := by
    rw [← Int.lt_zpow_iff_log_lt (by norm_num) hpos, h2']; exact h2
  unfold ulpExp
  have : Int.log 2 |q| = k := by omega
  rw [this, max_eq_left (by omega)]

theorem ulpExp_normal {q : ℚ} (h : 2 ^ (-1022 : Int) ≤ |q|) :
    ulpExp q = Int.log 2 |q| - 52 := by
  have hpos : 0 < |q| := lt_of_lt_of_le (two_zpow_pos _) h
  have h2' : ((2 : ℕ) : ℚ) = 2 := by norm_num
  have ha : -1022 ≤ Int.log 2 |q| := by
    rw [← Int.zpow_le_iff_le_log (by norm_num) hpos, h2']; exact h
  unfold ulpExp
  rw [max_eq_left (by omega)]

theorem zpow_ulpExp_le {q : ℚ} (h : 2 ^ (-1022 : Int) ≤ |q|) :
    (2 : ℚ) ^ ulpExp q ≤ |q| / 2 ^ 52 := by
  have hpos : 0 < |q| := lt_of_lt_of_le (two_zpow_pos _) h
  have h2' : ((2 : ℕ) : ℚ) = 2 := by norm_num
  have h3 := Int.zpow_log_le_self (R := ℚ) (b := 2) (by norm_num) hpos
  rw [h2'] at h3
  rw [ulpExp_normal h, zpow_sub₀ (by norm_num)]
  have h4 : (2 : ℚ) ^ (52 : Int) = 2 ^ 52 := by norm_num
  rw [h4]
  exact div_le_div_of_nonneg_right h3 (by norm_num)

theorem fl_sub_abs (q : ℚ) : |fl q - q| ≤ 2 ^ ulpExp q / 2 := by
  have hp := two_zpow_pos (ulpExp q)
  have h := rne_sub_abs (q / 2 ^ ulpExp q)
  have h1 : fl q - q = ((rne (q / 2 ^ ulpExp q) : ℚ) - q / 2 ^ ulpExp q) * 2 ^ ulpExp q := by
    unfold fl; field_simp
  rw [h1, abs_mul, abs_of_pos hp]
  calc |((rne (q / 2 ^ ulpExp q) : ℚ) - q / 2 ^ ulpExp q)| * 2 ^ ulpExp q
      ≤ 1 / 2 * 2 ^ ulpExp q := mul_le_mul_of_nonneg_right h hp.le
    _ = 2 ^ ulpExp q / 2 := by ring

theorem fl_sub_abs_le {q : ℚ} (h : 2 ^ (-1022 : Int) ≤ |q|) :
    |fl q - q| ≤ |q| / 2 ^ 53 := by
  have h1 := fl_sub_abs q
  have h2 := zpow_ulpExp_le h
  calc |fl q - q| ≤ 2 ^ ulpExp q / 2 := h1
    _ ≤ |q| / 2 ^ 52 / 2 := by linarith
    _ = |q| / 2 ^ 53 := by ring

theorem fl_exact (m e : Int) (hm : |m| < 2 ^ 53) (he : -1074 ≤ e) :
    fl ((m : ℚ) * 2 ^ e) = (m : ℚ) * 2 ^ e := by
  by_cases hm0 : m = 0
  · subst hm0; simp [fl, rne]
  have hq : |(m : ℚ) * 2 ^ e| = (|m| : Int) * 2 ^ e := by
    rw [abs_mul, abs_of_pos (two_zpow_pos e)]; push_cast; rfl
  have hpos : 0 < |(m : ℚ) * 2 ^ e| := by
    rw [hq]; exact mul_pos (by exact_mod_cast abs_pos.mpr hm0) (two_zpow_pos e)
  have hlt : |(m : ℚ) * 2 ^ e| < 2 ^ (e + 53) := by
    rw [hq, zpow_add₀ (by norm_num), mul_comm ((2 : ℚ) ^ e)]
    refine mul_lt_mul_of_pos_right ?_ (two_zpow_pos e)
    have : ((|m| : Int) : ℚ) < ((2 ^ 53 : Int) : ℚ) := by exact_mod_cast hm
    have h53 : ((2 ^ 53 : Int) : ℚ) = (2 : ℚ) ^ (53 : Int) := by norm_num
    rw [h53] at this
    exact this
  have h2' : ((2 : ℕ) : ℚ) = 2 := by norm_num
  have hlog : Int.log 2 |(m : ℚ) * 2 ^ e| < e + 53 := by
    rw [← Int.lt_zpow_iff_log_lt (by norm_num) hpos, h2']; exact hlt
  have hle : ulpExp ((m : ℚ) * 2 ^ e) ≤ e := by
    unfold ulpExp; exact max_le (by omega) he
  obtain ⟨k, hk⟩ := Int.eq_ofNat_of_zero_le (sub_nonneg.mpr hle)
  have hy : (m : ℚ) * 2 ^ e / 2 ^ ulpExp ((m : ℚ) * 2 ^ e) = ((m * 2 ^ k : Int) : ℚ) := by
    rw [mul_div_assoc, ← zpow_sub₀ (by norm_num), hk]; push_cast; simp
  unfold fl
  rw [hy, rne_intCast, ← hy]
  field_simp

theorem fl_intCast (n : Int) (hn : |n| < 2 ^ 53) : fl (n : ℚ) = n := by
  have := fl_exact n 0 hn (by norm_num)
  simpa using this

theorem fl_zero : fl 0 = 0 := by
  have := fl_intCast 0 (by norm_num)
  simpa using this

theorem rne_nonneg {x : ℚ} (h : 0 ≤ x) : 0 ≤ rne x := by
  have h1 := rne_sub_abs x
  rw [abs_le] at h1
  have h2 : (-1 : ℚ) < ((rne x : Int) : ℚ) := by linarith
  have h3 : (-1 : Int) < rne x := by exact_mod_cast h2
  omega

theorem rne_nonpos {x : ℚ} (h : x ≤ 0) : rne x ≤ 0 := by
  have h1 := rne_sub_abs x
  rw [abs_le] at h1
  have h2 : ((rne x : Int) : ℚ) < 1 := by linarith
  have h3 : rne x < 1 := by exact_mod_cast h2
  omega

theorem fl_nonneg {q : ℚ} (h : 0 ≤ q) : 0 ≤ fl q := by
  unfold fl
  have hp := two_zpow_pos (ulpExp q)
  have : 0 ≤ rne (q / 2 ^ ulpExp q) := rne_nonneg (div_nonneg h hp.le)
  exact mul_nonneg (by exact_mod_cast this) hp.le

theorem fl_nonpos {q : ℚ} (h : q ≤ 0) : fl q ≤ 0 := by
  unfold fl
  have hp := two_zpow_pos (ulpExp q)
  have : rne (q / 2 ^ ulpExp q) ≤ 0 := rne_nonpos (div_nonpos_of_nonpos_of_nonneg h hp.le)
  exact mul_nonpos_of_nonpos_of_nonneg (by exact_mod_cast this) hp.le


theorem rne_abs_lt (x : ℚ) (B : Int) (h : |x| < (B : ℚ)) : |rne x| ≤ B := by
  have h1 := rne_sub_abs x
  rw [abs_le] at h1
  rw [abs_lt] at h
  have h2 : ((rne x : Int) : ℚ) < ((B + 1 : Int) : ℚ) := by push_cast; linarith
  have h3 : ((-(B + 1) : Int) : ℚ) < ((rne x : Int) : ℚ) := by push_cast; linarith
  have h4 : rne x < B + 1 := by exact_mod_cast h2
  have h5 : -(B + 1) < rne x := by exact_mod_cast h3
  rw [abs_le]; omega

theorem rne_abs_ge (x : ℚ) (B : Int) (h : (B : ℚ) ≤ |x|) : B ≤ |rne x| := by
  have h1 := rne_sub_abs x
  have h2 : |x| ≤ |((rne x : Int) : ℚ)| + 1 / 2 := by
    have := abs_sub_abs_le_abs_sub x ((rne x : Int) : ℚ)
    rw [abs_sub_comm] at this
    linarith
  have h3 : ((B - 1 : Int) : ℚ) < ((|rne x| : Int) : ℚ) := by
    push_cast; linarith
  have h4 : B - 1 < |rne x| := by exact_mod_cast h3
  omega

theorem fl_abs (q : ℚ) : |fl q| = ((|rne (q / 2 ^ ulpExp q)| : Int) : ℚ) * 2 ^ ulpExp q := by
  unfold fl
  rw [abs_mul, abs_of_pos (two_zpow_pos _)]
  push_cast
  rfl

theorem fl_abs_ge_zpow {q : ℚ} {k : Int} (hk : -1022 ≤ k) (h : 2 ^ k ≤ |q|) :
    2 ^ k ≤ |fl q| := by
  have hpos : 0 < |q| := lt_of_lt_of_le (two_zpow_pos k) h
  have h2' : ((2 : ℕ) : ℚ) = 2 := by norm_num
  have hkl : k ≤ Int.log 2 |q| := by
    rw [← Int.zpow_le_iff_le_log (by norm_num) hpos, h2']; exact h
  have hn : (2 : ℚ) ^ (-1022 : Int) ≤ |q| :=
    le_trans (zpow_le_zpow_right₀ (by norm_num) hk) h
  have he := ulpExp_normal hn
  have h3 := Int.zpow_log_le_self (R := ℚ) (b := 2) (by norm_num) hpos
  rw [h2'] at h3
  have hy : ((2 ^ 52 : Int) : ℚ) ≤ |q / 2 ^ ulpExp q| := by
    rw [abs_div, abs_of_pos (two_zpow_pos _), le_div_iff₀ (two_zpow_pos _), he]
    have h52 : ((2 ^ 52 : Int) : ℚ) = (2 : ℚ) ^ (52 : Int) := by norm_num
    rw [h52, ← zpow_add₀ (by norm_num)]
    have : (52 : Int) + (Int.log 2 |q| - 52) = Int.log 2 |q| := by ring
    rw [this]; exact h3
  have hr := rne_abs_ge _ _ hy
  rw [fl_abs]
  have hr' : ((2 ^ 52 : Int) : ℚ) ≤ ((|rne (q / 2 ^ ulpExp q)| : Int) : ℚ) := by
    exact_mod_cast hr
  calc (2 : ℚ) ^ k ≤ 2 ^ Int.log 2 |q| := zpow_le_zpow_right₀ (by norm_num) hkl
    _ = ((2 ^ 52 : Int) : ℚ) * 2 ^ ulpExp q := by
        have h52 : ((2 ^ 52 : Int) : ℚ) = (2 : ℚ) ^ (52 : Int) := by norm_num
        rw [h52, ← zpow_add₀ (by norm_num), he]
        congr 1; ring
    _ ≤ _ := mul_le_mul_of_nonneg_right hr' (two_zpow_pos _).le

theorem fl_idem (q : ℚ) : fl (fl q) = fl q := by
  have hlt := abs_lt_zpow_ulpExp q
  have hy : |q / 2 ^ ulpExp q| < ((2 ^ 53 : Int) : ℚ) := by
    rw [abs_div, abs_of_pos (two_zpow_pos _), div_lt_iff₀ (two_zpow_pos _)]
    have h53 : ((2 ^ 53 : Int) : ℚ) = (2 : ℚ) ^ (53 : Int) := by norm_num
    rw [h53, ← zpow_add₀ (by norm_num), add_comm]
    exact hlt
  have hr := rne_abs_lt _ (2 ^ 53) hy
  rcases lt_or_eq_of_le hr with h | h
  · exact fl_exact _ _ h (ulpExp_ge q)
  · have hcases : rne (q / 2 ^ ulpExp q) = 2 ^ 53 ∨ rne (q / 2 ^ ulpExp q) = -2 ^ 53 := by
      rcases abs_cases (rne (q / 2 ^ ulpExp q)) with ⟨h1, _⟩ | ⟨h1, _⟩
      · left; omega
      · right; omega
    have key : ∀ s : Int, |s| < 2 ^ 53 → ((2 * s : Int) : ℚ) * 2 ^ ulpExp q
        = (s : ℚ) * 2 ^ (ulpExp q + 1) := by
      intro s _
      rw [zpow_add₀ (by norm_num)]; push_cast; ring
    rcases hcases with h1 | h1
    · have : fl q = ((2 ^ 52 : Int) : ℚ) * 2 ^ (ulpExp q + 1) := by
        rw [← key _ (by norm_num)]; unfold fl; rw [h1]; norm_num
      rw [this]
      exact fl_exact _ _ (by norm_num) (by have := ulpExp_ge q; omega)
    · have : fl q = ((-2 ^ 52 : Int) : ℚ) * 2 ^ (ulpExp q + 1) := by
        rw [← key _ (by norm_num)]; unfold fl; rw [h1]; norm_num
      rw [this]
      exact fl_exact _ _ (by norm_num) (by have := ulpExp_ge q; omega)

theorem toInt_eq_of_cell {x y : ℚ} (k : Int) (hx1 : (k : ℚ) < x) (hx2 : x < (k : ℚ) + 1)
    (hy1 : (k : ℚ) < y) (hy2 : y < (k : ℚ) + 1) : toInt x = toInt y := by
  by_cases hk : 0 ≤ k
  · have hk' : (0 : ℚ) ≤ (k : ℚ) := by exact_mod_cast hk
    rw [toInt_of_nonneg (by linarith), toInt_of_nonneg (by linarith)]
    rw [Int.floor_eq_iff.mpr ⟨hx1.le, hx2⟩, Int.floor_eq_iff.mpr ⟨hy1.le, hy2⟩]
  · have hk' : (k : ℚ) + 1 ≤ 0 := by
      have : k + 1 ≤ 0 := by omega
      exact_mod_cast this
    rw [toInt_of_nonpos (by linarith), toInt_of_nonpos (by linarith)]
    have hx : ⌈x⌉ = k + 1 := by
      rw [Int.ceil_eq_iff]; push_cast; constructor <;> linarith
    have hy : ⌈y⌉ = k + 1 := by
      rw [Int.ceil_eq_iff]; push_cast; constructor <;> linarith
    rw [hx, hy]

theorem tdiv_eq_floor {a b : Int} (ha : 0 ≤ a) (hb : 0 < b) :
    Int.tdiv a b = ⌊(a : ℚ) / (b : ℚ)⌋ := by
  rw [Int.tdiv_eq_ediv ha hb.le]
  symm
  rw [Int.floor_eq_iff]
  have hb' : (0 : ℚ) < (b : ℚ) := by exact_mod_cast hb
  constructor
  · rw [le_div_iff₀ hb']
    have := Int.ediv_mul_le a (ne_of_gt hb)
    exact_mod_cast this
  · rw [div_lt_iff₀ hb']
    have := Int.lt_ediv_add_one_mul_self a hb
    exact_mod_cast this

theorem toInt_div (a n : Int) (hn : 0 < n) : toInt ((a : ℚ) / (n : ℚ)) = Int.tdiv a n := by
  have hn' : (0 : ℚ) < (n : ℚ) := by exact_mod_cast hn
  by_cases ha : 0 ≤ a
  · have ha' : (0 : ℚ) ≤ (a : ℚ) := by exact_mod_cast ha
    rw [toInt_of_nonneg (div_nonneg ha' hn'.le), tdiv_eq_floor ha hn]
  · have ha2 : 0 ≤ -a := by omega
    have ha' : (0 : ℚ) ≤ ((-a : Int) : ℚ) := by exact_mod_cast ha2
    have h1 : (a : ℚ) / (n : ℚ) = -(((-a : Int) : ℚ) / (n : ℚ)) := by push_cast; ring
    rw [h1, toInt_neg, toInt_of_nonneg (div_nonneg ha' hn'.le), ← tdiv_eq_floor ha2 hn,
      Int.neg_tdiv]
    ring

theorem toInt_fl_div (a n : Int) (ha : |a| < 2 ^ 53) (hn : 1 ≤ n) (hn2 : n ≤ 2 ^ 31) :
    toInt (fl ((a : ℚ) / (n : ℚ))) = Int.tdiv a n := by
  have hn' : (0 : ℚ) < (n : ℚ) := by exact_mod_cast (by omega : 0 < n)
  rw [← toInt_div a n (by omega)]
  by_cases hdiv : n ∣ a
  · obtain ⟨k, rfl⟩ := hdiv
    have hk : |k| < 2 ^ 53 := by
      rw [abs_mul] at ha
      have : |k| ≤ |n| * |k| := le_mul_of_one_le_left (abs_nonneg k) (by rw [abs_of_pos] <;> omega)
      omega
    have hx : ((n * k : Int) : ℚ) / (n : ℚ) = (k : ℚ) := by
      push_cast; field_simp
    rw [hx, fl_intCast k hk]
  · have hmod1 : 0 < a % n := by
      have := Int.emod_nonneg a (by omega : n ≠ 0)
      have h0 : a % n ≠ 0 := fun h => hdiv (Int.dvd_of_emod_eq_zero h)
      omega
    have hmod2 : a % n < n := Int.emod_lt_of_pos a (by omega)
    obtain ⟨k, r, hkr, hr0, hrn⟩ : ∃ k r : Int, a = n * k + r ∧ 0 < r ∧ r < n :=
      ⟨a / n, a % n, (Int.ediv_add_emod a n).symm, hmod1, hmod2⟩
    have ha0 : a ≠ 0 := fun h => hdiv (h ▸ dvd_zero n)
    have hr1 : (1 : ℚ) ≤ (r : ℚ) := by exact_mod_cast hr0
    have hr2 : (r : ℚ) ≤ (n : ℚ) - 1 := by
      have : r ≤ n - 1 := by omega
      exact_mod_cast this
    have hx : (a : ℚ) / (n : ℚ) = (k : ℚ) + (r : ℚ) / (n : ℚ) := by
      rw [hkr]; push_cast; field_simp; ring
    have hinv : (0 : ℚ) < 1 / (n : ℚ) := by positivity
    have hx1 : (k : ℚ) + 1 / (n : ℚ) ≤ (a : ℚ) / (n : ℚ) := by
      rw [hx]
      have : 1 / (n : ℚ) ≤ (r : ℚ) / (n : ℚ) := div_le_div_of_nonneg_right hr1 hn'.le
      linarith
    have hx2 : (a : ℚ) / (n : ℚ) ≤ (k : ℚ) + 1 - 1 / (n : ℚ) := by
      rw [hx]
      have : (r : ℚ) / (n : ℚ) ≤ ((n : ℚ) - 1) / (n : ℚ) := div_le_div_of_nonneg_right hr2 hn'.le
      have h3 : ((n : ℚ) - 1) / (n : ℚ) = 1 - 1 / (n : ℚ) := by field_simp
      linarith
    have habs : |(a : ℚ) / (n : ℚ)| = ((|a| : Int) : ℚ) / (n : ℚ) := by
      rw [abs_div, abs_of_pos hn']; push_cast; rfl
    have ha1 : (1 : ℚ) ≤ ((|a| : Int) : ℚ) := by
      have : 1 ≤ |a| := Int.one_le_abs ha0
      exact_mod_cast this
    have ha2 : ((|a| : Int) : ℚ) < 2 ^ 53 := by exact_mod_cast ha
    have hn3 : (n : ℚ) ≤ 2 ^ 31 := by exact_mod_cast hn2
    have hnorm : (2 : ℚ) ^ (-1022 : Int) ≤ |(a : ℚ) / (n : ℚ)| := by
      rw [habs]
      have h1 : (2 : ℚ) ^ (-1022 : Int) ≤ 2 ^ (-31 : Int) :=
        zpow_le_zpow_right₀ (by norm_num) (by norm_num)
      have h2 : (2 : ℚ) ^ (-31 : Int) ≤ 1 / (n : ℚ) := by
        rw [le_div_iff₀ hn']
        have : (2 : ℚ) ^ (-31 : Int) * 2 ^ 31 = 1 := by norm_num
        nlinarith [two_zpow_pos (-31)]
      have h3 : 1 / (n : ℚ) ≤ ((|a| : Int) : ℚ) / (n : ℚ) :=
        div_le_div_of_nonneg_right ha1 hn'.le
      linarith
    have herr := fl_sub_abs_le hnorm
    have herr2 : |(a : ℚ) / (n : ℚ)| / 2 ^ 53 < 1 / (n : ℚ) := by
      rw [habs, div_div, div_lt_div_iff₀ (by positivity) hn']
      nlinarith
    have herr3 := lt_of_le_of_lt herr herr2
    rw [abs_lt] at herr3
    exact toInt_eq_of_cell k (by linarith) (by linarith) (by linarith) (by linarith)


theorem fl_eq_of {q : ℚ} (k m : Int) (hk : -1022 ≤ k) (h1 : 2 ^ k ≤ |q|)
    (h2 : |q| < 2 ^ (k + 1)) (hm : |(m : ℚ) - q / 2 ^ (k - 52)| < 1 / 2) :
    fl q = (m : ℚ) * 2 ^ (k - 52) := by
  unfold fl
  rw [ulpExp_of_mem hk h1 h2, rne_eq_of_lt _ m hm]

theorem flsqrt_nonneg (x : ℚ) : 0 ≤ flsqrt x := by
  unfold flsqrt
  split_ifs
  · exact le_refl 0
  · exact mul_nonneg (Nat.cast_nonneg _) (two_zpow_pos _).le

theorem four_zpow (e : Int) : (4 : ℚ) ^ e = 2 ^ (2 * e) := by
  rw [zpow_mul]; norm_num

theorem sqrt_floor_sq_le {y : ℚ} (hy : 0 ≤ y) : ((Nat.sqrt ⌊y⌋₊ : ℚ)) ^ 2 ≤ y := by
  have h1 : Nat.sqrt ⌊y⌋₊ ^ 2 ≤ ⌊y⌋₊ := Nat.sqrt_le' _
  have h2 : ((⌊y⌋₊ : ℕ) : ℚ) ≤ y := Nat.floor_le hy
  have h3 : ((Nat.sqrt ⌊y⌋₊ ^ 2 : ℕ) : ℚ) ≤ ((⌊y⌋₊ : ℕ) : ℚ) := by exact_mod_cast h1
  push_cast at h3
  linarith

theorem lt_sqrt_floor_succ_sq {y : ℚ} : y < ((Nat.sqrt ⌊y⌋₊ : ℚ) + 1) ^ 2 := by
  have h1 : ⌊y⌋₊ < (Nat.sqrt ⌊y⌋₊ + 1) ^ 2 := Nat.lt_succ_sqrt' _
  have h2 : y < ((⌊y⌋₊ : ℕ) : ℚ) + 1 := Nat.lt_floor_add_one y
  have h3 : ((⌊y⌋₊ + 1 : ℕ) : ℚ) ≤ (((Nat.sqrt ⌊y⌋₊ + 1) ^ 2 : ℕ) : ℚ) := by exact_mod_cast h1
  push_cast at h3
  linarith

theorem flsqrt_eq_of {x : ℚ} (k : Int) (n : Nat) (h1 : 4 ^ k ≤ x) (h2 : x < 4 ^ (k + 1))
    (hn1 : ((n : ℚ) - 1 / 2) ^ 2 < x / 4 ^ (k - 52))
    (hn2 : x / 4 ^ (k - 52) < ((n : ℚ) + 1 / 2) ^ 2) (hn0 : 1 ≤ n) :
    flsqrt x = (n : ℚ) * 2 ^ (k - 52) := by
  have hx : 0 < x := lt_of_lt_of_le (zpow_pos (by norm_num) k) h1
  have h2' : ((2 : ℕ) : ℚ) = 2 := by norm_num
  have ha : 2 * k ≤ Int.log 2 x := by
    rw [← Int.zpow_le_iff_le_log (by norm_num) hx, h2', ← four_zpow]; exact h1
  have hb : Int.log 2 x < 2 * (k + 1) := by
    rw [← Int.lt_zpow_iff_log_lt (by norm_num) hx, h2', ← four_zpow]; exact h2
  have he : Int.log 2 x / 2 - 52 = k - 52 := by omega
  have hy0 : 0 ≤ x / 4 ^ (k - 52) := div_nonneg hx.le (zpow_pos (by norm_num) _).le
  have hm1 := sqrt_floor_sq_le hy0
  have hm2 := lt_sqrt_floor_succ_sq (y := x / 4 ^ (k - 52))
  have hn0' : (1 : ℚ) ≤ (n : ℚ) := by exact_mod_cast hn0
  have hmn : Nat.sqrt ⌊x / 4 ^ (k - 52)⌋₊ ≤ n := by
    by_contra hcon
    have : n + 1 ≤ Nat.sqrt ⌊x / 4 ^ (k - 52)⌋₊ := by omega
    have h3 : ((n : ℚ) + 1) ≤ (Nat.sqrt ⌊x / 4 ^ (k - 52)⌋₊ : ℚ) := by exact_mod_cast this
    nlinarith
  have hnm : n ≤ Nat.sqrt ⌊x / 4 ^ (k - 52)⌋₊ + 1 := by
    by_contra hcon
    have : Nat.sqrt ⌊x / 4 ^ (k - 52)⌋₊ + 2 ≤ n := by omega
    have h3 : (Nat.sqrt ⌊x / 4 ^ (k - 52)⌋₊ : ℚ) + 2 ≤ (n : ℚ) := by exact_mod_cast this
    have h4 : (0 : ℚ) ≤ (Nat.sqrt ⌊x / 4 ^ (k - 52)⌋₊ : ℚ) := Nat.cast_nonneg _
    nlinarith
  unfold flsqrt
  rw [if_neg (not_le.mpr hx)]
  simp only [he]
  congr 1
  rcases Nat.lt_or_ge (Nat.sqrt ⌊x / 4 ^ (k - 52)⌋₊) n with hlt | hge
  · have hm : Nat.sqrt ⌊x / 4 ^ (k - 52)⌋₊ + 1 = n := by omega
    have hmq : (Nat.sqrt ⌊x / 4 ^ (k - 52)⌋₊ : ℚ) = (n : ℚ) - 1 := by
      have : ((Nat.sqrt ⌊x / 4 ^ (k - 52)⌋₊ + 1 : ℕ) : ℚ) = (n : ℚ) := by exact_mod_cast hm
      push_cast at this; linarith
    have hc : ((Nat.sqrt ⌊x / 4 ^ (k - 52)⌋₊ : ℚ) + 1 / 2) ^ 2 < x / 4 ^ (k - 52) := by
      rw [hmq]; have : (n : ℚ) - 1 + 1 / 2 = (n : ℚ) - 1 / 2 := by ring
      rw [this]; exact hn1
    rw [if_neg (not_lt.mpr hc.le), if_pos hc]
    exact_mod_cast hm
  · have hm : Nat.sqrt ⌊x / 4 ^ (k - 52)⌋₊ = n := by omega
    have hc : x / 4 ^ (k - 52) < ((Nat.sqrt ⌊x / 4 ^ (k - 52)⌋₊ : ℚ) + 1 / 2) ^ 2 := by
      rw [hm]; exact hn2
    rw [if_pos hc]
    exact_mod_cast hm

theorem flsqrt_le_zpow {x : ℚ} (k : Int) (h : x < 4 ^ k) : flsqrt x ≤ 2 ^ k := by
  by_cases hx : x ≤ 0
  · unfold flsqrt; rw [if_pos hx]; exact (two_zpow_pos k).le
  have hx' : 0 < x := not_le.mp hx
  have h2' : ((2 : ℕ) : ℚ) = 2 := by norm_num
  have hb : Int.log 2 x < 2 * k := by
    rw [← Int.lt_zpow_iff_log_lt (by norm_num) hx', h2', ← four_zpow]; exact h
  have hlt := Int.lt_zpow_succ_log_self (R := ℚ) (b := 2) (by norm_num) x
  rw [h2'] at hlt
  have hE : Int.log 2 x + 1 ≤ 2 * (Int.log 2 x / 2 + 1) := by omega
  have hx4 : x < 4 ^ (Int.log 2 x / 2 + 1) := by
    rw [four_zpow]
    exact lt_of_lt_of_le hlt (zpow_le_zpow_right₀ (by norm_num) hE)
  have h4pos : (0 : ℚ) < 4 ^ (Int.log 2 x / 2 - 52) := zpow_pos (by norm_num) _
  have hy : x / 4 ^ (Int.log 2 x / 2 - 52) < 9007199254740992 ^ 2 := by
    rw [div_lt_iff₀ h4pos]
    have : (9007199254740992 : ℚ) ^ 2 * 4 ^ (Int.log 2 x / 2 - 52)
        = 4 ^ (Int.log 2 x / 2 + 1) := by
      have h53 : (9007199254740992 : ℚ) ^ 2 = 4 ^ (53 : Int) := by norm_num
      rw [h53, ← zpow_add₀ (by norm_num)]
      congr 1; ring
    rw [this]; exact hx4
  have hy0 : 0 ≤ x / 4 ^ (Int.log 2 x / 2 - 52) := div_nonneg hx'.le h4pos.le
  have hm1 := sqrt_floor_sq_le hy0
  have hm : Nat.sqrt ⌊x / 4 ^ (Int.log 2 x / 2 - 52)⌋₊ + 1 ≤ 9007199254740992 := by
    by_contra hcon
    have : 9007199254740992 ≤ Nat.sqrt ⌊x / 4 ^ (Int.log 2 x / 2 - 52)⌋₊ := by omega
    have h3 : ((9007199254740992 : ℕ) : ℚ)
        ≤ (Nat.sqrt ⌊x / 4 ^ (Int.log 2 x / 2 - 52)⌋₊ : ℚ) := by
      exact_mod_cast this
    rw [Nat.cast_ofNat] at h3
    have h4 := pow_le_pow_left₀ (by norm_num) h3 2
    linarith
  unfold flsqrt
  rw [if_neg hx]
  simp only
  have hn : ∀ n : ℕ, n ≤ 9007199254740992 →
      (n : ℚ) * 2 ^ (Int.log 2 x / 2 - 52) ≤ 2 ^ k := by
    intro n hn
    have h1 : (n : ℚ) ≤ 2 ^ (53 : Int) := by
      have : (n : ℚ) ≤ ((9007199254740992 : ℕ) : ℚ) := by exact_mod_cast hn
      norm_num at this ⊢; exact this
    calc (n : ℚ) * 2 ^ (Int.log 2 x / 2 - 52)
        ≤ 2 ^ (53 : Int) * 2 ^ (Int.log 2 x / 2 - 52) :=
          mul_le_mul_of_nonneg_right h1 (two_zpow_pos _).le
      _ = 2 ^ (Int.log 2 x / 2 + 1) := by
          rw [← zpow_add₀ (by norm_num)]; congr 1; ring
      _ ≤ 2 ^ k := zpow_le_zpow_right₀ (by norm_num) (by omega)
  apply hn
  split_ifs <;> omega

theorem toInt_nonneg {q : ℚ} (h : 0 ≤ q) : 0 ≤ toInt q := by
  rw [toInt_of_nonneg h]; exact Int.floor_nonneg.mpr h

theorem toInt32_of_mem {q : ℚ} (h1 : -2147483649 < q) (h2 : q < 2147483648) :
    toInt32 q = some (toInt q) := by
  unfold toInt32; rw [if_pos ⟨h1, h2⟩]

theorem toInt32_eq_some {q : ℚ} {d : Int} (h : toInt32 q = some d) :
    -2147483649 < q ∧ q < 2147483648 ∧ d = toInt q := by
  unfold toInt32 at h
  split at h
  · rename_i hq
    simp only [Option.some.injEq] at h
    exact ⟨hq.1, hq.2, h.symm⟩
  · simp at h

/-- The rounding error of a zero or normal value is at most `2^-53` of its magnitude. -/
theorem fl_sub_abs_le_of {q : ℚ} (h : q = 0 ∨ 2 ^ (-1022 : Int) ≤ |q|) :
    |fl q - q| ≤ |q| / 2 ^ 53 := by
  rcases h with h | h
  · subst h; simp [fl_zero]
  · exact fl_sub_abs_le h

theorem one_le_fl {q : ℚ} (h : 1 ≤ q) : 1 ≤ fl q := by
  have h1 : (2 : ℚ) ^ (0 : Int) ≤ |q| := by
    rw [abs_of_nonneg (by linarith)]; simpa using h
  have h2 := fl_abs_ge_zpow (by norm_num) h1
  rw [abs_of_nonneg (fl_nonneg (by linarith))] at h2
  simpa using h2

/-- An integer whose rounded value converts to `int` is converted exactly. -/
theorem toInt32_fl_intCast {a d : Int} (h : toInt32 (fl (a : ℚ)) = some d) : d = a := by
  obtain ⟨h1, h2, h3⟩ := toInt32_eq_some h
  have ha : |a| < 2 ^ 53 := by
    by_contra hcon
    have h4 : (2 : ℚ) ^ (53 : Int) ≤ |(a : ℚ)| := by
      have : (2 ^ 53 : Int) ≤ |a| := by omega
      have h5 : ((2 ^ 53 : Int) : ℚ) ≤ ((|a| : Int) : ℚ) := by exact_mod_cast this
      have h6 : ((2 ^ 53 : Int) : ℚ) = (2 : ℚ) ^ (53 : Int) := by norm_num
      rw [h6] at h5
      simpa using h5
    have h5 := fl_abs_ge_zpow (by norm_num) h4
    have h6 : |fl (a : ℚ)| < 2147483649 := abs_lt.mpr ⟨by linarith, by linarith⟩
    have h7 : (2 : ℚ) ^ (53 : Int) = 9007199254740992 := by norm_num
    rw [h7] at h5
    linarith
  rw [h3, fl_intCast a ha, toInt_intCast]

theorem onePlusSqrtToInt_pos {x : ℚ} {c : Int} (h : onePlusSqrtToInt x = some c) :
    1 ≤ c := by
  unfold onePlusSqrtToInt at h
  split at h
  · obtain ⟨_, _, hc⟩ := toInt32_eq_some h
    have h1 : (1 : ℚ) ≤ fl (1 + flsqrt x) := one_le_fl (by linarith [flsqrt_nonneg x])
    rw [hc, toInt_of_nonneg (by linarith)]
    exact Int.le_floor.mpr (by exact_mod_cast h1)
  · simp at h

/-- For a radicand below `2^60` the double `1 + sqrt(x)` fits an `int`. -/
theorem onePlusSqrtToInt_some {x : ℚ} (h0 : 0 ≤ x) (h1 : x < 4 ^ (30 : Int)) :
    onePlusSqrtToInt x = some ⌊fl (1 + flsqrt x)⌋ := by
  have hs0 := flsqrt_nonneg x
  have hs1 : flsqrt x ≤ 2 ^ (30 : Int) := flsqrt_le_zpow 30 h1
  have h30 : (2 : ℚ) ^ (30 : Int) = 1073741824 := by norm_num
  rw [h30] at hs1
  have hy : (1 : ℚ) ≤ 1 + flsqrt x := by linarith
  have hf := one_le_fl hy
  have hn : (2 : ℚ) ^ (-1022 : Int) ≤ |1 + flsqrt x| := by
    rw [abs_of_nonneg (by linarith)]
    have : (2 : ℚ) ^ (-1022 : Int) ≤ 2 ^ (0 : Int) :=
      zpow_le_zpow_right₀ (by norm_num) (by norm_num)
    have h2 : (2 : ℚ) ^ (0 : Int) = 1 := by norm_num
    linarith
  have herr := fl_sub_abs_le hn
  rw [abs_of_nonneg (by linarith : (0 : ℚ) ≤ 1 + flsqrt x), abs_le] at herr
  have hup : fl (1 + flsqrt x) < 2147483648 := by
    have h53 : ((2 : ℚ) ^ 53) = 9007199254740992 := by norm_num
    rw [h53] at herr
    have : (1 + flsqrt x) / 9007199254740992 ≤ 1 := by
      rw [div_le_one (by norm_num)]; linarith
    linarith [herr.2]
  unfold onePlusSqrtToInt
  rw [if_pos h0, toInt32_of_mem (by linarith) hup, toInt_of_nonneg (by linarith)]

theorem onePlusSqrtToInt_le {x : ℚ} {c : Int} (h : onePlusSqrtToInt x = some c) :
    c ≤ 2147483647 := by
  unfold onePlusSqrtToInt at h
  split at h
  · obtain ⟨_, h2, hc⟩ := toInt32_eq_some h
    have h1 : (1 : ℚ) ≤ fl (1 + flsqrt x) := one_le_fl (by linarith [flsqrt_nonneg x])
    rw [hc, toInt_of_nonneg (by linarith)]
    have : ⌊fl (1 + flsqrt x)⌋ < 2147483648 := by
      rw [Int.floor_lt]; exact_mod_cast h2
    omega
  · simp at h

/-- The double square root is a nearest value: its relative error is at most `2^-53`. -/
theorem flsqrt_sq_bounds {x : ℚ} (hx : 0 < x) :
    0 < flsqrt x
    ∧ (flsqrt x * (1 - 1 / 2 ^ 53)) ^ 2 ≤ x
    ∧ x ≤ (flsqrt x * (1 + 1 / 2 ^ 53)) ^ 2 := by
  have h2' : ((2 : ℕ) : ℚ) = 2 := by norm_num
  have hlog := Int.zpow_log_le_self (R := ℚ) (b := 2) (by norm_num) hx
  rw [h2'] at hlog
  have h4pos : (0 : ℚ) < 4 ^ (Int.log 2 x / 2 - 52) := zpow_pos (by norm_num) _
  have h2pos : (0 : ℚ) < 2 ^ (Int.log 2 x / 2 - 52) := two_zpow_pos _
  have h42 : (4 : ℚ) ^ (Int.log 2 x / 2 - 52) = (2 ^ (Int.log 2 x / 2 - 52)) ^ 2 := by
    rw [four_zpow, ← zpow_natCast, ← zpow_mul]; congr 1; ring
  -- y ≥ 4^52
  have hy : (4503599627370496 : ℚ) ^ 2 ≤ x / 4 ^ (Int.log 2 x / 2 - 52) := by
    rw [le_div_iff₀ h4pos]
    have h1 : (4503599627370496 : ℚ) ^ 2 * 4 ^ (Int.log 2 x / 2 - 52)
        = 4 ^ (Int.log 2 x / 2) := by
      have h52 : (4503599627370496 : ℚ) ^ 2 = 4 ^ (52 : Int) := by norm_num
      rw [h52, ← zpow_add₀ (by norm_num)]; congr 1; ring
    rw [h1, four_zpow]
    exact le_trans (zpow_le_zpow_right₀ (by norm_num) (by omega)) hlog
  have hy0 : 0 ≤ x / 4 ^ (Int.log 2 x / 2 - 52) := div_nonneg hx.le h4pos.le
  have hm1 := sqrt_floor_sq_le hy0
  have hm2 := lt_sqrt_floor_succ_sq (y := x / 4 ^ (Int.log 2 x / 2 - 52))
  -- m ≥ 2^52
  have hm : 4503599627370496 ≤ Nat.sqrt ⌊x / 4 ^ (Int.log 2 x / 2 - 52)⌋₊ := by
    rw [Nat.le_sqrt']
    have : ((4503599627370496 ^ 2 : ℕ) : ℚ) ≤ x / 4 ^ (Int.log 2 x / 2 - 52) := by
      push_cast; exact hy
    exact Nat.le_floor this
  have hmq : (4503599627370496 : ℚ) ≤ (Nat.sqrt ⌊x / 4 ^ (Int.log 2 x / 2 - 52)⌋₊ : ℚ) := by
    exact_mod_cast hm
  -- the rounded mantissa
  have key : ∀ n : ℕ, (4503599627370496 : ℚ) ≤ (n : ℚ) →
      ((n : ℚ) - 1 / 2) ^ 2 ≤ x / 4 ^ (Int.log 2 x / 2 - 52) →
      x / 4 ^ (Int.log 2 x / 2 - 52) ≤ ((n : ℚ) + 1 / 2) ^ 2 →
      0 < (n : ℚ) * 2 ^ (Int.log 2 x / 2 - 52)
      ∧ ((n : ℚ) * 2 ^ (Int.log 2 x / 2 - 52) * (1 - 1 / 2 ^ 53)) ^ 2 ≤ x
      ∧ x ≤ ((n : ℚ) * 2 ^ (Int.log 2 x / 2 - 52) * (1 + 1 / 2 ^ 53)) ^ 2 := by
    intro n hn h1 h2
    rw [le_div_iff₀ h4pos] at h1
    rw [div_le_iff₀ h4pos] at h2
    rw [h42] at h1 h2
    have ha : (n : ℚ) * (1 - 1 / 2 ^ 53) ≤ (n : ℚ) - 1 / 2 := by
      have : (n : ℚ) * (1 / 2 ^ 53) ≥ 1 / 2 := by
        have h53 : (1 : ℚ) / 2 ^ 53 = 1 / 9007199254740992 := by norm_num
        rw [h53]; linarith
      linarith
    have hb : (n : ℚ) + 1 / 2 ≤ (n : ℚ) * (1 + 1 / 2 ^ 53) := by
      have : (n : ℚ) * (1 / 2 ^ 53) ≥ 1 / 2 := by
        have h53 : (1 : ℚ) / 2 ^ 53 = 1 / 9007199254740992 := by norm_num
        rw [h53]; linarith
      linarith
    have ha0 : (0 : ℚ) ≤ (n : ℚ) * (1 - 1 / 2 ^ 53) := by
      apply mul_nonneg (by linarith); norm_num
    refine ⟨mul_pos (by linarith) h2pos, ?_, ?_⟩
    · calc ((n : ℚ) * 2 ^ (Int.log 2 x / 2 - 52) * (1 - 1 / 2 ^ 53)) ^ 2
          = ((n : ℚ) * (1 - 1 / 2 ^ 53)) ^ 2 * (2 ^ (Int.log 2 x / 2 - 52)) ^ 2 := by ring
        _ ≤ ((n : ℚ) - 1 / 2) ^ 2 * (2 ^ (Int.log 2 x / 2 - 52)) ^ 2 :=
            mul_le_mul_of_nonneg_right (pow_le_pow_left₀ ha0 ha 2) (sq_nonneg _)
        _ ≤ x := h1
    · calc x ≤ ((n : ℚ) + 1 / 2) ^ 2 * (2 ^ (Int.log 2 x / 2 - 52)) ^ 2 := h2
        _ ≤ ((n : ℚ) * (1 + 1 / 2 ^ 53)) ^ 2 * (2 ^ (Int.log 2 x / 2 - 52)) ^ 2 :=
            mul_le_mul_of_nonneg_right (pow_le_pow_left₀ (by linarith) hb 2) (sq_nonneg _)
        _ = ((n : ℚ) * 2 ^ (Int.log 2 x / 2 - 52) * (1 + 1 / 2 ^ 53)) ^ 2 := by ring
  unfold flsqrt
  rw [if_neg (not_le.mpr hx)]
  simp only
  split_ifs with hc1 hc2 hc3
  · exact key _ hmq (by nlinarith) hc1.le
  · refine key _ (by push_cast; linarith) ?_ ?_
    · push_cast
      have : (Nat.sqrt ⌊x / 4 ^ (Int.log 2 x / 2 - 52)⌋₊ : ℚ) + 1 - 1 / 2
          = (Nat.sqrt ⌊x / 4 ^ (Int.log 2 x / 2 - 52)⌋₊ : ℚ) + 1 / 2 := by ring
      rw [this]; exact hc2.le
    · push_cast; nlinarith
  · have heq : x / 4 ^ (Int.log 2 x / 2 - 52)
        = ((Nat.sqrt ⌊x / 4 ^ (Int.log 2 x / 2 - 52)⌋₊ : ℚ) + 1 / 2) ^ 2 :=
      le_antisymm (not_lt.mp hc2) (not_lt.mp hc1)
    exact key _ hmq (by nlinarith) heq.le
  · have heq : x / 4 ^ (Int.log 2 x / 2 - 52)
        = ((Nat.sqrt ⌊x / 4 ^ (Int.log 2 x / 2 - 52)⌋₊ : ℚ) + 1 / 2) ^ 2 :=
      le_antisymm (not_lt.mp hc2) (not_lt.mp hc1)
    refine key _ (by push_cast; linarith) ?_ ?_
    · push_cast
      have : (Nat.sqrt ⌊x / 4 ^ (Int.log 2 x / 2 - 52)⌋₊ : ℚ) + 1 - 1 / 2
          = (Nat.sqrt ⌊x / 4 ^ (Int.log 2 x / 2 - 52)⌋₊ : ℚ) + 1 / 2 := by ring
      rw [this]; exact heq.ge
    · push_cast; nlinarith

/-! ## Call sequences -/

theorem fills_append (p : Option Pen) (a b : List Cmd) :
    fills p (a ++ b) = fills p a ++ fills (penAfter p a) b := by
  induction a generalizing p with
  | nil => rfl
  | cons c cs ih => cases c <;> simp [fills, penAfter, ih]

theorem penAfter_append (p : Option Pen) (a b : List Cmd) :
    penAfter p (a ++ b) = penAfter (penAfter p a) b := by
  induction a generalizing p with
  | nil => rfl
  | cons c cs ih => cases c <;> simp [penAfter, ih]

/-- The three blocks of one swatch issue one fill polygon, in the colour of `atcat`. -/
theorem fills_swatch (p : Option Pen) (inp : Input) (g : Grid) (atcat c r : Int) :
    fills p (swatch inp g atcat c r) = [some (Pen.cat atcat)] := by
  simp [swatch, whiteBox, blackBox, colorBox, fills]

theorem penAfter_swatch (p : Option Pen) (inp : Input) (g : Grid) (atcat c r : Int) :
    penAfter p (swatch inp g atcat c r) = some (Pen.cat atcat) := by
  simp [swatch, whiteBox, blackBox, colorBox, penAfter]

theorem fills_borders (p : Option Pen) (inp : Input) (g : Grid) (c r : Int) :
    fills p (whiteBox inp g c r ++ blackBox inp g c r) = [] := by
  simp [whiteBox, blackBox, fills]

theorem lineBody_out (inp : Input) (g : Grid) (c : Int) (s : LoopState) :
    (lineBody inp g c s).1.out
      = s.out ++ swatch inp g s.atcat c (s.cur_dot_row + g.dots_per_line) := by
  by_cases h : s.count + 1 = 1 <;> simp [lineBody, h]

theorem lineLoop_out (inp : Input) (g : Grid) (c : Int) (k : Nat) (s : LoopState) :
    ∃ rest, (lineLoop inp g c k s).out = s.out ++ rest := by
  induction k generalizing s with
  | zero => exact ⟨[], by simp [lineLoop]⟩
  | succ k ih =>
    have hb := lineBody_out inp g c s
    rw [lineLoop]
    rcases hbody : lineBody inp g c s with ⟨s1, brk⟩
    rw [hbody] at hb
    simp only at hb
    cases brk with
    | true => exact ⟨_, hb⟩
    | false =>
      obtain ⟨rest, hrest⟩ := ih s1
      refine ⟨swatch inp g s.atcat c (s.cur_dot_row + g.dots_per_line) ++ rest, ?_⟩
      simp only [hrest]
      rw [hb, List.append_assoc]

theorem lineLoop_succ_out (inp : Input) (g : Grid) (c : Int) (k : Nat) (s : LoopState) :
    ∃ rest, (lineLoop inp g c (k + 1) s).out
      = s.out ++ swatch inp g s.atcat c (s.cur_dot_row + g.dots_per_line) ++ rest := by
  have hb := lineBody_out inp g c s
  rw [lineLoop]
  rcases hbody : lineBody inp g c s with ⟨s1, brk⟩
  rw [hbody] at hb
  simp only at hb
  cases brk with
  | true => exact ⟨[], by simpa using hb⟩
  | false =>
    obtain ⟨rest, hrest⟩ := lineLoop_out inp g c k s1
    exact ⟨rest, by simp only [hrest]; rw [hb]⟩

theorem colLoop_out (inp : Input) (g : Grid) (k : Nat) (atcol : Int) (s : LoopState) :
    ∃ rest, (colLoop inp g k atcol s).out = s.out ++ rest := by
  induction k generalizing atcol s with
  | zero => exact ⟨[], by simp [colLoop]⟩
  | succ k ih =>
    rw [colLoop]
    obtain ⟨r1, h1⟩ := lineLoop_out inp g
      (toInt (fl (inp.l + ((atcol * g.dots_per_col : Int) : ℚ)))) g.lines.toNat
      { s with cur_dot_row := toInt inp.t, count := 0 }
    simp only at h1 ⊢
    split
    · exact ⟨r1, h1⟩
    · obtain ⟨r2, h2⟩ := ih (atcol + 1) (lineLoop inp g
        (toInt (fl (inp.l + ((atcol * g.dots_per_col : Int) : ℚ)))) g.lines.toNat
        { s with cur_dot_row := toInt inp.t, count := 0 })
      exact ⟨r1 ++ r2, by rw [h2, h1, List.append_assoc]⟩

/-- With at least one line and one column the discrete call sequence opens with the
swatch of the null pattern at the top-left cell. -/
theorem discrete_head (inp : Input) (g : Grid) (hl : 1 ≤ g.lines) (hc : 1 ≤ g.cols) :
    ∃ rest, discrete inp g
      = swatch inp g inp.cnull (toInt (fl inp.l)) (toInt inp.t + g.dots_per_line)
        ++ rest := by
  obtain ⟨m, hm⟩ : ∃ m, g.lines.toNat = m + 1 := ⟨g.lines.toNat - 1, by omega⟩
  obtain ⟨k, hk⟩ : ∃ k, g.cols.toNat = k + 1 := ⟨g.cols.toNat - 1, by omega⟩
  unfold discrete
  rw [hk, colLoop, hm]
  obtain ⟨r1, h1⟩ := lineLoop_succ_out inp g
    (toInt (fl (inp.l + (((0 : Int) * g.dots_per_col : Int) : ℚ)))) m
    { atcat := inp.cnull, count := 0, cur_dot_row := toInt inp.t, out := [] }
  simp only [zero_mul, Int.cast_zero, add_zero, List.nil_append] at h1 ⊢
  split
  · exact ⟨r1, h1⟩
  · obtain ⟨r2, h2⟩ := colLoop_out inp g k (0 + 1) (lineLoop inp g (toInt (fl inp.l)) (m + 1)
      { atcat := inp.cnull, count := 0, cur_dot_row := toInt inp.t, out := [] })
    exact ⟨r1 ++ r2, by rw [h2, h1, List.append_assoc]⟩

theorem main_discrete (inp : Input) (g : Grid) (hfp : inp.fp = false)
    (hg : grid inp = some g) : main inp = some (discrete inp g) := by
  simp [main, hg, hfp]

theorem main_continuous (inp : Input) (g : Grid) (hfp : inp.fp = true)
    (hg : grid inp = some g) : main inp = some (continuous inp g) := by
  simp [main, hg, hfp]

/-! ## Resolving the grid -/

theorem lines0_fp (inp : Input) (hfp : inp.fp = true) : lines0 inp = 1 := by
  unfold lines0; cases inp.opt3 <;> simp [hfp]

theorem cols0_fp (inp : Input) (hfp : inp.fp = true) : cols0 inp = 1 := by
  unfold cols0; cases inp.opt4 <;> simp [hfp]

theorem layout_fp (inp : Input) (hfp : inp.fp = true) : layout inp = some (1, 1) := by
  simp [layout, lines0_fp inp hfp, cols0_fp inp hfp]

/-- Within the `int` range `cats_num` is the category count `max - min + 1`. -/
theorem cats_num_eq (inp : Input) (hr : IntRange inp) :
    cats_num inp = toInt inp.dmax - toInt inp.dmin + 1 := by
  obtain ⟨_, _, h3, h4⟩ := hr
  unfold cats_num
  rw [wrap32_of_mem h3 (by omega), wrap32_of_mem (by omega) (by omega)]

theorem tdiv_nonneg_le {n c : Int} (hn : 0 ≤ n) (hc : 1 ≤ c) :
    0 ≤ Int.tdiv n c ∧ Int.tdiv n c ≤ n := by
  rw [Int.tdiv_eq_ediv hn (by omega)]
  constructor
  · exact Int.ediv_nonneg hn (by omega)
  · exact Int.ediv_le_self c hn

/-- The sum `1 + n / c` fits an `int` when `0 ≤ n < 2^31 - 1` and `c ≥ 1`. -/
theorem wrap32_one_add_tdiv {n c : Int} (hn : 0 ≤ n) (hn2 : n < 2147483647) (hc : 1 ≤ c) :
    wrap32 (1 + Int.tdiv n c) = 1 + Int.tdiv n c := by
  obtain ⟨h1, h2⟩ := tdiv_nonneg_le hn hc
  exact wrap32_of_mem (by omega) (by omega)

theorem layout_lines_set (inp : Input) (hfp : inp.fp = false) (L : Int)
    (h3 : inp.opt3 = some L) (h4 : inp.opt4 = none) (hL : 1 ≤ L) :
    layout inp = some (L, wrap32 (1 + Int.tdiv (cats_num inp) L)) := by
  have h1 : lines0 inp = L := by simp [lines0, h3, hfp]
  have h2 : cols0 inp = 0 := by simp [cols0, h4, hfp]
  have h5 : ¬ L ≤ 0 := by omega
  have h6 : 0 < L := by omega
  have h7 : L ≠ 0 := by omega
  simp [layout, cdiv, h1, h2, h5, h6, h7]

theorem layout_cols_set (inp : Input) (hfp : inp.fp = false) (C : Int)
    (h3 : inp.opt3 = none) (h4 : inp.opt4 = some C) (hC : 1 ≤ C) :
    layout inp = some (wrap32 (1 + Int.tdiv (cats_num inp) C), C) := by
  have h1 : lines0 inp = 0 := by simp [lines0, h3, hfp]
  have h2 : cols0 inp = C := by simp [cols0, h4, hfp]
  have h5 : ¬ C ≤ 0 := by omega
  have h6 : 0 < C := by omega
  have h7 : C ≠ 0 := by omega
  simp [layout, cdiv, h1, h2, h5, h6, h7]

theorem layout_both_set (inp : Input) (hfp : inp.fp = false) (L C : Int)
    (h3 : inp.opt3 = some L) (h4 : inp.opt4 = some C) (hL : 1 ≤ L) (hC : 1 ≤ C) :
    layout inp = some (L, C) := by
  have h1 : lines0 inp = L := by simp [lines0, h3, hfp]
  have h2 : cols0 inp = C := by simp [cols0, h4, hfp]
  have h5 : ¬ C ≤ 0 := by omega
  have h6 : ¬ L ≤ 0 := by omega
  simp [layout, h1, h2, h5, h6]

/-- The rounding error of a quotient of integers is at most `2^-53` of its magnitude. -/
theorem fl_div_int_sub_abs (a n : Int) (hn : 1 ≤ n) (hn2 : n ≤ 2 ^ 31) :
    |fl ((a : ℚ) / (n : ℚ)) - (a : ℚ) / (n : ℚ)| ≤ |(a : ℚ) / (n : ℚ)| / 2 ^ 53 := by
  apply fl_sub_abs_le_of
  by_cases ha : a = 0
  · left; subst ha; simp
  · right
    have hn' : (0 : ℚ) < (n : ℚ) := by exact_mod_cast (by omega : 0 < n)
    have ha1 : (1 : ℚ) ≤ |(a : ℚ)| := by
      have : 1 ≤ |a| := Int.one_le_abs ha
      exact_mod_cast this
    have hn3 : (n : ℚ) ≤ 2 ^ 31 := by exact_mod_cast hn2
    rw [abs_div, abs_of_pos hn']
    have h1 : (2 : ℚ) ^ (-1022 : Int) ≤ 2 ^ (-31 : Int) :=
      zpow_le_zpow_right₀ (by norm_num) (by norm_num)
    have h2 : (2 : ℚ) ^ (-31 : Int) ≤ 1 / (n : ℚ) := by
      rw [le_div_iff₀ hn']
      have : (2 : ℚ) ^ (-31 : Int) * 2 ^ 31 = 1 := by norm_num
      nlinarith [two_zpow_pos (-31)]
    have h3 : 1 / (n : ℚ) ≤ |(a : ℚ)| / (n : ℚ) := div_le_div_of_nonneg_right ha1 hn'.le
    linarith

/-- A quotient of an `int`-sized difference by a positive `int`, computed as a double and
converted to `int`, is the integer quotient truncated toward zero. -/
theorem toInt32_fl_div (a n : Int) (ha : |a| < 2147483648) (hn : 1 ≤ n)
    (hn2 : n ≤ 2147483647) :
    toInt32 (fl ((a : ℚ) / (n : ℚ))) = some (Int.tdiv a n) := by
  have hn' : (0 : ℚ) < (n : ℚ) := by exact_mod_cast (by omega : 0 < n)
  have hn1 : (1 : ℚ) ≤ (n : ℚ) := by exact_mod_cast hn
  have herr := fl_div_int_sub_abs a n hn (by norm_num; omega)
  have hx : |(a : ℚ) / (n : ℚ)| ≤ 2147483647 := by
    rw [abs_div, abs_of_pos hn', div_le_iff₀ hn']
    have h1 : |(a : ℚ)| ≤ 2147483647 := by
      have : |a| ≤ 2147483647 := by omega
      exact_mod_cast this
    nlinarith [abs_nonneg (a : ℚ)]
  have h53 : ((2 : ℚ) ^ 53) = 9007199254740992 := by norm_num
  rw [h53] at herr
  have hb : |fl ((a : ℚ) / (n : ℚ))| < 2147483648 := by
    have h1 := abs_sub_abs_le_abs_sub (fl ((a : ℚ) / (n : ℚ))) ((a : ℚ) / (n : ℚ))
    have h2 : |(a : ℚ) / (n : ℚ)| / 9007199254740992 ≤ 2147483647 / 9007199254740992 :=
      div_le_div_of_nonneg_right hx (by norm_num)
    have h3 : (2147483647 : ℚ) / 9007199254740992 < 1 := by norm_num
    linarith
  rw [abs_lt] at hb
  rw [toInt32_of_mem (by linarith) hb.2, toInt_fl_div a n (by norm_num; omega) hn
    (by norm_num; omega)]

theorem dots_per_line_eq (inp : Input) (a lines : Int) (ha : inp.b - inp.t = (a : ℚ))
    (hab : |a| < 2147483648) (hl : 1 ≤ lines) (hl2 : lines ≤ 2147483647) :
    dots_per_line inp lines = some (Int.tdiv a lines) := by
  have h0 : lines ≠ 0 := by omega
  unfold dots_per_line
  rw [if_neg h0, ha, fl_intCast a (by norm_num; omega), toInt32_fl_div a lines hab hl hl2]

theorem dots_per_col_eq (inp : Input) (c cols : Int) (hc : inp.r - inp.l = (c : ℚ))
    (hcb : |c| < 2147483648) (hl : 1 ≤ cols) (hl2 : cols ≤ 2147483647) :
    dots_per_col inp cols = some (Int.tdiv c cols) := by
  have h0 : cols ≠ 0 := by omega
  unfold dots_per_col
  rw [if_neg h0, hc, fl_intCast c (by norm_num; omega), toInt32_fl_div c cols hcb hl hl2]

/-- A resolved layout with positive sides yields a grid when the frame extents are
`int`-sized integers. -/
theorem grid_of_layout (inp : Input) (a c lines cols : Int)
    (h : layout inp = some (lines, cols)) (ha : inp.b - inp.t = (a : ℚ))
    (hc : inp.r - inp.l = (c : ℚ)) (hab : |a| < 2147483648) (hcb : |c| < 2147483648)
    (hl : 1 ≤ lines) (hl2 : lines ≤ 2147483647) (hk : 1 ≤ cols)
    (hk2 : cols ≤ 2147483647) :
    grid inp = some ⟨lines, cols, Int.tdiv a lines, Int.tdiv c cols⟩ := by
  simp [grid, h, dots_per_line_eq inp a lines ha hab hl hl2,
    dots_per_col_eq inp c cols hc hcb hk hk2]

theorem intFrame_height {inp : Input} {ti bi li ri : Int} (hf : IntFrame inp ti bi li ri) :
    inp.b - inp.t = ((bi - ti : Int) : ℚ) ∧ |bi - ti| < 2147483648 := by
  obtain ⟨ht, hb, _, _, h1, h2, _, _⟩ := hf
  refine ⟨by rw [ht, hb]; push_cast; rfl, ?_⟩
  rw [abs_le] at h1 h2
  rw [abs_lt]; omega

theorem intFrame_width {inp : Input} {ti bi li ri : Int} (hf : IntFrame inp ti bi li ri) :
    inp.r - inp.l = ((ri - li : Int) : ℚ) ∧ |ri - li| < 2147483648 := by
  obtain ⟨_, _, hl, hr, _, _, h1, h2⟩ := hf
  refine ⟨by rw [hl, hr]; push_cast; rfl, ?_⟩
  rw [abs_le] at h1 h2
  rw [abs_lt]; omega

/-- The grid of a floating-point map: one line and one column, with the double extents of
the frame converted to `int`. -/
theorem grid_fp (inp : Input) (hfp : inp.fp = true) :
    grid inp = (toInt32 (fl (inp.b - inp.t))).bind (fun dl =>
      (toInt32 (fl (inp.r - inp.l))).map (fun dc => (⟨1, 1, dl, dc⟩ : Grid))) := by
  have h1 : dots_per_line inp 1 = toInt32 (fl (inp.b - inp.t)) := by
    simp [dots_per_line, fl_idem]
  have h2 : dots_per_col inp 1 = toInt32 (fl (inp.r - inp.l)) := by
    simp [dots_per_col, fl_idem]
  unfold grid
  rw [layout_fp inp hfp]
  simp only [h1, h2]
  cases toInt32 (fl (inp.b - inp.t)) <;> cases toInt32 (fl (inp.r - inp.l)) <;> rfl

/-- The grid of a floating-point map on a frame whose extents are `int`-sized integers. -/
theorem grid_fp_int (inp : Input) (hfp : inp.fp = true) (a c : Int)
    (ha : inp.b - inp.t = (a : ℚ)) (hc : inp.r - inp.l = (c : ℚ))
    (hab : |a| < 2147483648) (hcb : |c| < 2147483648) :
    grid inp = some ⟨1, 1, a, c⟩ := by
  have := grid_of_layout inp a c 1 1 (layout_fp inp hfp) ha hc hab hcb (le_refl _)
    (by norm_num) (le_refl _) (by norm_num)
  simpa using this

/-- The grid of a floating-point map, read back: one line and one column, the extents
being the converted double height and width. -/
theorem grid_fp_inv (inp : Input) (g : Grid) (hfp : inp.fp = true)
    (hg : grid inp = some g) :
    (g.lines = 1 ∧ g.cols = 1)
      ∧ toInt32 (fl (inp.b - inp.t)) = some g.dots_per_line
      ∧ toInt32 (fl (inp.r - inp.l)) = some g.dots_per_col := by
  rw [grid_fp inp hfp] at hg
  cases h1 : toInt32 (fl (inp.b - inp.t)) with
  | none => rw [h1] at hg; simp at hg
  | some dl =>
    cases h2 : toInt32 (fl (inp.r - inp.l)) with
    | none => rw [h1, h2] at hg; simp at hg
    | some dc =>
      rw [h1, h2] at hg
      simp only [Option.some_bind, Option.map_some', Option.some.injEq] at hg
      subst hg
      exact ⟨⟨rfl, rfl⟩, rfl, rfl⟩

/-! ## Discrete rendering -/

/-- C1: on the integer map with categories 1..3 drawn with `lines=2 cols=3` the discrete
loop issues 6 fill polygons, not `min(lines*cols, N+1) = 4`: `count` is reset at every
column, so the category counter restarts at `min` there and never passes `max`. -/
theorem swatch_count_lines2_cols3 :
    layout (intMap 1 3 (some 2) (some 3) 0 200 0 400) = some (2, 3)
    ∧ cats_num (intMap 1 3 (some 2) (some 3) 0 200 0 400) = 3
    ∧ (main (intMap 1 3 (some 2) (some 3) 0 200 0 400)).map
        (fun cmds => (fills none cmds).length) = some 6
    ∧ min ((2 : Int) * 3) (3 + 1) = 4 := by
  have hg : grid (intMap 1 3 (some 2) (some 3) 0 200 0 400) = some ⟨2, 3, 100, 133⟩ :=
    grid_of_layout _ 200 400 2 3 (by decide) (by norm_num [intMap]) (by norm_num [intMap])
      (by decide) (by decide) (by decide) (by decide) (by decide) (by decide)
  refine ⟨by decide, by decide, ?_, by decide⟩
  rw [main_discrete _ _ rfl hg]
  decide

/-- C2: on the integer map with categories 1..5 drawn with `lines=2 cols=2` the swatches
are filled, in draw order, for the keys null, 1, 2, 1: the second column starts with the
key carried over from the first and then restarts at `min`, so key 1 is repeated and key 3
is not drawn. -/
theorem swatch_keys_lines2_cols2 :
    layout (intMap 1 5 (some 2) (some 2) 0 200 0 400) = some (2, 2)
    ∧ (main (intMap 1 5 (some 2) (some 2) 0 200 0 400)).map (fills none)
        = some [some (Pen.cat (intMap 1 5 (some 2) (some 2) 0 200 0 400).cnull),
            some (Pen.cat 1), some (Pen.cat 2), some (Pen.cat 1)] := by
  have hg : grid (intMap 1 5 (some 2) (some 2) 0 200 0 400) = some ⟨2, 2, 100, 200⟩ :=
    grid_of_layout _ 200 400 2 2 (by decide) (by norm_num [intMap]) (by norm_num [intMap])
      (by decide) (by decide) (by decide) (by decide) (by decide) (by decide)
  refine ⟨by decide, ?_⟩
  rw [main_discrete _ _ rfl hg]
  decide

/-- C3: for an integer map whose resolved grid has `lines ≥ 1` and `cols ≥ 1`, the first
fill polygon is drawn in the colour resolved for the null pattern; the null pattern being
no category of the range, that colour is not the one of a key in `[min, max]`. -/
theorem first_swatch_null (inp : Input) (g : Grid) (hfp : inp.fp = false)
    (hg : grid inp = some g) (hl : 1 ≤ g.lines) (hc : 1 ≤ g.cols)
    (hnull : ¬ (toInt inp.dmin ≤ inp.cnull ∧ inp.cnull ≤ toInt inp.dmax)) :
    ∃ cmds rest, main inp = some cmds
      ∧ fills none cmds = some (Pen.cat inp.cnull) :: rest
      ∧ ∀ k, toInt inp.dmin ≤ k → k ≤ toInt inp.dmax →
          (fills none cmds).head? ≠ some (some (Pen.cat k)) := by
  obtain ⟨rest, hrest⟩ := discrete_head inp g hl hc
  have hf : fills none (discrete inp g)
      = some (Pen.cat inp.cnull) :: fills (some (Pen.cat inp.cnull)) rest := by
    rw [hrest, fills_append, fills_swatch, penAfter_swatch]; rfl
  refine ⟨_, _, main_discrete inp g hfp hg, hf, ?_⟩
  intro k h1 h2 hk
  rw [hf] at hk
  simp only [List.head?_cons, Option.some.injEq, Pen.cat.injEq] at hk
  exact hnull (hk ▸ ⟨h1, h2⟩)

theorem first_swatch_null_witness :
    (intMap 1 5 (some 2) (some 2) 0 200 0 400).fp = false
    ∧ grid (intMap 1 5 (some 2) (some 2) 0 200 0 400) = some ⟨2, 2, 100, 200⟩
    ∧ ∃ cmds rest, main (intMap 1 5 (some 2) (some 2) 0 200 0 400) = some cmds
      ∧ fills none cmds = some (Pen.cat (-2147483648)) :: rest
      ∧ ∀ k, toInt (intMap 1 5 (some 2) (some 2) 0 200 0 400).dmin ≤ k →
          k ≤ toInt (intMap 1 5 (some 2) (some 2) 0 200 0 400).dmax →
          (fills none cmds).head? ≠ some (some (Pen.cat k)) :=
  have hg : grid (intMap 1 5 (some 2) (some 2) 0 200 0 400) = some ⟨2, 2, 100, 200⟩ :=
    grid_of_layout _ 200 400 2 2 (by decide) (by norm_num [intMap]) (by norm_num [intMap])
      (by decide) (by decide) (by decide) (by decide) (by decide) (by decide)
  ⟨rfl, hg, first_swatch_null (intMap 1 5 (some 2) (some 2) 0 200 0 400) ⟨2, 2, 100, 200⟩
    rfl hg (by decide) (by decide) (by decide)⟩

/-! ## Grid layout -/

/-- Capacity of a grid whose one side is `1 + n / c`. -/
theorem capacity_aux (n c : Int) (hn : 0 ≤ n) (hc : 1 ≤ c) :
    n + 1 ≤ (1 + Int.tdiv n c) * c := by
  rw [Int.tdiv_eq_ediv hn (by omega)]
  have h1 := Int.emod_lt_of_pos n (show 0 < c by omega)
  have h2 := Int.ediv_add_emod n c
  nlinarith

/-- C4: for an integer map whose range fits an `int` with `1 ≤ N < 2^31 - 1` categories,
`lines` set in `[1,1000]` and `cols` unset resolve to `(lines, 1 + floor(N/lines))`; `cols`
set and `lines` unset resolve to `(1 + floor(N/cols), cols)`; both set resolve to the
user's pair unchanged. -/
theorem layout_user_set (inp : Input) (hfp : inp.fp = false) (hr : IntRange inp)
    (hN : 1 ≤ cats_num inp) :
    cats_num inp = toInt inp.dmax - toInt inp.dmin + 1
    ∧ (∀ L : Int, inp.opt3 = some L → inp.opt4 = none → 1 ≤ L → L ≤ 1000 →
        layout inp = some (L, 1 + ⌊((cats_num inp : Int) : ℚ) / (L : ℚ)⌋))
    ∧ (∀ C : Int, inp.opt3 = none → inp.opt4 = some C → 1 ≤ C → C ≤ 1000 →
        layout inp = some (1 + ⌊((cats_num inp : Int) : ℚ) / (C : ℚ)⌋, C))
    ∧ (∀ L C : Int, inp.opt3 = some L → inp.opt4 = some C → 1 ≤ L → L ≤ 1000 →
        1 ≤ C → C ≤ 1000 → layout inp = some (L, C)) := by
  have hlt : cats_num inp < 2147483647 := by
    rw [cats_num_eq inp hr]; exact hr.2.2.2
  refine ⟨cats_num_eq inp hr, ?_, ?_, ?_⟩
  · intro L h3 h4 hL _
    rw [layout_lines_set inp hfp L h3 h4 hL, wrap32_one_add_tdiv (by omega) hlt hL,
      tdiv_eq_floor (by omega) (by omega)]
  · intro C h3 h4 hC _
    rw [layout_cols_set inp hfp C h3 h4 hC, wrap32_one_add_tdiv (by omega) hlt hC,
      tdiv_eq_floor (by omega) (by omega)]
  · intro L C h3 h4 hL _ hC _
    exact layout_both_set inp hfp L C h3 h4 hL hC

theorem layout_user_set_witness :
    (intMap 1 5 (some 2) none 0 200 0 400).fp = false
    ∧ IntRange (intMap 1 5 (some 2) none 0 200 0 400)
    ∧ 1 ≤ cats_num (intMap 1 5 (some 2) none 0 200 0 400)
    ∧ layout (intMap 1 5 (some 2) none 0 200 0 400)
        = some (2, 1 + ⌊((cats_num (intMap 1 5 (some 2) none 0 200 0 400) : Int) : ℚ)
            / ((2 : Int) : ℚ)⌋)
    ∧ layout (intMap 1 5 (some 2) none 0 200 0 400) = some (2, 3) :=
  ⟨rfl, by decide, by decide,
    (layout_user_set (intMap 1 5 (some 2) none 0 200 0 400) rfl (by decide)
      (by decide)).2.1 2 rfl rfl (by decide) (by decide),
    by decide⟩

/-- The automatic branch (lines 145-153): a resolved pair has at least one column, `cols`
being a converted double, and its `lines` is the 32-bit sum `1 + cats_num / cols`. -/
theorem layout_unset_inv (inp : Input) (hfp : inp.fp = false) (h3 : inp.opt3 = none)
    (h4 : inp.opt4 = none) (lines cols : Int) (hl : layout inp = some (lines, cols)) :
    1 ≤ cols ∧ cols ≤ 2147483647
      ∧ lines = wrap32 (1 + Int.tdiv (cats_num inp) cols) := by
  have h1 : lines0 inp = 0 := by simp [lines0, h3, hfp]
  have h2 : cols0 inp = 0 := by simp [cols0, h4, hfp]
  simp only [layout, h1, h2, le_refl, and_self, if_true] at hl
  split at hl
  · simp at hl
  · split at hl
    · simp at hl
    · split at hl
      · simp at hl
      · rename_i c hc
        have hc1 := onePlusSqrtToInt_pos hc
        have hc0 : c ≠ 0 := by omega
        simp only [cdiv, hc0, if_false, Option.map_some', Option.some.injEq,
          Prod.mk.injEq] at hl
        obtain ⟨h5, h6⟩ := hl
        subst h6
        exact ⟨hc1, onePlusSqrtToInt_le hc, h5.symm⟩

/-- On an integer map the double `dmax - dmin + 1.` is the category count. -/
theorem discrete_range (inp : Input) (hd : Discrete inp) (hr : IntRange inp) :
    fl (fl (inp.dmax - inp.dmin) + 1) = ((cats_num inp : Int) : ℚ) := by
  obtain ⟨_, h1, h2⟩ := hd
  obtain ⟨_, _, h3, h4⟩ := hr
  have hd1 : inp.dmax - inp.dmin = ((toInt inp.dmax - toInt inp.dmin : Int) : ℚ) := by
    push_cast; rw [h1, h2]
  have hd2 : ((toInt inp.dmax - toInt inp.dmin : Int) : ℚ) + 1
      = ((toInt inp.dmax - toInt inp.dmin + 1 : Int) : ℚ) := by push_cast; rfl
  rw [hd1, fl_intCast _ (by rw [abs_lt]; constructor <;> norm_num <;> omega), hd2,
    fl_intCast _ (by rw [abs_lt]; constructor <;> norm_num <;> omega),
    cats_num_eq inp ⟨by assumption, by assumption, h3, h4⟩]

/-- The double quotients of line 150 and 151 on `int`-sized operands: the ratio `H / W`
and the radicand `N / ratio` are positive, each within `2^-53` of its exact value, and
the radicand lies below `2^60`. -/
theorem radicand_facts (N H W : Int) (hN : 1 ≤ N) (hN2 : N ≤ 2147483647) (hH : 1 ≤ H)
    (hH2 : H ≤ 134217728) (hW : 1 ≤ W) (hW2 : W ≤ 134217728) :
    0 < fl ((H : ℚ) / (W : ℚ))
    ∧ |fl ((H : ℚ) / (W : ℚ)) - (H : ℚ) / (W : ℚ)| ≤ (H : ℚ) / (W : ℚ) / 2 ^ 53
    ∧ 0 < (N : ℚ) / fl ((H : ℚ) / (W : ℚ))
    ∧ |fl ((N : ℚ) / fl ((H : ℚ) / (W : ℚ))) - (N : ℚ) / fl ((H : ℚ) / (W : ℚ))|
        ≤ (N : ℚ) / fl ((H : ℚ) / (W : ℚ)) / 2 ^ 53
    ∧ 0 < fl ((N : ℚ) / fl ((H : ℚ) / (W : ℚ)))
    ∧ fl ((N : ℚ) / fl ((H : ℚ) / (W : ℚ))) < 4 ^ (30 : Int) := by
  have hHq : (1 : ℚ) ≤ (H : ℚ) := by exact_mod_cast hH
  have hWq : (1 : ℚ) ≤ (W : ℚ) := by exact_mod_cast hW
  have hHq2 : (H : ℚ) ≤ 134217728 := by exact_mod_cast hH2
  have hWq2 : (W : ℚ) ≤ 134217728 := by exact_mod_cast hW2
  have hNq1 : (1 : ℚ) ≤ (N : ℚ) := by exact_mod_cast hN
  have hNq2 : (N : ℚ) ≤ 2147483647 := by exact_mod_cast hN2
  have h53 : ((2 : ℚ) ^ 53) = 9007199254740992 := by norm_num
  have h27 : (2 : ℚ) ^ (-27 : Int) = 1 / 134217728 := by norm_num
  have hsmall : (2 : ℚ) ^ (-1022 : Int) ≤ 2 ^ (-28 : Int) :=
    zpow_le_zpow_right₀ (by norm_num) (by norm_num)
  have h28' : (2 : ℚ) ^ (-28 : Int) = 1 / 268435456 := by norm_num
  rw [h28'] at hsmall
  -- the ratio
  have hqpos : (0 : ℚ) < (H : ℚ) / (W : ℚ) := div_pos (by linarith) (by linarith)
  have hq : (1 : ℚ) / 134217728 ≤ (H : ℚ) / (W : ℚ) := by
    rw [le_div_iff₀ (by linarith)]
    linarith
  have hq2 : (H : ℚ) / (W : ℚ) ≤ 134217728 := by
    rw [div_le_iff₀ (by linarith)]; nlinarith
  have hqn : (2 : ℚ) ^ (-1022 : Int) ≤ |(H : ℚ) / (W : ℚ)| := by
    rw [abs_of_pos hqpos]; linarith
  have he := fl_sub_abs_le hqn
  rw [abs_of_pos hqpos] at he
  have he' := abs_le.mp he
  rw [h53] at he'
  have hratio : (1 : ℚ) / 134217728 ≤ fl ((H : ℚ) / (W : ℚ)) := by
    have := fl_abs_ge_zpow (q := (H : ℚ) / (W : ℚ)) (k := -27) (by norm_num)
      (by rw [abs_of_pos hqpos, h27]; exact hq)
    rwa [abs_of_nonneg (fl_nonneg hqpos.le), h27] at this
  have hrpos : (0 : ℚ) < fl ((H : ℚ) / (W : ℚ)) := by linarith
  have hup : fl ((H : ℚ) / (W : ℚ)) ≤ 268435456 := by
    have : (H : ℚ) / (W : ℚ) / 9007199254740992 ≤ 1 := by
      rw [div_le_one (by norm_num)]; linarith
    linarith [he'.2]
  -- the radicand
  have hx0 : (0 : ℚ) < (N : ℚ) / fl ((H : ℚ) / (W : ℚ)) := div_pos (by linarith) hrpos
  have hx1 : (N : ℚ) / fl ((H : ℚ) / (W : ℚ)) ≤ 2147483647 * 134217728 := by
    rw [div_le_iff₀ hrpos]
    nlinarith
  have hxlow : (1 : ℚ) / 268435456 ≤ (N : ℚ) / fl ((H : ℚ) / (W : ℚ)) := by
    rw [le_div_iff₀ hrpos]
    linarith
  have hxn : (2 : ℚ) ^ (-1022 : Int) ≤ |(N : ℚ) / fl ((H : ℚ) / (W : ℚ))| := by
    rw [abs_of_pos hx0]; linarith
  have herrx := fl_sub_abs_le hxn
  rw [abs_of_pos hx0] at herrx
  have herrx' := abs_le.mp herrx
  rw [h53] at herrx'
  have hfx : (0 : ℚ) < fl ((N : ℚ) / fl ((H : ℚ) / (W : ℚ))) := by
    have : (N : ℚ) / fl ((H : ℚ) / (W : ℚ)) / 9007199254740992
        < (N : ℚ) / fl ((H : ℚ) / (W : ℚ)) := by
      rw [div_lt_iff₀ (by norm_num)]; linarith
    linarith [herrx'.1]
  refine ⟨hrpos, he, hx0, herrx, hfx, ?_⟩
  have h430 : (4 : ℚ) ^ (30 : Int) = 1152921504606846976 := by norm_num
  rw [h430]
  have : (N : ℚ) / fl ((H : ℚ) / (W : ℚ)) / 9007199254740992
      ≤ 2147483647 * 134217728 / 9007199254740992 :=
    div_le_div_of_nonneg_right hx1 (by norm_num)
  have h2 : (2147483647 : ℚ) * 134217728 / 9007199254740992 < 32 := by norm_num
  linarith [herrx'.2]

/-- A value computed with relative errors of `2^-53` in the two quotients, the root and
the sum stays within one of `1 + sqrt q`: stated through squares. -/
theorem near_sqrt_of_bounds (n q0 r x s c : ℚ) (hn : 0 < n) (hq0 : 0 < q0)
    (hr : |r - q0| ≤ q0 / 2 ^ 53) (hx : |x - n / r| ≤ n / r / 2 ^ 53)
    (hs0 : 0 < s) (hs1 : (s * (1 - 1 / 2 ^ 53)) ^ 2 ≤ x)
    (hs2 : x ≤ (s * (1 + 1 / 2 ^ 53)) ^ 2) (hs3 : s ≤ 1073741824)
    (hc : |c - (1 + s)| ≤ (1 + s) / 2 ^ 53) :
    n / q0 < c ^ 2 ∧ (2 < c → (c - 2) ^ 2 < n / q0) := by
  have h53 : ((2 : ℚ) ^ 53) = 9007199254740992 := by norm_num
  rw [h53] at hr hx hs1 hs2 hc
  rw [abs_le] at hr hx hc
  obtain ⟨hr1, hr2⟩ := hr
  obtain ⟨hx1, hx2⟩ := hx
  obtain ⟨hc1, hc2⟩ := hc
  have hrpos : 0 < r := by
    have : q0 / 9007199254740992 < q0 := by
      rw [div_lt_iff₀ (by norm_num)]; linarith
    linarith
  have hx0pos : 0 < n / r := div_pos hn hrpos
  have hqpos : 0 < n / q0 := div_pos hn hq0
  -- q within (1 ± u) of x0 = n / r
  have hqr : n / q0 * q0 = n / r * r := by
    rw [div_mul_cancel₀ _ hq0.ne', div_mul_cancel₀ _ hrpos.ne']
  have hq_le : n / q0 ≤ n / r * (1 + 1 / 9007199254740992) := by
    have h1 : n / q0 * q0 ≤ n / r * (1 + 1 / 9007199254740992) * q0 := by
      rw [hqr]
      have : r ≤ (1 + 1 / 9007199254740992) * q0 := by linarith
      calc n / r * r ≤ n / r * ((1 + 1 / 9007199254740992) * q0) :=
            mul_le_mul_of_nonneg_left this hx0pos.le
        _ = n / r * (1 + 1 / 9007199254740992) * q0 := by ring
    exact le_of_mul_le_mul_right h1 hq0
  have hq_ge : n / r * (1 - 1 / 9007199254740992) ≤ n / q0 := by
    have h1 : n / r * (1 - 1 / 9007199254740992) * q0 ≤ n / q0 * q0 := by
      rw [hqr]
      have : (1 - 1 / 9007199254740992) * q0 ≤ r := by linarith
      calc n / r * (1 - 1 / 9007199254740992) * q0
            = n / r * ((1 - 1 / 9007199254740992) * q0) := by ring
        _ ≤ n / r * r := mul_le_mul_of_nonneg_left this hx0pos.le
    exact le_of_mul_le_mul_right h1 hq0
  -- x0 within (1 ± u) of x: x0 (1 - u) ≤ x ≤ x0 (1 + u)
  have hxa : n / r * (1 - 1 / 9007199254740992) ≤ x := by linarith
  have hxb : x ≤ n / r * (1 + 1 / 9007199254740992) := by linarith
  have hss : s ^ 2 ≤ 1073741824 * s := by nlinarith
  have hs2nn : 0 ≤ s ^ 2 := sq_nonneg s
  constructor
  · -- q (1 - u) ≤ x (1 + u) ≤ s² (1 + u)³
    have h1 : n / q0 * (1 - 1 / 9007199254740992)
        ≤ x * (1 + 1 / 9007199254740992) := by
      calc n / q0 * (1 - 1 / 9007199254740992)
          ≤ n / r * (1 + 1 / 9007199254740992) * (1 - 1 / 9007199254740992) :=
            mul_le_mul_of_nonneg_right hq_le (by norm_num)
        _ = n / r * (1 - 1 / 9007199254740992) * (1 + 1 / 9007199254740992) := by ring
        _ ≤ x * (1 + 1 / 9007199254740992) :=
            mul_le_mul_of_nonneg_right hxa (by norm_num)
    have h2 : n / q0 * (1 - 1 / 9007199254740992)
        ≤ (s * (1 + 1 / 9007199254740992)) ^ 2 * (1 + 1 / 9007199254740992) :=
      le_trans h1 (mul_le_mul_of_nonneg_right hs2 (by norm_num))
    have hclow : (1 + s) * (1 - 1 / 9007199254740992) ≤ c := by linarith
    have hcpos : 0 < (1 + s) * (1 - 1 / 9007199254740992) := by
      apply mul_pos (by linarith); norm_num
    have h3 : ((1 + s) * (1 - 1 / 9007199254740992)) ^ 2 ≤ c ^ 2 :=
      pow_le_pow_left₀ hcpos.le hclow 2
    have h4 : (s * (1 + 1 / 9007199254740992)) ^ 2 * (1 + 1 / 9007199254740992)
        < ((1 + s) * (1 - 1 / 9007199254740992)) ^ 2 * (1 - 1 / 9007199254740992) := by
      nlinarith
    have h5 : n / q0 * (1 - 1 / 9007199254740992)
        < c ^ 2 * (1 - 1 / 9007199254740992) := by
      calc n / q0 * (1 - 1 / 9007199254740992)
          ≤ (s * (1 + 1 / 9007199254740992)) ^ 2 * (1 + 1 / 9007199254740992) := h2
        _ < ((1 + s) * (1 - 1 / 9007199254740992)) ^ 2 * (1 - 1 / 9007199254740992) := h4
        _ ≤ c ^ 2 * (1 - 1 / 9007199254740992) :=
            mul_le_mul_of_nonneg_right h3 (by norm_num)
    exact lt_of_mul_lt_mul_right h5 (by norm_num)
  · intro hc3
    have h1 : x * (1 - 1 / 9007199254740992)
        ≤ n / q0 * (1 + 1 / 9007199254740992) := by
      calc x * (1 - 1 / 9007199254740992)
          ≤ n / r * (1 + 1 / 9007199254740992) * (1 - 1 / 9007199254740992) :=
            mul_le_mul_of_nonneg_right hxb (by norm_num)
        _ = n / r * (1 - 1 / 9007199254740992) * (1 + 1 / 9007199254740992) := by ring
        _ ≤ n / q0 * (1 + 1 / 9007199254740992) :=
            mul_le_mul_of_nonneg_right hq_ge (by norm_num)
    have h2 : (s * (1 - 1 / 9007199254740992)) ^ 2 * (1 - 1 / 9007199254740992)
        ≤ n / q0 * (1 + 1 / 9007199254740992) :=
      le_trans (mul_le_mul_of_nonneg_right hs1 (by norm_num)) h1
    have hcup : c - 2 ≤ (1 + s) * (1 + 1 / 9007199254740992) - 2 := by linarith
    have h3 : (c - 2) ^ 2 ≤ ((1 + s) * (1 + 1 / 9007199254740992) - 2) ^ 2 :=
      pow_le_pow_left₀ (by linarith) hcup 2
    have ha : 0 < (1 + s) * (1 + 1 / 9007199254740992) - 2 := by linarith
    have h4 : ((1 + s) * (1 + 1 / 9007199254740992) - 2) ^ 2 * (1 + 1 / 9007199254740992)
        < (s * (1 - 1 / 9007199254740992)) ^ 2 * (1 - 1 / 9007199254740992) := by
      nlinarith
    have h5 : (c - 2) ^ 2 * (1 + 1 / 9007199254740992)
        < n / q0 * (1 + 1 / 9007199254740992) := by
      calc (c - 2) ^ 2 * (1 + 1 / 9007199254740992)
          ≤ ((1 + s) * (1 + 1 / 9007199254740992) - 2) ^ 2
              * (1 + 1 / 9007199254740992) :=
            mul_le_mul_of_nonneg_right h3 (by norm_num)
        _ < (s * (1 - 1 / 9007199254740992)) ^ 2 * (1 - 1 / 9007199254740992) := h4
        _ ≤ n / q0 * (1 + 1 / 9007199254740992) := h2
    exact lt_of_mul_lt_mul_right h5 (by norm_num)

/-- An integer part taken of a value within one of `1 + sqrt q` is within one of
`1 + floor(sqrt q)`. -/
theorem floor_near_sqrt (q c : ℚ) (hc : 1 ≤ c) (h1 : q < c ^ 2)
    (h2 : 2 < c → (c - 2) ^ 2 < q) :
    |⌊c⌋ - (1 + ⌊Real.sqrt (q : ℝ)⌋)| ≤ 1 := by
  have hcR : (0 : ℝ) < (c : ℝ) := by exact_mod_cast (by linarith : (0 : ℚ) < c)
  have h1R : (q : ℝ) < (c : ℝ) ^ 2 := by exact_mod_cast h1
  have hlt : Real.sqrt (q : ℝ) < (c : ℝ) := (Real.sqrt_lt' hcR).mpr h1R
  have hge : (c : ℝ) - 2 ≤ Real.sqrt (q : ℝ) := by
    by_cases h : 2 < c
    · have h3 : ((c : ℝ) - 2) ^ 2 < (q : ℝ) := by exact_mod_cast h2 h
      have h4 : (0 : ℝ) ≤ (c : ℝ) - 2 := by
        have : (2 : ℝ) < (c : ℝ) := by exact_mod_cast h
        linarith
      exact (Real.lt_sqrt h4).mpr h3 |>.le
    · have : (c : ℝ) ≤ 2 := by exact_mod_cast (not_lt.mp h)
      linarith [Real.sqrt_nonneg (q : ℝ)]
  have hfl : ⌊(c : ℝ)⌋ = ⌊c⌋ := Rat.floor_cast c
  have ha : ⌊Real.sqrt (q : ℝ)⌋ ≤ ⌊c⌋ := by
    rw [← hfl]; exact Int.floor_mono hlt.le
  have hb : ⌊c⌋ - 2 ≤ ⌊Real.sqrt (q : ℝ)⌋ := by
    rw [Int.le_floor]
    have : ((⌊c⌋ : Int) : ℝ) ≤ (c : ℝ) := by
      rw [← hfl]; exact Int.floor_le _
    push_cast
    linarith
  rw [abs_le]
  constructor <;> omega

/-- The `cols` of the automatic branch is within one of `1 + floor(sqrt(N / (H / W)))`. -/
theorem cols_double_near (N H W : Int) (hN : 1 ≤ N) (hN2 : N ≤ 2147483647) (hH : 1 ≤ H)
    (hH2 : H ≤ 134217728) (hW : 1 ≤ W) (hW2 : W ≤ 134217728) :
    |⌊fl (1 + flsqrt (fl ((N : ℚ) / fl ((H : ℚ) / (W : ℚ)))))⌋
      - (1 + ⌊Real.sqrt ((N : ℝ) / ((H : ℝ) / (W : ℝ)))⌋)| ≤ 1 := by
  obtain ⟨_, hr, _, hx, hxpos, hxlt⟩ := radicand_facts N H W hN hN2 hH hH2 hW hW2
  obtain ⟨hs0, hs1, hs2⟩ := flsqrt_sq_bounds hxpos
  have hs3 : flsqrt (fl ((N : ℚ) / fl ((H : ℚ) / (W : ℚ)))) ≤ 1073741824 := by
    have := flsqrt_le_zpow 30 hxlt
    have h30 : (2 : ℚ) ^ (30 : Int) = 1073741824 := by norm_num
    rwa [h30] at this
  have hy : (1 : ℚ) ≤ 1 + flsqrt (fl ((N : ℚ) / fl ((H : ℚ) / (W : ℚ)))) := by linarith
  have hn : (2 : ℚ) ^ (-1022 : Int)
      ≤ |1 + flsqrt (fl ((N : ℚ) / fl ((H : ℚ) / (W : ℚ))))| := by
    rw [abs_of_nonneg (by linarith)]
    have : (2 : ℚ) ^ (-1022 : Int) ≤ 2 ^ (0 : Int) :=
      zpow_le_zpow_right₀ (by norm_num) (by norm_num)
    have h2 : (2 : ℚ) ^ (0 : Int) = 1 := by norm_num
    linarith
  have hc := fl_sub_abs_le hn
  rw [abs_of_nonneg (by linarith : (0 : ℚ)
    ≤ 1 + flsqrt (fl ((N : ℚ) / fl ((H : ℚ) / (W : ℚ)))))] at hc
  have hNq : (0 : ℚ) < (N : ℚ) := by exact_mod_cast (by omega : 0 < N)
  have hq0 : (0 : ℚ) < (H : ℚ) / (W : ℚ) :=
    div_pos (by exact_mod_cast (by omega : 0 < H)) (by exact_mod_cast (by omega : 0 < W))
  obtain ⟨h1, h2⟩ := near_sqrt_of_bounds (N : ℚ) ((H : ℚ) / (W : ℚ)) _ _ _ _ hNq hq0 hr hx
    hs0 hs1 hs2 hs3 hc
  have := floor_near_sqrt _ _ (one_le_fl hy) h1 h2
  have hcast : (((N : ℚ) / ((H : ℚ) / (W : ℚ)) : ℚ) : ℝ) = (N : ℝ) / ((H : ℝ) / (W : ℝ)) := by
    push_cast; rfl
  rw [hcast] at this
  exact this

/-- The automatic branch on an integer map whose range fits an `int`, drawn into a frame
with integer coordinates of positive width and height: the branch resolves, `cols` being
the double `1 + sqrt(N / (H / W))` converted to `int`. -/
theorem layout_unset_int (inp : Input) (ti bi li ri : Int) (hd : Discrete inp)
    (hr : IntRange inp) (h3 : inp.opt3 = none) (h4 : inp.opt4 = none)
    (hN : 1 ≤ cats_num inp) (hf : IntFrame inp ti bi li ri) (hW : li < ri)
    (hH : ti < bi) :
    layout inp = some (1 + Int.tdiv (cats_num inp)
        ⌊fl (1 + flsqrt (fl (((cats_num inp : Int) : ℚ)
          / fl (((bi - ti : Int) : ℚ) / ((ri - li : Int) : ℚ)))))⌋,
      ⌊fl (1 + flsqrt (fl (((cats_num inp : Int) : ℚ)
          / fl (((bi - ti : Int) : ℚ) / ((ri - li : Int) : ℚ)))))⌋)
    ∧ 1 ≤ ⌊fl (1 + flsqrt (fl (((cats_num inp : Int) : ℚ)
          / fl (((bi - ti : Int) : ℚ) / ((ri - li : Int) : ℚ)))))⌋
    ∧ ⌊fl (1 + flsqrt (fl (((cats_num inp : Int) : ℚ)
          / fl (((bi - ti : Int) : ℚ) / ((ri - li : Int) : ℚ)))))⌋ ≤ 2147483647 := by
  have hfp := hd.1
  have h1 : lines0 inp = 0 := by simp [lines0, h3, hfp]
  have h2 : cols0 inp = 0 := by simp [cols0, h4, hfp]
  obtain ⟨hH1, hH2⟩ := intFrame_height hf
  obtain ⟨hW1, hW2⟩ := intFrame_width hf
  have hlt : cats_num inp < 2147483647 := by
    rw [cats_num_eq inp hr]; exact hr.2.2.2
  have hdy : fl (inp.b - inp.t) = ((bi - ti : Int) : ℚ) := by
    rw [hH1, fl_intCast _ (by norm_num; omega)]
  have hdx : fl (inp.r - inp.l) = ((ri - li : Int) : ℚ) := by
    rw [hW1, fl_intCast _ (by norm_num; omega)]
  have hWq : (1 : ℚ) ≤ ((ri - li : Int) : ℚ) := by exact_mod_cast (by omega : 1 ≤ ri - li)
  have hdx0 : ((ri - li : Int) : ℚ) ≠ 0 := by linarith
  have hHW : bi - ti ≤ 134217728 ∧ ri - li ≤ 134217728 := by
    obtain ⟨_, _, _, _, h5, h6, h7, h8⟩ := hf
    rw [abs_le] at h5 h6 h7 h8
    constructor <;> omega
  obtain ⟨hrpos, _, _, _, hxpos, hxlt⟩ := radicand_facts (cats_num inp) (bi - ti) (ri - li)
    hN (by omega) (by omega) hHW.1 (by omega) hHW.2
  have hsome := onePlusSqrtToInt_some hxpos.le hxlt
  have hpos := onePlusSqrtToInt_pos hsome
  refine ⟨?_, hpos, onePlusSqrtToInt_le hsome⟩
  have hc0 : ⌊fl (1 + flsqrt (fl (((cats_num inp : Int) : ℚ)
      / fl (((bi - ti : Int) : ℚ) / ((ri - li : Int) : ℚ)))))⌋ ≠ 0 := by omega
  simp only [layout, h1, h2, le_refl, and_self, if_true, hdy, hdx, hdx0, hrpos.ne', if_false,
    discrete_range inp hd hr, hsome, cdiv, hc0, Option.map_some']
  rw [wrap32_one_add_tdiv (by omega) hlt hpos]

theorem fl_nine_sevenths : fl (9 / 7) = 5790342378047781 * 2 ^ (-52 : Int) := by
  have := fl_eq_of (q := 9 / 7) 0 5790342378047781 (by norm_num)
    (by rw [abs_of_pos (by norm_num)]; norm_num)
    (by rw [abs_of_pos (by norm_num)]; norm_num)
    (by rw [abs_lt]; norm_num)
  simpa using this

theorem fl_radicand_63 :
    fl (63 / (5790342378047781 * 2 ^ (-52 : Int))) = 6896136929411071 * 2 ^ (-47 : Int) := by
  have := fl_eq_of (q := 63 / (5790342378047781 * 2 ^ (-52 : Int))) 5 6896136929411071
    (by norm_num)
    (by rw [abs_of_pos (by norm_num)]; norm_num)
    (by rw [abs_of_pos (by norm_num)]; norm_num)
    (by rw [abs_lt]; norm_num)
  simpa using this

theorem flsqrt_radicand_63 :
    flsqrt (6896136929411071 * 2 ^ (-47 : Int)) = 7881299347898367 * 2 ^ (-50 : Int) := by
  have := flsqrt_eq_of (x := 6896136929411071 * 2 ^ (-47 : Int)) 2 7881299347898367
    (by norm_num) (by norm_num) (by norm_num) (by norm_num) (by norm_num)
  simpa using this

theorem flsqrt_twenty : flsqrt 20 = 5035177455121576 * 2 ^ (-50 : Int) := by
  have := flsqrt_eq_of (x := 20) 2 5035177455121576
    (by norm_num) (by norm_num) (by norm_num) (by norm_num) (by norm_num)
  simpa using this

/-- The double `1 + sqrt(63 / (900 / 700))`, every operation rounded: the quotient
`63 / (900/700)` rounds to `48.99999999999999`, its root to `6.999999999999999`, and the
sum is `7.999999999999999`, below `8`. -/
theorem cols_double_63 :
    fl (1 + flsqrt (fl (63 / fl (9 / 7)))) = 9007199254740991 * 2 ^ (-50 : Int) := by
  rw [fl_nine_sevenths, fl_radicand_63, flsqrt_radicand_63]
  have h : (1 : ℚ) + 7881299347898367 * 2 ^ (-50 : Int)
      = ((9007199254740991 : Int) : ℚ) * 2 ^ (-50 : Int) := by norm_num
  rw [h, fl_exact _ _ (by norm_num) (by norm_num)]
  norm_num

/-- The double `1 + sqrt(10 / (200 / 400))`: `200/400` and `10/0.5 = 20` are exact, and the
sum is `5.47213595499958`. -/
theorem cols_double_10 :
    fl (1 + flsqrt (fl (10 / fl (1 / 2)))) = 6161077361964200 * 2 ^ (-50 : Int) := by
  have h1 : fl (1 / 2) = 1 / 2 := by
    have := fl_exact 1 (-1) (by norm_num) (by norm_num)
    norm_num at this ⊢; exact this
  have h2 : (10 : ℚ) / (1 / 2) = ((20 : Int) : ℚ) := by norm_num
  rw [h1, h2, fl_intCast 20 (by norm_num)]
  have h3 : (((20 : Int) : ℚ)) = 20 := by norm_num
  rw [h3, flsqrt_twenty]
  have h : (1 : ℚ) + 5035177455121576 * 2 ^ (-50 : Int)
      = ((6161077361964200 : Int) : ℚ) * 2 ^ (-50 : Int) := by norm_num
  rw [h, fl_exact _ _ (by norm_num) (by norm_num)]
  norm_num

/-- C5, as stated, fails: on the integer map with categories 1..63 (`N = 63`) drawn with
both options unset into the frame 700 wide and 900 high the code resolves `cols = 7` and
`lines = 10`, while `1 + floor(sqrt(N / (H/W))) = 1 + floor(sqrt 49) = 8` and
`1 + floor(63 / 8) = 8`: in double arithmetic `63 / (900/700)` is `48.99999999999999`. -/
theorem layout_auto_rounds_below :
    layout (intMap 1 63 none none 0 900 0 700) = some (10, 7)
    ∧ cats_num (intMap 1 63 none none 0 900 0 700) = 63
    ∧ 1 + ⌊Real.sqrt ((63 : ℝ) / ((900 : ℝ) / (700 : ℝ)))⌋ = 8
    ∧ 1 + ⌊((63 : Int) : ℚ) / ((8 : Int) : ℚ)⌋ = 8 := by
  have hN : cats_num (intMap 1 63 none none 0 900 0 700) = 63 := by decide
  refine ⟨?_, hN, ?_, ?_⟩
  · have h := (layout_unset_int (intMap 1 63 none none 0 900 0 700) 0 900 0 700
      (by decide) (by decide) rfl rfl (by decide)
      (by refine ⟨?_, ?_, ?_, ?_, ?_, ?_, ?_, ?_⟩ <;> norm_num [intMap])
      (by decide) (by decide)).1
    rw [hN] at h
    have e1 : ((900 - 0 : Int) : ℚ) / ((700 - 0 : Int) : ℚ) = 9 / 7 := by norm_num
    have e2 : ((63 : Int) : ℚ) = 63 := by norm_num
    rw [e1, e2, cols_double_63] at h
    have e3 : ⌊(9007199254740991 : ℚ) * 2 ^ (-50 : Int)⌋ = 7 := by
      rw [Int.floor_eq_iff]; norm_num
    rw [e3] at h
    rw [h]
    decide
  · have h49 : (63 : ℝ) / ((900 : ℝ) / (700 : ℝ)) = 7 ^ 2 := by norm_num
    rw [h49, Real.sqrt_sq (by norm_num)]
    norm_num
  · have : ⌊((63 : Int) : ℚ) / ((8 : Int) : ℚ)⌋ = 7 := by
      rw [Int.floor_eq_iff]; norm_num
    rw [this]; norm_num

/-- C5, amended: for an integer map whose range fits an `int` with `1 ≤ N < 2^31 - 1`
categories, both options unset and a frame with integer coordinates of width `W > 0` and
height `H > 0`, the layout resolves to `cols = floor(c)` and `lines = 1 + floor(N / cols)`,
where `c` is the double `1 + sqrt(N / (H / W))`, each of the two quotients, the root and
the sum being rounded to double precision; `cols ≥ 1`, and `cols` differs from
`1 + floor(sqrt(N / (H / W)))` by at most one. -/
theorem layout_auto (inp : Input) (ti bi li ri : Int) (hd : Discrete inp)
    (hr : IntRange inp) (h3 : inp.opt3 = none) (h4 : inp.opt4 = none)
    (hN : 1 ≤ cats_num inp) (hf : IntFrame inp ti bi li ri) (hW : li < ri)
    (hH : ti < bi) :
    ∃ lines cols : Int, layout inp = some (lines, cols)
      ∧ cats_num inp = toInt inp.dmax - toInt inp.dmin + 1
      ∧ cols = ⌊fl (1 + flsqrt (fl (((cats_num inp : Int) : ℚ)
          / fl (((bi - ti : Int) : ℚ) / ((ri - li : Int) : ℚ)))))⌋
      ∧ lines = 1 + ⌊((cats_num inp : Int) : ℚ) / (cols : ℚ)⌋
      ∧ 1 ≤ cols
      ∧ |cols - (1 + ⌊Real.sqrt (((cats_num inp : Int) : ℝ)
          / (((bi - ti : Int) : ℝ) / ((ri - li : Int) : ℝ)))⌋)| ≤ 1 := by
  obtain ⟨hl, hc, _⟩ := layout_unset_int inp ti bi li ri hd hr h3 h4 hN hf hW hH
  have hlt : cats_num inp < 2147483647 := by
    rw [cats_num_eq inp hr]; exact hr.2.2.2
  have hHW : bi - ti ≤ 134217728 ∧ ri - li ≤ 134217728 := by
    obtain ⟨_, _, _, _, h5, h6, h7, h8⟩ := hf
    rw [abs_le] at h5 h6 h7 h8
    constructor <;> omega
  refine ⟨_, _, hl, cats_num_eq inp hr, rfl, ?_, hc,
    cols_double_near (cats_num inp) (bi - ti) (ri - li) hN (by omega) (by omega) hHW.1
      (by omega) hHW.2⟩
  rw [tdiv_eq_floor (by omega) (by omega)]

theorem layout_auto_witness :
    Discrete (intMap 1 10 none none 0 200 0 400)
    ∧ IntRange (intMap 1 10 none none 0 200 0 400)
    ∧ IntFrame (intMap 1 10 none none 0 200 0 400) 0 200 0 400
    ∧ layout (intMap 1 10 none none 0 200 0 400) = some (3, 5)
    ∧ ∃ lines cols : Int, layout (intMap 1 10 none none 0 200 0 400) = some (lines, cols)
      ∧ cats_num (intMap 1 10 none none 0 200 0 400)
          = toInt (intMap 1 10 none none 0 200 0 400).dmax
            - toInt (intMap 1 10 none none 0 200 0 400).dmin + 1
      ∧ cols = ⌊fl (1 + flsqrt (fl (((cats_num (intMap 1 10 none none 0 200 0 400) : Int) : ℚ)
          / fl (((200 - 0 : Int) : ℚ) / ((400 - 0 : Int) : ℚ)))))⌋
      ∧ lines = 1 + ⌊((cats_num (intMap 1 10 none none 0 200 0 400) : Int) : ℚ) / (cols : ℚ)⌋
      ∧ 1 ≤ cols
      ∧ |cols - (1 + ⌊Real.sqrt (((cats_num (intMap 1 10 none none 0 200 0 400) : Int) : ℝ)
          / (((200 - 0 : Int) : ℝ) / ((400 - 0 : Int) : ℝ)))⌋)| ≤ 1 := by
  have hf : IntFrame (intMap 1 10 none none 0 200 0 400) 0 200 0 400 := by
    refine ⟨?_, ?_, ?_, ?_, ?_, ?_, ?_, ?_⟩ <;> norm_num [intMap]
  have hN : cats_num (intMap 1 10 none none 0 200 0 400) = 10 := by decide
  have hl : layout (intMap 1 10 none none 0 200 0 400) = some (3, 5) := by
    have h := (layout_unset_int (intMap 1 10 none none 0 200 0 400) 0 200 0 400
      (by decide) (by decide) rfl rfl (by decide) hf (by decide) (by decide)).1
    rw [hN] at h
    have e1 : ((200 - 0 : Int) : ℚ) / ((400 - 0 : Int) : ℚ) = 1 / 2 := by norm_num
    have e2 : ((10 : Int) : ℚ) = 10 := by norm_num
    rw [e1, e2, cols_double_10] at h
    have e3 : ⌊(6161077361964200 : ℚ) * 2 ^ (-50 : Int)⌋ = 5 := by
      rw [Int.floor_eq_iff]; norm_num
    rw [e3] at h
    rw [h]
    decide
  exact ⟨by decide, by decide, hf, hl,
    layout_auto (intMap 1 10 none none 0 200 0 400) 0 200 0 400 (by decide) (by decide)
      rfl rfl (by decide) hf (by decide) (by decide)⟩

/-- C6, as stated, fails: no integer map whose range fits an `int` with
`1 ≤ N < 2^31 - 1`, both options unset and a frame of positive width and height resolves to
a grid with `lines*cols < N`. -/
theorem auto_layout_not_short :
    ¬ ∃ inp : Input, inp.fp = false ∧ inp.opt3 = none ∧ inp.opt4 = none
        ∧ IntRange inp ∧ 1 ≤ cats_num inp ∧ inp.l < inp.r ∧ inp.t < inp.b
        ∧ ∃ lines cols : Int, layout inp = some (lines, cols)
            ∧ lines * cols < cats_num inp := by
  rintro ⟨inp, hfp, h3, h4, hr, hN, _, _, lines, cols, hl, hlt⟩
  obtain ⟨hc, _, hlines⟩ := layout_unset_inv inp hfp h3 h4 lines cols hl
  have hN2 : cats_num inp < 2147483647 := by
    rw [cats_num_eq inp hr]; exact hr.2.2.2
  rw [wrap32_one_add_tdiv (by omega) hN2 hc] at hlines
  have := capacity_aux (cats_num inp) cols (by omega) hc
  rw [← hlines] at this
  omega

/-- C6, amended: for an integer map whose range fits an `int` with `1 ≤ N < 2^31 - 1` and
both options unset, every grid the automatic layout resolves to has `lines*cols ≥ N + 1`,
whatever the frame; on a frame with integer coordinates of positive width and height the
layout does resolve. -/
theorem auto_layout_capacity (inp : Input) (hd : Discrete inp) (hr : IntRange inp)
    (h3 : inp.opt3 = none) (h4 : inp.opt4 = none) (hN : 1 ≤ cats_num inp) :
    cats_num inp = toInt inp.dmax - toInt inp.dmin + 1
    ∧ (∀ lines cols : Int, layout inp = some (lines, cols) →
        cats_num inp + 1 ≤ lines * cols)
    ∧ (∀ ti bi li ri : Int, IntFrame inp ti bi li ri → li < ri → ti < bi →
        ∃ lines cols : Int, layout inp = some (lines, cols)
          ∧ cats_num inp + 1 ≤ lines * cols) := by
  have hN2 : cats_num inp < 2147483647 := by
    rw [cats_num_eq inp hr]; exact hr.2.2.2
  have hcap : ∀ lines cols : Int, layout inp = some (lines, cols) →
      cats_num inp + 1 ≤ lines * cols := by
    intro lines cols hl
    obtain ⟨hc, _, hlines⟩ := layout_unset_inv inp hd.1 h3 h4 lines cols hl
    rw [wrap32_one_add_tdiv (by omega) hN2 hc] at hlines
    rw [hlines]
    exact capacity_aux _ _ (by omega) hc
  refine ⟨cats_num_eq inp hr, hcap, ?_⟩
  intro ti bi li ri hf hW hH
  obtain ⟨hl, _, _⟩ := layout_unset_int inp ti bi li ri hd hr h3 h4 hN hf hW hH
  exact ⟨_, _, hl, hcap _ _ hl⟩

theorem auto_layout_capacity_witness :
    Discrete (intMap 1 10 none none 0 200 0 400)
    ∧ IntRange (intMap 1 10 none none 0 200 0 400)
    ∧ 1 ≤ cats_num (intMap 1 10 none none 0 200 0 400)
    ∧ IntFrame (intMap 1 10 none none 0 200 0 400) 0 200 0 400
    ∧ ∃ lines cols : Int, layout (intMap 1 10 none none 0 200 0 400) = some (lines, cols)
      ∧ cats_num (intMap 1 10 none none 0 200 0 400) + 1 ≤ lines * cols :=
  have hf : IntFrame (intMap 1 10 none none 0 200 0 400) 0 200 0 400 := by
    refine ⟨?_, ?_, ?_, ?_, ?_, ?_, ?_, ?_⟩ <;> norm_num [intMap]
  ⟨by decide, by decide, by decide, hf,
    (auto_layout_capacity (intMap 1 10 none none 0 200 0 400) (by decide) (by decide)
      rfl rfl (by decide)).2.2 0 200 0 400 hf (by decide) (by decide)⟩

/-- A resolved layout with positive `int` sides yields a grid on a frame with integer
coordinates. -/
theorem grid_of_layout_intFrame (inp : Input) (ti bi li ri lines cols : Int)
    (h : layout inp = some (lines, cols)) (hf : IntFrame inp ti bi li ri)
    (hl : 1 ≤ lines) (hl2 : lines ≤ 2147483647) (hk : 1 ≤ cols)
    (hk2 : cols ≤ 2147483647) :
    grid inp = some ⟨lines, cols, Int.tdiv (bi - ti) lines, Int.tdiv (ri - li) cols⟩ :=
  grid_of_layout inp _ _ lines cols h (intFrame_height hf).1 (intFrame_width hf).1
    (intFrame_height hf).2 (intFrame_width hf).2 hl hl2 hk hk2

/-- C7: for every map that is floating-point, or is an integer map whose range fits an
`int` with `1 ≤ N < 2^31 - 1`, and each option unset or in `[1,1000]`, every grid the
layout resolves to has `lines ≥ 1` and `cols ≥ 1`, whatever the frame; on a frame with
integer coordinates of positive width and height the layout and the grid do resolve, so
no division by `lines` or `cols` has a zero divisor. -/
theorem grid_sides_pos (inp : Input)
    (hmap : inp.fp = true ∨ (Discrete inp ∧ IntRange inp ∧ 1 ≤ cats_num inp))
    (h3 : ∀ v, inp.opt3 = some v → 1 ≤ v ∧ v ≤ 1000)
    (h4 : ∀ v, inp.opt4 = some v → 1 ≤ v ∧ v ≤ 1000) :
    (∀ lines cols : Int, layout inp = some (lines, cols) → 1 ≤ lines ∧ 1 ≤ cols)
    ∧ (∀ ti bi li ri : Int, IntFrame inp ti bi li ri → li < ri → ti < bi →
        ∃ g : Grid, grid inp = some g ∧ layout inp = some (g.lines, g.cols)
          ∧ 1 ≤ g.lines ∧ 1 ≤ g.cols
          ∧ dots_per_line inp g.lines = some g.dots_per_line
          ∧ dots_per_col inp g.cols = some g.dots_per_col) := by
  have hdiv : ∀ c : Int, 1 ≤ cats_num inp → cats_num inp < 2147483647 → 1 ≤ c →
      wrap32 (1 + Int.tdiv (cats_num inp) c) = 1 + Int.tdiv (cats_num inp) c
      ∧ 1 ≤ 1 + Int.tdiv (cats_num inp) c
      ∧ 1 + Int.tdiv (cats_num inp) c ≤ 2147483647 := by
    intro c hN hN2 hc
    obtain ⟨h1, h2⟩ := tdiv_nonneg_le (show 0 ≤ cats_num inp by omega) hc
    exact ⟨wrap32_one_add_tdiv (by omega) hN2 hc, by omega, by omega⟩
  have hinv : ∀ lines cols : Int, layout inp = some (lines, cols) →
      (1 ≤ lines ∧ lines ≤ 2147483647) ∧ (1 ≤ cols ∧ cols ≤ 2147483647) := by
    intro lines cols hl
    rcases hmap with hfp | ⟨hd, hr, hN⟩
    · rw [layout_fp inp hfp] at hl
      simp only [Option.some.injEq, Prod.mk.injEq] at hl
      obtain ⟨rfl, rfl⟩ := hl
      exact ⟨⟨le_refl _, by norm_num⟩, ⟨le_refl _, by norm_num⟩⟩
    · have hfp := hd.1
      have hN2 : cats_num inp < 2147483647 := by
        rw [cats_num_eq inp hr]; exact hr.2.2.2
      cases h3o : inp.opt3 with
      | none =>
        cases h4o : inp.opt4 with
        | none =>
          obtain ⟨hc, hc2, hlines⟩ := layout_unset_inv inp hfp h3o h4o lines cols hl
          obtain ⟨hw, h5, h6⟩ := hdiv cols hN hN2 hc
          rw [hw] at hlines
          exact ⟨⟨by omega, by omega⟩, ⟨hc, hc2⟩⟩
        | some C =>
          obtain ⟨hC, hC2⟩ := h4 C h4o
          rw [layout_cols_set inp hfp C h3o h4o hC] at hl
          simp only [Option.some.injEq, Prod.mk.injEq] at hl
          obtain ⟨rfl, rfl⟩ := hl
          obtain ⟨hw, h5, h6⟩ := hdiv C hN hN2 hC
          rw [hw]
          exact ⟨⟨h5, h6⟩, ⟨hC, by omega⟩⟩
      | some L =>
        obtain ⟨hL, hL2⟩ := h3 L h3o
        cases h4o : inp.opt4 with
        | none =>
          rw [layout_lines_set inp hfp L h3o h4o hL] at hl
          simp only [Option.some.injEq, Prod.mk.injEq] at hl
          obtain ⟨rfl, rfl⟩ := hl
          obtain ⟨hw, h5, h6⟩ := hdiv L hN hN2 hL
          rw [hw]
          exact ⟨⟨hL, by omega⟩, ⟨h5, h6⟩⟩
        | some C =>
          obtain ⟨hC, hC2⟩ := h4 C h4o
          rw [layout_both_set inp hfp L C h3o h4o hL hC] at hl
          simp only [Option.some.injEq, Prod.mk.injEq] at hl
          obtain ⟨rfl, rfl⟩ := hl
          exact ⟨⟨hL, by omega⟩, ⟨hC, by omega⟩⟩
  refine ⟨fun lines cols hl => ⟨(hinv lines cols hl).1.1, (hinv lines cols hl).2.1⟩, ?_⟩
  intro ti bi li ri hf hW hH
  have key : ∃ lines cols : Int, layout inp = some (lines, cols) := by
    rcases hmap with hfp | ⟨hd, hr, hN⟩
    · exact ⟨1, 1, layout_fp inp hfp⟩
    · have hfp := hd.1
      cases h3o : inp.opt3 with
      | none =>
        cases h4o : inp.opt4 with
        | none =>
          exact ⟨_, _, (layout_unset_int inp ti bi li ri hd hr h3o h4o hN hf hW hH).1⟩
        | some C => exact ⟨_, _, layout_cols_set inp hfp C h3o h4o (h4 C h4o).1⟩
      | some L =>
        cases h4o : inp.opt4 with
        | none => exact ⟨_, _, layout_lines_set inp hfp L h3o h4o (h3 L h3o).1⟩
        | some C =>
          exact ⟨_, _, layout_both_set inp hfp L C h3o h4o (h3 L h3o).1 (h4 C h4o).1⟩
  obtain ⟨lines, cols, hl⟩ := key
  obtain ⟨⟨h1, h1'⟩, ⟨h2, h2'⟩⟩ := hinv lines cols hl
  exact ⟨_, grid_of_layout_intFrame inp ti bi li ri lines cols hl hf h1 h1' h2 h2', hl, h1,
    h2, dots_per_line_eq inp _ lines (intFrame_height hf).1 (intFrame_height hf).2 h1 h1',
    dots_per_col_eq inp _ cols (intFrame_width hf).1 (intFrame_width hf).2 h2 h2'⟩

theorem grid_sides_pos_witness :
    Discrete (intMap 1 5 (some 2) none 0 200 0 400)
    ∧ IntRange (intMap 1 5 (some 2) none 0 200 0 400)
    ∧ 1 ≤ cats_num (intMap 1 5 (some 2) none 0 200 0 400)
    ∧ IntFrame (intMap 1 5 (some 2) none 0 200 0 400) 0 200 0 400
    ∧ ∃ g : Grid, grid (intMap 1 5 (some 2) none 0 200 0 400) = some g
      ∧ layout (intMap 1 5 (some 2) none 0 200 0 400) = some (g.lines, g.cols)
      ∧ 1 ≤ g.lines ∧ 1 ≤ g.cols
      ∧ dots_per_line (intMap 1 5 (some 2) none 0 200 0 400) g.lines = some g.dots_per_line
      ∧ dots_per_col (intMap 1 5 (some 2) none 0 200 0 400) g.cols = some g.dots_per_col :=
  have hf : IntFrame (intMap 1 5 (some 2) none 0 200 0 400) 0 200 0 400 := by
    refine ⟨?_, ?_, ?_, ?_, ?_, ?_, ?_, ?_⟩ <;> norm_num [intMap]
  ⟨by decide, by decide, by decide, hf,
    (grid_sides_pos (intMap 1 5 (some 2) none 0 200 0 400)
      (Or.inr ⟨by decide, by decide, by decide⟩)
      (by intro v h; cases h; decide) (by intro v h; cases h)).2 0 200 0 400 hf (by decide)
      (by decide)⟩

/-- C8, as stated, fails: on the frame `top = 0`, `bottom = -3` with `lines = 2` the code
stores `dots_per_line = -1`, while `floor((bottom-top)/lines) = -2`. -/
theorem dots_per_line_not_floor :
    layout (intMap 1 5 (some 2) (some 2) 0 (-3) 0 400) = some (2, 2)
    ∧ dots_per_line (intMap 1 5 (some 2) (some 2) 0 (-3) 0 400) 2 = some (-1)
    ∧ ⌊((intMap 1 5 (some 2) (some 2) 0 (-3) 0 400).b
        - (intMap 1 5 (some 2) (some 2) 0 (-3) 0 400).t) / ((2 : Int) : ℚ)⌋ = -2 := by
  refine ⟨by decide, ?_, ?_⟩
  · rw [dots_per_line_eq _ (-3) 2 (by norm_num [intMap]) (by decide) (by decide)
      (by decide)]
    decide
  · rw [Int.floor_eq_iff]
    norm_num [intMap]

/-- C8, amended: for every frame with integer coordinates (zero and inverted extents
included) and every `lines ≥ 1`, `cols ≥ 1`, `dots_per_line` is `(bottom-top)/lines`
truncated toward zero, which is `floor((bottom-top)/lines)` when `bottom ≥ top` and the
ceiling otherwise; likewise `dots_per_col` from `(right-left)/cols`. -/
theorem dots_truncate (inp : Input) (ti bi li ri lines cols : Int)
    (hf : IntFrame inp ti bi li ri) (hl : 1 ≤ lines) (hl2 : lines ≤ 2147483647)
    (hc : 1 ≤ cols) (hc2 : cols ≤ 2147483647) :
    dots_per_line inp lines
        = some (if inp.t ≤ inp.b then ⌊(inp.b - inp.t) / (lines : ℚ)⌋
            else ⌈(inp.b - inp.t) / (lines : ℚ)⌉)
    ∧ dots_per_col inp cols
        = some (if inp.l ≤ inp.r then ⌊(inp.r - inp.l) / (cols : ℚ)⌋
            else ⌈(inp.r - inp.l) / (cols : ℚ)⌉) := by
  have hlq : (0 : ℚ) < (lines : ℚ) := by exact_mod_cast (by omega : 0 < lines)
  have hcq : (0 : ℚ) < (cols : ℚ) := by exact_mod_cast (by omega : 0 < cols)
  obtain ⟨hH1, hH2⟩ := intFrame_height hf
  obtain ⟨hW1, hW2⟩ := intFrame_width hf
  constructor
  · rw [dots_per_line_eq inp _ lines hH1 hH2 hl hl2, ← toInt_div _ _ (by omega), ← hH1]
    split
    · rw [toInt_of_nonneg (div_nonneg (by linarith) hlq.le)]
    · rw [toInt_of_nonpos (div_nonpos_of_nonpos_of_nonneg (by linarith) hlq.le)]
  · rw [dots_per_col_eq inp _ cols hW1 hW2 hc hc2, ← toInt_div _ _ (by omega), ← hW1]
    split
    · rw [toInt_of_nonneg (div_nonneg (by linarith) hcq.le)]
    · rw [toInt_of_nonpos (div_nonpos_of_nonpos_of_nonneg (by linarith) hcq.le)]

theorem dots_truncate_witness :
    IntFrame (intMap 1 5 (some 2) (some 3) 0 201 400 0) 0 201 400 0
    ∧ dots_per_line (intMap 1 5 (some 2) (some 3) 0 201 400 0) 2
        = some (if (intMap 1 5 (some 2) (some 3) 0 201 400 0).t
              ≤ (intMap 1 5 (some 2) (some 3) 0 201 400 0).b
            then ⌊((intMap 1 5 (some 2) (some 3) 0 201 400 0).b
              - (intMap 1 5 (some 2) (some 3) 0 201 400 0).t) / ((2 : Int) : ℚ)⌋
            else ⌈((intMap 1 5 (some 2) (some 3) 0 201 400 0).b
              - (intMap 1 5 (some 2) (some 3) 0 201 400 0).t) / ((2 : Int) : ℚ)⌉)
    ∧ dots_per_col (intMap 1 5 (some 2) (some 3) 0 201 400 0) 3
        = some (if (intMap 1 5 (some 2) (some 3) 0 201 400 0).l
              ≤ (intMap 1 5 (some 2) (some 3) 0 201 400 0).r
            then ⌊((intMap 1 5 (some 2) (some 3) 0 201 400 0).r
              - (intMap 1 5 (some 2) (some 3) 0 201 400 0).l) / ((3 : Int) : ℚ)⌋
            else ⌈((intMap 1 5 (some 2) (some 3) 0 201 400 0).r
              - (intMap 1 5 (some 2) (some 3) 0 201 400 0).l) / ((3 : Int) : ℚ)⌉) :=
  have hf : IntFrame (intMap 1 5 (some 2) (some 3) 0 201 400 0) 0 201 400 0 := by
    refine ⟨?_, ?_, ?_, ?_, ?_, ?_, ?_, ?_⟩ <;> norm_num [intMap]
  ⟨hf, dots_truncate (intMap 1 5 (some 2) (some 3) 0 201 400 0) 0 201 400 0 2 3 hf
    (by decide) (by decide) (by decide) (by decide)⟩

/-- C9: for a floating-point map, whatever the options `lines` and `cols`, the layout
resolves to `lines = 1`, `cols = 1`, and `dots_per_line`, `dots_per_col` are the double
frame height `b - t` and width `r - l` converted to `int`; replacing the options changes
neither the layout nor the grid; on a frame with integer coordinates the extents are
`bottom - top` and `right - left`. -/
theorem continuous_grid (inp : Input) (hfp : inp.fp = true) :
    layout inp = some (1, 1)
    ∧ dots_per_line inp 1 = toInt32 (fl (inp.b - inp.t))
    ∧ dots_per_col inp 1 = toInt32 (fl (inp.r - inp.l))
    ∧ (∀ o3 o4 : Option Int, layout { inp with opt3 := o3, opt4 := o4 } = some (1, 1)
        ∧ grid { inp with opt3 := o3, opt4 := o4 } = grid inp)
    ∧ (∀ ti bi li ri : Int, IntFrame inp ti bi li ri →
        grid inp = some ⟨1, 1, bi - ti, ri - li⟩) := by
  refine ⟨layout_fp inp hfp, by simp [dots_per_line, fl_idem],
    by simp [dots_per_col, fl_idem], ?_, ?_⟩
  · intro o3 o4
    refine ⟨layout_fp _ hfp, ?_⟩
    rw [grid_fp inp hfp]
    exact grid_fp _ hfp
  · intro ti bi li ri hf
    exact grid_fp_int inp hfp _ _ (intFrame_height hf).1 (intFrame_width hf).1
      (intFrame_height hf).2 (intFrame_width hf).2

theorem continuous_grid_witness :
    (fpMap (1 / 2) (15 / 2) (some 7) (some 9) 0 200 0 400).fp = true
    ∧ IntFrame (fpMap (1 / 2) (15 / 2) (some 7) (some 9) 0 200 0 400) 0 200 0 400
    ∧ grid (fpMap (1 / 2) (15 / 2) (some 7) (some 9) 0 200 0 400) = some ⟨1, 1, 200, 400⟩
    ∧ layout (fpMap (1 / 2) (15 / 2) (some 7) (some 9) 0 200 0 400) = some (1, 1)
    ∧ dots_per_line (fpMap (1 / 2) (15 / 2) (some 7) (some 9) 0 200 0 400) 1
        = toInt32 (fl ((fpMap (1 / 2) (15 / 2) (some 7) (some 9) 0 200 0 400).b
            - (fpMap (1 / 2) (15 / 2) (some 7) (some 9) 0 200 0 400).t))
    ∧ dots_per_col (fpMap (1 / 2) (15 / 2) (some 7) (some 9) 0 200 0 400) 1
        = toInt32 (fl ((fpMap (1 / 2) (15 / 2) (some 7) (some 9) 0 200 0 400).r
            - (fpMap (1 / 2) (15 / 2) (some 7) (some 9) 0 200 0 400).l))
    ∧ (∀ o3 o4 : Option Int,
        layout { fpMap (1 / 2) (15 / 2) (some 7) (some 9) 0 200 0 400 with
            opt3 := o3, opt4 := o4 } = some (1, 1)
        ∧ grid { fpMap (1 / 2) (15 / 2) (some 7) (some 9) 0 200 0 400 with
            opt3 := o3, opt4 := o4 }
          = grid (fpMap (1 / 2) (15 / 2) (some 7) (some 9) 0 200 0 400))
    ∧ (∀ ti bi li ri : Int,
        IntFrame (fpMap (1 / 2) (15 / 2) (some 7) (some 9) 0 200 0 400) ti bi li ri →
        grid (fpMap (1 / 2) (15 / 2) (some 7) (some 9) 0 200 0 400)
          = some ⟨1, 1, bi - ti, ri - li⟩) :=
  have hf : IntFrame (fpMap (1 / 2) (15 / 2) (some 7) (some 9) 0 200 0 400) 0 200 0 400 := by
    refine ⟨?_, ?_, ?_, ?_, ?_, ?_, ?_, ?_⟩ <;> norm_num [fpMap]
  ⟨rfl, hf,
    (continuous_grid (fpMap (1 / 2) (15 / 2) (some 7) (some 9) 0 200 0 400) rfl).2.2.2.2
      0 200 0 400 hf,
    continuous_grid (fpMap (1 / 2) (15 / 2) (some 7) (some 9) 0 200 0 400) rfl⟩

/-! ## Continuous rendering -/

theorem rampLoop_succ (inp : Input) (g : Grid) (c row : Int) (k : Nat) (r : ℚ) :
    rampLoop inp g c row (k + 1) r
      = Cmd.D_d_color (dval inp g r)
        :: Cmd.D_pos_abs ((c + 4 : Int) : ℚ) (((row - 3 : Int) : ℚ) - r)
        :: Cmd.D_polygon_rel (x_box g) (y_box_ramp g) 5
        :: rampLoop inp g c row k (r + 1) := rfl

/-- The fill polygons of the ramp loop: pass `i` is drawn in the colour of `dval` at
`r + i`. -/
theorem fills_rampLoop (p : Option Pen) (inp : Input) (g : Grid) (c row : Int) (k : Nat)
    (r : ℚ) :
    fills p (rampLoop inp g c row k r)
      = (List.range k).map (fun i : Nat => some (Pen.val (dval inp g (r + (i : ℚ))))) := by
  induction k generalizing p r with
  | zero => rfl
  | succ k ih =>
    rw [rampLoop_succ, List.range_succ_eq_map]
    simp only [fills, List.map_cons, List.map_map, Nat.cast_zero, add_zero, ih]
    congr 1
    apply List.map_congr_left
    intro i _
    simp only [Function.comp, Nat.cast_succ]
    rw [add_assoc, add_comm (1 : ℚ)]

theorem fills_continuous (inp : Input) (g : Grid) :
    fills none (continuous inp g)
      = (List.range (g.dots_per_line - 6).toNat).map
          (fun i : Nat => some (Pen.val (dval inp g (i : ℚ)))) := by
  unfold continuous
  rw [fills_append, fills_append, fills_borders, fills_rampLoop]
  simp only [fills, List.nil_append, List.append_nil, zero_add]

/-- C10: for a floating-point map the ramp loop issues `dots_per_line - 6` fill polygons
when that number is not negative, and none when `dots_per_line - 6 ≤ 0`. -/
theorem ramp_strip_count (inp : Input) (g : Grid) (hfp : inp.fp = true)
    (hg : grid inp = some g) :
    ∃ cmds, main inp = some cmds
      ∧ (fills none cmds).length = (g.dots_per_line - 6).toNat
      ∧ (0 ≤ g.dots_per_line - 6 →
          ((fills none cmds).length : Int) = g.dots_per_line - 6)
      ∧ (g.dots_per_line - 6 ≤ 0 → fills none cmds = []) := by
  have hlen : (fills none (continuous inp g)).length = (g.dots_per_line - 6).toNat := by
    rw [fills_continuous, List.length_map, List.length_range]
  refine ⟨_, main_continuous inp g hfp hg, hlen, ?_, ?_⟩
  · intro h
    rw [hlen]
    exact Int.toNat_of_nonneg h
  · intro h
    apply List.eq_nil_of_length_eq_zero
    rw [hlen]
    omega

theorem ramp_strip_count_witness :
    (fpMap (1 / 2) (15 / 2) none none 0 20 0 40).fp = true
    ∧ grid (fpMap (1 / 2) (15 / 2) none none 0 20 0 40) = some ⟨1, 1, 20, 40⟩
    ∧ ∃ cmds, main (fpMap (1 / 2) (15 / 2) none none 0 20 0 40) = some cmds
      ∧ (fills none cmds).length = ((20 : Int) - 6).toNat
      ∧ (0 ≤ (20 : Int) - 6 → ((fills none cmds).length : Int) = 20 - 6)
      ∧ ((20 : Int) - 6 ≤ 0 → fills none cmds = []) :=
  have hg : grid (fpMap (1 / 2) (15 / 2) none none 0 20 0 40) = some ⟨1, 1, 20, 40⟩ :=
    grid_fp_int _ rfl 20 40 (by norm_num [fpMap]) (by norm_num [fpMap]) (by decide)
      (by decide)
  ⟨rfl, hg, ramp_strip_count (fpMap (1 / 2) (15 / 2) none none 0 20 0 40) ⟨1, 1, 20, 40⟩
    rfl hg⟩

/-! ## Ramp values -/

theorem fills_continuous_get (inp : Input) (g : Grid) (r : Nat)
    (hr : r < (g.dots_per_line - 6).toNat) :
    (fills none (continuous inp g))[r]? = some (some (Pen.val (dval inp g (r : ℚ)))) := by
  rw [fills_continuous, List.getElem?_map, List.getElem?_range hr]
  rfl

/-- The value of a strip above the null band, with the divisor written from the strip
count. -/
theorem dval_of_gt (inp : Input) (g : Grid) (r : Nat) (h4 : 4 < r)
    (hr : r < (g.dots_per_line - 6).toNat) :
    dval inp g (r : ℚ) = some (inp.dmin + ((r : ℚ) - 1) * (inp.dmax - inp.dmin)
      / ((((g.dots_per_line - 6).toNat : Nat) : ℚ) - 5)) := by
  have h : ¬ ((r : ℚ)) ≤ 4 := by
    push_neg; exact_mod_cast h4
  have hc : ((((g.dots_per_line - 6).toNat : Nat) : Int)) = g.dots_per_line - 6 :=
    Int.toNat_of_nonneg (by omega)
  have hq : ((g.dots_per_line - 6 - 5 : Int) : ℚ)
      = (((g.dots_per_line - 6).toNat : Nat) : ℚ) - 5 := by
    have : (((g.dots_per_line - 6).toNat : Nat) : ℚ) = ((g.dots_per_line - 6 : Int) : ℚ) := by
      exact_mod_cast hc
    rw [this]; push_cast; ring
  rw [dval, if_neg h, hq]


/-- C11: for a floating-point map every strip with index `r ≤ 4` is filled under
`D_d_color` of the null value, whatever `dmin` and `dmax` are, and every strip with index
`r > 4` under `D_d_color` of the non-null value
`dmin + (r - 1) * (dmax - dmin) / (dots_per_line - 6 - 5)`, whose divisor is positive. -/
theorem ramp_null_band (inp : Input) (g : Grid) (hfp : inp.fp = true)
    (hg : grid inp = some g) :
    ∃ cmds, main inp = some cmds
      ∧ ∀ r : Nat, r < (g.dots_per_line - 6).toNat →
        (r ≤ 4 → (fills none cmds)[r]? = some (some (Pen.val none)))
        ∧ (4 < r → 0 < g.dots_per_line - 6 - 5
            ∧ (fills none cmds)[r]? = some (some (Pen.val (some
                (inp.dmin + ((r : ℚ) - 1) * (inp.dmax - inp.dmin)
                  / ((g.dots_per_line - 6 - 5 : Int) : ℚ)))))) := by
  refine ⟨_, main_continuous inp g hfp hg, ?_⟩
  intro r hr
  have hget : (fills none (continuous inp g))[r]?
      = some (some (Pen.val (dval inp g (r : ℚ)))) := by
    rw [fills_continuous, List.getElem?_map, List.getElem?_range hr]
    rfl
  constructor
  · intro h4
    have : ((r : ℚ)) ≤ 4 := by exact_mod_cast h4
    rw [hget, dval, if_pos this]
  · intro h4
    have : ¬ ((r : ℚ)) ≤ 4 := by
      push_neg; exact_mod_cast h4
    refine ⟨by omega, ?_⟩
    rw [hget, dval, if_neg this]

theorem ramp_null_band_witness :
    (fpMap (1 / 2) (15 / 2) none none 0 20 0 40).fp = true
    ∧ grid (fpMap (1 / 2) (15 / 2) none none 0 20 0 40) = some ⟨1, 1, 20, 40⟩
    ∧ ∃ cmds, main (fpMap (1 / 2) (15 / 2) none none 0 20 0 40) = some cmds
      ∧ ∀ r : Nat, r < ((20 : Int) - 6).toNat →
        (r ≤ 4 → (fills none cmds)[r]? = some (some (Pen.val none)))
        ∧ (4 < r → 0 < (20 : Int) - 6 - 5
            ∧ (fills none cmds)[r]? = some (some (Pen.val (some
                ((fpMap (1 / 2) (15 / 2) none none 0 20 0 40).dmin + ((r : ℚ) - 1)
                  * ((fpMap (1 / 2) (15 / 2) none none 0 20 0 40).dmax
                    - (fpMap (1 / 2) (15 / 2) none none 0 20 0 40).dmin)
                  / (((20 : Int) - 6 - 5 : Int) : ℚ)))))) :=
  have hg : grid (fpMap (1 / 2) (15 / 2) none none 0 20 0 40) = some ⟨1, 1, 20, 40⟩ :=
    grid_fp_int _ rfl 20 40 (by norm_num [fpMap]) (by norm_num [fpMap]) (by decide)
      (by decide)
  ⟨rfl, hg, ramp_null_band (fpMap (1 / 2) (15 / 2) none none 0 20 0 40) ⟨1, 1, 20, 40⟩
    rfl hg⟩

/-- C12: for a floating-point map with `dmax > dmin` and strip indices
`4 < r1 < r2 < stripCount`, the value resolved for strip `r1`,
`dmin + (r1 - 1) * (dmax - dmin) / (stripCount - 5)`, is strictly less than the value
resolved for strip `r2`. -/
theorem ramp_monotone (inp : Input) (g : Grid) (hfp : inp.fp = true)
    (hg : grid inp = some g) (hd : inp.dmin < inp.dmax) (r1 r2 : Nat) (h1 : 4 < r1)
    (h12 : r1 < r2) (h2 : r2 < (g.dots_per_line - 6).toNat) :
    ∃ cmds v1 v2, main inp = some cmds
      ∧ (fills none cmds)[r1]? = some (some (Pen.val (some v1)))
      ∧ (fills none cmds)[r2]? = some (some (Pen.val (some v2)))
      ∧ v1 = inp.dmin + ((r1 : ℚ) - 1) * (inp.dmax - inp.dmin)
          / ((((g.dots_per_line - 6).toNat : Nat) : ℚ) - 5)
      ∧ v2 = inp.dmin + ((r2 : ℚ) - 1) * (inp.dmax - inp.dmin)
          / ((((g.dots_per_line - 6).toNat : Nat) : ℚ) - 5)
      ∧ v1 < v2 := by
  have hv1 := dval_of_gt inp g r1 h1 (by omega)
  have hv2 := dval_of_gt inp g r2 (by omega) h2
  refine ⟨_, _, _, main_continuous inp g hfp hg, ?_, ?_, rfl, rfl, ?_⟩
  · rw [fills_continuous_get inp g r1 (by omega), hv1]
  · rw [fills_continuous_get inp g r2 h2, hv2]
  · have hden : (0 : ℚ) < (((g.dots_per_line - 6).toNat : Nat) : ℚ) - 5 := by
      have : (5 : ℚ) < (((g.dots_per_line - 6).toNat : Nat) : ℚ) := by
        exact_mod_cast (by omega : 5 < (g.dots_per_line - 6).toNat)
      linarith
    have hr : ((r1 : ℚ)) < (r2 : ℚ) := by exact_mod_cast h12
    have hnum : ((r1 : ℚ) - 1) * (inp.dmax - inp.dmin)
        < ((r2 : ℚ) - 1) * (inp.dmax - inp.dmin) :=
      mul_lt_mul_of_pos_right (by linarith) (by linarith)
    have := div_lt_div_of_pos_right hnum hden
    linarith

theorem ramp_monotone_witness :
    (fpMap (1 / 2) (15 / 2) none none 0 20 0 40).dmin
        < (fpMap (1 / 2) (15 / 2) none none 0 20 0 40).dmax
    ∧ grid (fpMap (1 / 2) (15 / 2) none none 0 20 0 40) = some ⟨1, 1, 20, 40⟩
    ∧ ∃ cmds v1 v2, main (fpMap (1 / 2) (15 / 2) none none 0 20 0 40) = some cmds
      ∧ (fills none cmds)[5]? = some (some (Pen.val (some v1)))
      ∧ (fills none cmds)[13]? = some (some (Pen.val (some v2)))
      ∧ v1 = (fpMap (1 / 2) (15 / 2) none none 0 20 0 40).dmin + (((5 : Nat) : ℚ) - 1)
          * ((fpMap (1 / 2) (15 / 2) none none 0 20 0 40).dmax
            - (fpMap (1 / 2) (15 / 2) none none 0 20 0 40).dmin)
          / (((((20 : Int) - 6).toNat : Nat) : ℚ) - 5)
      ∧ v2 = (fpMap (1 / 2) (15 / 2) none none 0 20 0 40).dmin + (((13 : Nat) : ℚ) - 1)
          * ((fpMap (1 / 2) (15 / 2) none none 0 20 0 40).dmax
            - (fpMap (1 / 2) (15 / 2) none none 0 20 0 40).dmin)
          / (((((20 : Int) - 6).toNat : Nat) : ℚ) - 5)
      ∧ v1 < v2 :=
  have hg : grid (fpMap (1 / 2) (15 / 2) none none 0 20 0 40) = some ⟨1, 1, 20, 40⟩ :=
    grid_fp_int _ rfl 20 40 (by norm_num [fpMap]) (by norm_num [fpMap]) (by decide)
      (by decide)
  ⟨by norm_num [fpMap], hg,
    ramp_monotone (fpMap (1 / 2) (15 / 2) none none 0 20 0 40) ⟨1, 1, 20, 40⟩ rfl hg
      (by norm_num [fpMap]) 5 13 (by decide) (by decide) (by decide)⟩

/-- C13: on the floating-point map with range `0..1` drawn into the frame
`top = 0, bottom = 20`, the ramp has 14 strips and strip 13 is filled under `D_d_color` of
`0 + 12 * 1 / 9 = 4/3`, which lies above `dmax = 1`: the numerator uses `r - 1` where the
null band and the divisor account for five strips. -/
theorem ramp_value_above_max :
    grid (fpMap 0 1 none none 0 20 0 40) = some ⟨1, 1, 20, 40⟩
    ∧ (main (fpMap 0 1 none none 0 20 0 40)).map (fun cmds => (fills none cmds)[13]?)
        = some (some (some (Pen.val (some (4 / 3)))))
    ∧ (fpMap 0 1 none none 0 20 0 40).dmax < 4 / 3 := by
  have hg : grid (fpMap 0 1 none none 0 20 0 40) = some ⟨1, 1, 20, 40⟩ :=
    grid_fp_int _ rfl 20 40 (by norm_num [fpMap]) (by norm_num [fpMap]) (by decide)
      (by decide)
  refine ⟨hg, ?_, by norm_num [fpMap]⟩
  rw [main_continuous _ _ rfl hg, Option.map_some', fills_continuous_get _ _ 13 (by decide)]
  norm_num [dval, fpMap]

/-! ## Degenerate extents and capacity -/

theorem toInt_le_of_lt {q : ℚ} {n : Int} (h : q < (n : ℚ) + 1) (hn : 0 ≤ n) :
    toInt q ≤ n := by
  rcases le_total 0 q with h0 | h0
  · rw [toInt_of_nonneg h0]
    have : ⌊q⌋ < n + 1 := by
      rw [Int.floor_lt]; exact_mod_cast h
    omega
  · rw [toInt_of_nonpos h0]
    have : ⌈q⌉ ≤ 0 := by
      rw [Int.ceil_le]; exact_mod_cast h0
    omega

/-- C14, as stated, fails: on the frame `top = 0`, `bottom = 3` with `lines = 2` the
height is below `2 * lines`, and `dots_per_line` is `1`, not `≤ 0`. -/
theorem dots_per_line_one :
    (intMap 1 5 (some 2) (some 2) 0 3 0 400).b - (intMap 1 5 (some 2) (some 2) 0 3 0 400).t
        < 2 * ((2 : Int) : ℚ)
    ∧ layout (intMap 1 5 (some 2) (some 2) 0 3 0 400) = some (2, 2)
    ∧ dots_per_line (intMap 1 5 (some 2) (some 2) 0 3 0 400) 2 = some 1 := by
  refine ⟨by norm_num [intMap], by decide, ?_⟩
  rw [dots_per_line_eq _ 3 2 (by norm_num [intMap]) (by decide) (by decide) (by decide)]
  decide

/-- C14, amended: on a frame with integer coordinates, for `lines ≥ 1`,
`bottom - top < lines` gives `dots_per_line ≤ 0` and `bottom - top < 2 * lines` gives
`dots_per_line ≤ 1`; likewise `dots_per_col` for `cols ≥ 1` and `right - left`. -/
theorem dots_degenerate (inp : Input) (ti bi li ri lines cols : Int)
    (hf : IntFrame inp ti bi li ri) (hl : 1 ≤ lines) (hl2 : lines ≤ 2147483647)
    (hc : 1 ≤ cols) (hc2 : cols ≤ 2147483647) :
    ∃ dl dc : Int, dots_per_line inp lines = some dl ∧ dots_per_col inp cols = some dc
      ∧ (inp.b - inp.t < (lines : ℚ) → dl ≤ 0)
      ∧ (inp.b - inp.t < 2 * (lines : ℚ) → dl ≤ 1)
      ∧ (inp.r - inp.l < (cols : ℚ) → dc ≤ 0)
      ∧ (inp.r - inp.l < 2 * (cols : ℚ) → dc ≤ 1) := by
  have hlq : (0 : ℚ) < (lines : ℚ) := by exact_mod_cast (by omega : 0 < lines)
  have hcq : (0 : ℚ) < (cols : ℚ) := by exact_mod_cast (by omega : 0 < cols)
  obtain ⟨hH1, hH2⟩ := intFrame_height hf
  obtain ⟨hW1, hW2⟩ := intFrame_width hf
  refine ⟨_, _, dots_per_line_eq inp _ lines hH1 hH2 hl hl2,
    dots_per_col_eq inp _ cols hW1 hW2 hc hc2, ?_, ?_, ?_, ?_⟩
  · intro h
    rw [← toInt_div _ _ (by omega), ← hH1]
    apply toInt_le_of_lt _ (le_refl _)
    rw [div_lt_iff₀ hlq]; push_cast; linarith
  · intro h
    rw [← toInt_div _ _ (by omega), ← hH1]
    apply toInt_le_of_lt _ (by decide)
    rw [div_lt_iff₀ hlq]; push_cast; linarith
  · intro h
    rw [← toInt_div _ _ (by omega), ← hW1]
    apply toInt_le_of_lt _ (le_refl _)
    rw [div_lt_iff₀ hcq]; push_cast; linarith
  · intro h
    rw [← toInt_div _ _ (by omega), ← hW1]
    apply toInt_le_of_lt _ (by decide)
    rw [div_lt_iff₀ hcq]; push_cast; linarith

theorem dots_degenerate_witness :
    IntFrame (intMap 1 5 (some 2) (some 3) 0 1 0 4) 0 1 0 4
    ∧ (intMap 1 5 (some 2) (some 3) 0 1 0 4).b - (intMap 1 5 (some 2) (some 3) 0 1 0 4).t
        < ((2 : Int) : ℚ)
    ∧ ∃ dl dc : Int, dots_per_line (intMap 1 5 (some 2) (some 3) 0 1 0 4) 2 = some dl
      ∧ dots_per_col (intMap 1 5 (some 2) (some 3) 0 1 0 4) 3 = some dc
      ∧ ((intMap 1 5 (some 2) (some 3) 0 1 0 4).b - (intMap 1 5 (some 2) (some 3) 0 1 0 4).t
          < ((2 : Int) : ℚ) → dl ≤ 0)
      ∧ ((intMap 1 5 (some 2) (some 3) 0 1 0 4).b - (intMap 1 5 (some 2) (some 3) 0 1 0 4).t
          < 2 * ((2 : Int) : ℚ) → dl ≤ 1)
      ∧ ((intMap 1 5 (some 2) (some 3) 0 1 0 4).r - (intMap 1 5 (some 2) (some 3) 0 1 0 4).l
          < ((3 : Int) : ℚ) → dc ≤ 0)
      ∧ ((intMap 1 5 (some 2) (some 3) 0 1 0 4).r - (intMap 1 5 (some 2) (some 3) 0 1 0 4).l
          < 2 * ((3 : Int) : ℚ) → dc ≤ 1) :=
  have hf : IntFrame (intMap 1 5 (some 2) (some 3) 0 1 0 4) 0 1 0 4 := by
    refine ⟨?_, ?_, ?_, ?_, ?_, ?_, ?_, ?_⟩ <;> norm_num [intMap]
  ⟨hf, by norm_num [intMap],
    dots_degenerate (intMap 1 5 (some 2) (some 3) 0 1 0 4) 0 1 0 4 2 3 hf (by decide)
      (by decide) (by decide) (by decide)⟩

/-- C19: for an integer map whose range fits an `int` with `1 ≤ N < 2^31 - 1`, when
exactly one of `lines`, `cols` is set by the user (in `[1,1000]`) the other is computed so
that `lines * cols ≥ N + 1`. -/
theorem one_set_capacity (inp : Input) (hfp : inp.fp = false) (hr : IntRange inp)
    (hN : 1 ≤ cats_num inp) :
    cats_num inp = toInt inp.dmax - toInt inp.dmin + 1
    ∧ (∀ L : Int, inp.opt3 = some L → inp.opt4 = none → 1 ≤ L → L ≤ 1000 →
        ∃ cols : Int, layout inp = some (L, cols) ∧ cats_num inp + 1 ≤ L * cols)
    ∧ (∀ C : Int, inp.opt3 = none → inp.opt4 = some C → 1 ≤ C → C ≤ 1000 →
        ∃ lines : Int, layout inp = some (lines, C) ∧ cats_num inp + 1 ≤ lines * C) := by
  have hlt : cats_num inp < 2147483647 := by
    rw [cats_num_eq inp hr]; exact hr.2.2.2
  refine ⟨cats_num_eq inp hr, ?_, ?_⟩
  · intro L h3 h4 hL _
    have hl := layout_lines_set inp hfp L h3 h4 hL
    rw [wrap32_one_add_tdiv (by omega) hlt hL] at hl
    refine ⟨_, hl, ?_⟩
    have := capacity_aux (cats_num inp) L (by omega) hL
    linarith [mul_comm L (1 + (cats_num inp).tdiv L)]
  · intro C h3 h4 hC _
    have hl := layout_cols_set inp hfp C h3 h4 hC
    rw [wrap32_one_add_tdiv (by omega) hlt hC] at hl
    exact ⟨_, hl, capacity_aux (cats_num inp) C (by omega) hC⟩

theorem one_set_capacity_witness :
    (intMap 1 5 (some 2) none 0 200 0 400).fp = false
    ∧ IntRange (intMap 1 5 (some 2) none 0 200 0 400)
    ∧ 1 ≤ cats_num (intMap 1 5 (some 2) none 0 200 0 400)
    ∧ ∃ cols : Int, layout (intMap 1 5 (some 2) none 0 200 0 400) = some (2, cols)
      ∧ cats_num (intMap 1 5 (some 2) none 0 200 0 400) + 1 ≤ 2 * cols :=
  ⟨rfl, by decide, by decide,
    (one_set_capacity (intMap 1 5 (some 2) none 0 200 0 400) rfl (by decide)
      (by decide)).2.1 2 rfl rfl (by decide) (by decide)⟩

/-! ## Column-major order -/

theorem columnMajor_cons (inp : Input) (g : Grid) (k : Nat) (a : Int) (keys : List Int) :
    columnMajor inp g k (a :: keys)
      = swatch inp g a
          (toInt (fl (inp.l
            + ((((k / g.lines.toNat : Nat) : Int) * g.dots_per_col : Int) : ℚ))))
          (toInt inp.t + (((k % g.lines.toNat : Nat) : Int) + 1) * g.dots_per_line)
        ++ columnMajor inp g (k + 1) keys := rfl

theorem columnMajor_append (inp : Input) (g : Grid) (k : Nat) (xs ys : List Int) :
    columnMajor inp g k (xs ++ ys)
      = columnMajor inp g k xs ++ columnMajor inp g (k + xs.length) ys := by
  induction xs generalizing k with
  | nil => simp [columnMajor]
  | cons a xs ih =>
    have h : k + 1 + xs.length = k + (xs.length + 1) := by omega
    rw [List.cons_append, columnMajor_cons, columnMajor_cons, ih, List.append_assoc,
      List.length_cons, h]

theorem fills_columnMajor (p : Option Pen) (inp : Input) (g : Grid) (k : Nat)
    (keys : List Int) :
    fills p (columnMajor inp g k keys) = keys.map (fun a => some (Pen.cat a)) := by
  induction keys generalizing p k with
  | nil => rfl
  | cons a keys ih =>
    rw [columnMajor_cons, fills_append, fills_swatch, penAfter_swatch, ih]
    rfl

theorem cell_div (L atcol a : Nat) (h : a < L) : (atcol * L + a) / L = atcol := by
  rw [Nat.add_comm, Nat.add_mul_div_right _ _ (by omega), Nat.div_eq_of_lt h, Nat.zero_add]

theorem cell_mod (L atcol a : Nat) (h : a < L) : (atcol * L + a) % L = a := by
  rw [Nat.add_comm, Nat.add_mul_mod_self_right, Nat.mod_eq_of_lt h]

theorem lineBody_first (inp : Input) (g : Grid) (c : Int) (s : LoopState)
    (h : s.count = 0) :
    lineBody inp g c s
      = (⟨toInt inp.dmin, 1, s.cur_dot_row + g.dots_per_line,
          s.out ++ swatch inp g s.atcat c (s.cur_dot_row + g.dots_per_line)⟩, false) := by
  simp [lineBody, h]

theorem lineBody_later (inp : Input) (g : Grid) (c : Int) (s : LoopState)
    (h : 1 ≤ s.count) :
    lineBody inp g c s
      = (⟨wrap32 (s.atcat + 1), s.count + 1, s.cur_dot_row + g.dots_per_line,
          s.out ++ swatch inp g s.atcat c (s.cur_dot_row + g.dots_per_line)⟩,
        decide (wrap32 (s.atcat + 1) > toInt inp.dmax)) := by
  have : s.count + 1 ≠ 1 := by omega
  simp [lineBody, this]

theorem range_succ_map_add (a : Int) (n : Nat) :
    (List.range (n + 1)).map (fun i : Nat => a + (i : Int))
      = a :: (List.range n).map (fun i : Nat => a + 1 + (i : Int)) := by
  rw [List.range_succ_eq_map, List.map_cons, List.map_map]
  simp only [Nat.cast_zero, add_zero, List.cons.injEq, true_and]
  apply List.map_congr_left
  intro i _
  simp only [Function.comp, Nat.succ_eq_add_one, Nat.cast_add, Nat.cast_one]
  ring

/-- The passes of a column after its first one: they draw their keys in consecutive rows
and stop early only by passing `max`; while the keys stay within the `int` range they are
consecutive. -/
theorem lineLoop_later (inp : Input) (g : Grid) (atcol : Nat) (k : Nat) :
    ∀ (s : LoopState) (a : Nat), 1 ≤ s.count →
      s.cur_dot_row = toInt inp.t + (a : Int) * g.dots_per_line →
      a + k ≤ g.lines.toNat →
      ∃ keys : List Int, keys.length ≤ k
        ∧ (lineLoop inp g
              (toInt (fl (inp.l + ((((atcol : Nat) : Int) * g.dots_per_col : Int) : ℚ))))
              k s).out
            = s.out ++ columnMajor inp g (atcol * g.lines.toNat + a) keys
        ∧ (keys.length < k → toInt inp.dmax < (lineLoop inp g
              (toInt (fl (inp.l + ((((atcol : Nat) : Int) * g.dots_per_col : Int) : ℚ))))
              k s).atcat)
        ∧ (toInt inp.dmax < 2147483647 → -2147483648 ≤ s.atcat →
            s.atcat ≤ toInt inp.dmax →
            keys = (List.range keys.length).map (fun i : Nat => s.atcat + (i : Int))
            ∧ (lineLoop inp g
                (toInt (fl (inp.l + ((((atcol : Nat) : Int) * g.dots_per_col : Int) : ℚ))))
                k s).atcat = s.atcat + (keys.length : Int)
            ∧ s.atcat + (keys.length : Int) ≤ toInt inp.dmax + 1) := by
  induction k with
  | zero =>
    intro s a _ _ _
    refine ⟨[], le_refl _, by simp [lineLoop, columnMajor], by simp, ?_⟩
    intro _ _ h
    refine ⟨rfl, by simp [lineLoop], by simp; omega⟩
  | succ k ih =>
    intro s a hcount hrow hle
    have ha : a < g.lines.toNat := by omega
    rw [lineLoop, lineBody_later inp g _ s hcount]
    have hblock : swatch inp g s.atcat
        (toInt (fl (inp.l + ((((atcol : Nat) : Int) * g.dots_per_col : Int) : ℚ))))
        (s.cur_dot_row + g.dots_per_line)
        = columnMajor inp g (atcol * g.lines.toNat + a) [s.atcat] := by
      rw [columnMajor_cons, cell_div _ _ _ ha, cell_mod _ _ _ ha, hrow]
      simp only [columnMajor, List.append_nil]
      congr 1
      ring
    by_cases hbrk : wrap32 (s.atcat + 1) > toInt inp.dmax
    · rw [decide_eq_true hbrk]
      simp only
      refine ⟨[s.atcat], by simp, by rw [hblock], fun _ => hbrk, ?_⟩
      intro h1 h2 h3
      have hw : wrap32 (s.atcat + 1) = s.atcat + 1 := wrap32_of_mem (by omega) (by omega)
      have hr1 : List.range 1 = [0] := rfl
      refine ⟨by simp [hr1], by simp [hw], by simp; omega⟩
    · rw [decide_eq_false hbrk]
      simp only
      obtain ⟨keys, hlen, hout, hlt, hrange⟩ := ih
        ⟨wrap32 (s.atcat + 1), s.count + 1, s.cur_dot_row + g.dots_per_line,
          s.out ++ swatch inp g s.atcat
            (toInt (fl (inp.l + ((((atcol : Nat) : Int) * g.dots_per_col : Int) : ℚ))))
            (s.cur_dot_row + g.dots_per_line)⟩ (a + 1) (by simp; omega)
        (by simp only [hrow]; push_cast; ring) (by omega)
      simp only at hout hlt hrange
      refine ⟨s.atcat :: keys, by simp; omega, ?_, ?_, ?_⟩
      · rw [hout, hblock, List.append_assoc]
        have : columnMajor inp g (atcol * g.lines.toNat + a) (s.atcat :: keys)
            = columnMajor inp g (atcol * g.lines.toNat + a) [s.atcat]
              ++ columnMajor inp g (atcol * g.lines.toNat + (a + 1)) keys := by
          rw [show s.atcat :: keys = [s.atcat] ++ keys from rfl, columnMajor_append]
          simp only [List.length_singleton]
          rfl
        rw [this]
      · intro h
        exact hlt (by simp at h; omega)
      · intro h1 h2 h3
        have hw : wrap32 (s.atcat + 1) = s.atcat + 1 := wrap32_of_mem (by omega) (by omega)
        rw [hw] at hrange hbrk
        obtain ⟨hk, hat, hb⟩ := hrange h1 (by omega) (by omega)
        refine ⟨?_, ?_, ?_⟩
        · rw [List.length_cons, range_succ_map_add, ← hk]
        · rw [hw, hat, List.length_cons]; push_cast; ring
        · rw [List.length_cons]; push_cast; linarith

/-- One whole column: the first pass draws the key carried in, the later passes draw
`min`, `min + 1`, ... -/
theorem lineLoop_column (inp : Input) (g : Grid) (atcol : Nat) (s : LoopState)
    (hcount : s.count = 0) (hrow : s.cur_dot_row = toInt inp.t) (hL : 1 ≤ g.lines.toNat) :
    ∃ keys : List Int, keys.length + 1 ≤ g.lines.toNat
      ∧ (lineLoop inp g
            (toInt (fl (inp.l + ((((atcol : Nat) : Int) * g.dots_per_col : Int) : ℚ))))
            g.lines.toNat s).out
          = s.out ++ columnMajor inp g (atcol * g.lines.toNat) (s.atcat :: keys)
      ∧ (keys.length + 1 < g.lines.toNat → toInt inp.dmax < (lineLoop inp g
            (toInt (fl (inp.l + ((((atcol : Nat) : Int) * g.dots_per_col : Int) : ℚ))))
            g.lines.toNat s).atcat)
      ∧ (toInt inp.dmax < 2147483647 → -2147483648 ≤ toInt inp.dmin →
          toInt inp.dmin ≤ toInt inp.dmax →
          keys = (List.range keys.length).map (fun i : Nat => toInt inp.dmin + (i : Int))
          ∧ (lineLoop inp g
              (toInt (fl (inp.l + ((((atcol : Nat) : Int) * g.dots_per_col : Int) : ℚ))))
              g.lines.toNat s).atcat = toInt inp.dmin + (keys.length : Int)
          ∧ toInt inp.dmin + (keys.length : Int) ≤ toInt inp.dmax + 1) := by
  obtain ⟨m, hm⟩ : ∃ m, g.lines.toNat = m + 1 := ⟨g.lines.toNat - 1, by omega⟩
  have h0 : 0 < g.lines.toNat := by omega
  obtain ⟨keys, hlen, hout, hlt, hrange⟩ := lineLoop_later inp g atcol m
    ⟨toInt inp.dmin, 1, s.cur_dot_row + g.dots_per_line,
      s.out ++ swatch inp g s.atcat
        (toInt (fl (inp.l + ((((atcol : Nat) : Int) * g.dots_per_col : Int) : ℚ))))
        (s.cur_dot_row + g.dots_per_line)⟩ 1 (le_refl _)
    (by simp only [hrow]; push_cast; ring) (by omega)
  simp only at hout hlt hrange
  have hstep : lineLoop inp g
      (toInt (fl (inp.l + ((((atcol : Nat) : Int) * g.dots_per_col : Int) : ℚ))))
      g.lines.toNat s
      = lineLoop inp g
          (toInt (fl (inp.l + ((((atcol : Nat) : Int) * g.dots_per_col : Int) : ℚ)))) m
          ⟨toInt inp.dmin, 1, s.cur_dot_row + g.dots_per_line,
            s.out ++ swatch inp g s.atcat
              (toInt (fl (inp.l + ((((atcol : Nat) : Int) * g.dots_per_col : Int) : ℚ))))
              (s.cur_dot_row + g.dots_per_line)⟩ := by
    rw [hm, lineLoop, lineBody_first inp g _ s hcount]
  rw [hstep]
  refine ⟨keys, by omega, ?_, ?_, hrange⟩
  · rw [hout, columnMajor_cons, List.append_assoc]
    have hd := cell_div g.lines.toNat atcol 0 h0
    have hmod := cell_mod g.lines.toNat atcol 0 h0
    simp only [Nat.add_zero] at hd hmod
    rw [hd, hmod, hrow]
    simp only [Nat.cast_zero, zero_add, one_mul]
  · intro h
    exact hlt (by omega)

theorem colLoop_no_lines (inp : Input) (g : Grid) (hL : g.lines.toNat = 0) (k : Nat) :
    ∀ (atcol : Int) (s : LoopState), (colLoop inp g k atcol s).out = s.out := by
  induction k with
  | zero => intro atcol s; rfl
  | succ k ih =>
    intro atcol s
    rw [colLoop, hL]
    simp only [lineLoop]
    split
    · rfl
    · rw [ih]

/-- The column loop draws its swatches column-major, at most `lines` in each column; the
first key is the one carried in, and on a range with `min ≤ max < 2^31 - 1` every other
key lies in `[min, max]` and below `min + lines`. -/
theorem colLoop_columns (inp : Input) (g : Grid) (hL : 1 ≤ g.lines.toNat) (k : Nat) :
    ∀ (atcol : Nat) (s : LoopState),
      ∃ keys, (colLoop inp g k (atcol : Int) s).out
            = s.out ++ columnMajor inp g (atcol * g.lines.toNat) keys
        ∧ keys.length ≤ k * g.lines.toNat
        ∧ (k = 0 → keys = [])
        ∧ (1 ≤ k → ∃ rest, keys = s.atcat :: rest
            ∧ (toInt inp.dmax < 2147483647 → -2147483648 ≤ toInt inp.dmin →
                toInt inp.dmin ≤ toInt inp.dmax → ∀ key ∈ rest,
                toInt inp.dmin ≤ key ∧ key ≤ toInt inp.dmax
                  ∧ key ≤ toInt inp.dmin + g.lines - 1)) := by
  have hlines : ((g.lines.toNat : Nat) : Int) = g.lines := Int.toNat_of_nonneg (by omega)
  induction k with
  | zero =>
    intro atcol s
    exact ⟨[], by simp [colLoop, columnMajor], by simp, fun _ => rfl, by intro h; omega⟩
  | succ k ih =>
    intro atcol s
    obtain ⟨keys1, hlen, hout, hlt, hrange⟩ := lineLoop_column inp g atcol
      { s with cur_dot_row := toInt inp.t, count := 0 } rfl rfl hL
    simp only at hout hlt hrange
    have hR : toInt inp.dmax < 2147483647 → -2147483648 ≤ toInt inp.dmin →
        toInt inp.dmin ≤ toInt inp.dmax → ∀ key ∈ keys1,
          toInt inp.dmin ≤ key ∧ key ≤ toInt inp.dmax
            ∧ key ≤ toInt inp.dmin + g.lines - 1 := by
      intro h1 h2 hmM key hkey
      obtain ⟨hk, _, hb⟩ := hrange h1 h2 hmM
      rw [hk] at hkey
      simp only [List.mem_map, List.mem_range] at hkey
      obtain ⟨i, hi, rfl⟩ := hkey
      refine ⟨by omega, by omega, by omega⟩
    have hmul : (k + 1) * g.lines.toNat = g.lines.toNat + k * g.lines.toNat := by ring
    rw [colLoop]
    split
    · refine ⟨_, hout, ?_, by intro h; omega, fun _ => ⟨_, rfl, hR⟩⟩
      rw [List.length_cons, hmul]
      omega
    · rename_i hnb
      have hfull : keys1.length + 1 = g.lines.toNat := by
        by_contra hne
        exact hnb (hlt (by omega))
      obtain ⟨keys2, hout2, hlen2, hnil2, hkeys2⟩ := ih (atcol + 1)
        (lineLoop inp g
          (toInt (fl (inp.l + ((((atcol : Nat) : Int) * g.dots_per_col : Int) : ℚ))))
          g.lines.toNat { s with cur_dot_row := toInt inp.t, count := 0 })
      refine ⟨(s.atcat :: keys1) ++ keys2, ?_, ?_, by intro h; omega,
        fun _ => ⟨_, rfl, ?_⟩⟩
      · have hc : (((atcol + 1 : Nat) : Int)) = (atcol : Int) + 1 := by push_cast; rfl
        rw [← hc, hout2, hout, columnMajor_append, List.append_assoc]
        congr 3
        simp only [List.length_cons, hfull]
        ring
      · rw [List.length_append, List.length_cons, hmul]
        omega
      · intro h1 h2 hmM key hkey
        rcases List.mem_append.mp hkey with h3 | h4
        · exact hR h1 h2 hmM key h3
        · rcases Nat.eq_zero_or_pos k with hk0 | hkpos
          · rw [hnil2 hk0] at h4
            simp at h4
          · obtain ⟨rest2, hk2, hb2⟩ := hkeys2 hkpos
            obtain ⟨_, hat, hb⟩ := hrange h1 h2 hmM
            rw [hk2, hat] at h4
            rw [hat] at hnb
            rcases List.mem_cons.mp h4 with h5 | h6
            · subst h5
              refine ⟨by omega, by omega, by omega⟩
            · exact hb2 h1 h2 hmM key h6

/-- The calls of an integer map are the swatches of some keys, at most `lines * cols` of
them, column-major from the first cell; with at least one line and column the first key
is the null pattern, and on a range with `min ≤ max < 2^31 - 1` every other key lies in
`[min, max]` and below `min + lines`. -/
theorem discrete_columnMajor (inp : Input) (g : Grid) :
    ∃ keys, discrete inp g = columnMajor inp g 0 keys
      ∧ keys.length ≤ g.cols.toNat * g.lines.toNat
      ∧ (1 ≤ g.lines → 1 ≤ g.cols → ∃ rest, keys = inp.cnull :: rest
          ∧ (toInt inp.dmax < 2147483647 → -2147483648 ≤ toInt inp.dmin →
              toInt inp.dmin ≤ toInt inp.dmax → ∀ key ∈ rest,
              toInt inp.dmin ≤ key ∧ key ≤ toInt inp.dmax
                ∧ key ≤ toInt inp.dmin + g.lines - 1)) := by
  by_cases hL : 1 ≤ g.lines.toNat
  · obtain ⟨keys, hout, hlen, _, hkeys⟩ := colLoop_columns inp g hL g.cols.toNat 0
      ⟨inp.cnull, 0, 0, []⟩
    refine ⟨keys, ?_, hlen, ?_⟩
    · unfold discrete
      simpa using hout
    · intro _ hc
      exact hkeys (by omega)
  · refine ⟨[], ?_, by simp, ?_⟩
    · unfold discrete
      rw [colLoop_no_lines inp g (by omega)]
      rfl
    · intro hl _
      omega

theorem columnMajor_split (inp : Input) (g : Grid) (keys : List Int) (k : Nat)
    (hk : k < keys.length) (n : Nat) :
    columnMajor inp g n keys
      = columnMajor inp g n (keys.take k)
        ++ swatch inp g (keys.get ⟨k, hk⟩)
            (toInt (fl (inp.l
              + (((((n + k) / g.lines.toNat : Nat) : Int) * g.dots_per_col : Int) : ℚ))))
            (toInt inp.t + ((((n + k) % g.lines.toNat : Nat) : Int) + 1) * g.dots_per_line)
        ++ columnMajor inp g (n + k + 1) (keys.drop (k + 1)) := by
  have h1 : keys = keys.take k ++ keys.get ⟨k, hk⟩ :: keys.drop (k + 1) := by
    rw [List.get_eq_getElem, List.getElem_cons_drop, List.take_append_drop]
  conv_lhs => rw [h1]
  rw [columnMajor_append, columnMajor_cons, List.length_take, Nat.min_eq_left hk.le,
    List.append_assoc]

theorem toInt_half : toInt (1 / 2) = 0 := by
  rw [toInt_of_nonneg (by norm_num), Int.floor_eq_iff]
  norm_num

theorem fl_half : fl (1 / 2) = 1 / 2 := by
  have := fl_exact 1 (-1) (by norm_num) (by norm_num)
  norm_num at this ⊢; exact this

theorem grid_inv (inp : Input) (g : Grid) (hg : grid inp = some g) :
    layout inp = some (g.lines, g.cols)
      ∧ dots_per_line inp g.lines = some g.dots_per_line
      ∧ dots_per_col inp g.cols = some g.dots_per_col := by
  unfold grid at hg
  cases hl : layout inp with
  | none => rw [hl] at hg; simp at hg
  | some p =>
    obtain ⟨lines, cols⟩ := p
    rw [hl] at hg
    simp only at hg
    cases h1 : dots_per_line inp lines with
    | none => rw [h1] at hg; simp at hg
    | some dl =>
      cases h2 : dots_per_col inp cols with
      | none => rw [h1, h2] at hg; simp at hg
      | some dc =>
        rw [h1, h2] at hg
        simp only [Option.some.injEq] at hg
        subst hg
        exact ⟨rfl, h1, h2⟩

/-- The offset of a column from the left frame edge stays within the frame width. -/
theorem col_offset_abs_le (a c w : Int) (ha : 0 ≤ a) (hac : a < c) :
    |a * Int.tdiv w c| ≤ |w| := by
  have hc : 0 < c := by omega
  have key : ∀ v : Int, 0 ≤ v → 0 ≤ Int.tdiv v c ∧ a * Int.tdiv v c ≤ v := by
    intro v hv
    rw [Int.tdiv_eq_ediv hv hc.le]
    have h1 := Int.ediv_nonneg hv hc.le
    have h2 := Int.ediv_mul_le v (ne_of_gt hc)
    refine ⟨h1, ?_⟩
    nlinarith
  rcases le_total 0 w with hw | hw
  · obtain ⟨h1, h2⟩ := key w hw
    rw [abs_of_nonneg (mul_nonneg ha h1), abs_of_nonneg hw]
    exact h2
  · obtain ⟨h1, h2⟩ := key (-w) (by omega)
    have h3 : Int.tdiv w c = -Int.tdiv (-w) c := by
      rw [Int.neg_tdiv]; ring
    rw [h3, abs_of_nonpos hw, mul_neg, abs_neg, abs_of_nonneg (mul_nonneg ha h1)]
    exact h2

/-- On a frame with integer coordinates the left edge of a column of the grid is
`left + n * dots_per_col` exactly. -/
theorem col_edge_exact (inp : Input) (g : Grid) (ti bi li ri : Int)
    (hf : IntFrame inp ti bi li ri) (hg : grid inp = some g) (hcols : g.cols ≤ 2147483647)
    (n : Nat) (hn : n < g.cols.toNat) :
    ((toInt (fl (inp.l + ((((n : Nat) : Int) * g.dots_per_col : Int) : ℚ))) : Int) : ℚ)
      = inp.l + (((n : Nat) : Int) : ℚ) * (g.dots_per_col : ℚ) := by
  have hc1 : 1 ≤ g.cols := by omega
  have hcol' : ((n : Nat) : Int) < g.cols := by omega
  obtain ⟨_, _, hdc⟩ := grid_inv inp g hg
  obtain ⟨hW1, hW2⟩ := intFrame_width hf
  rw [dots_per_col_eq inp _ g.cols hW1 hW2 hc1 hcols] at hdc
  simp only [Option.some.injEq] at hdc
  have hoff := col_offset_abs_le ((n : Nat) : Int) g.cols (ri - li)
    (Int.ofNat_nonneg _) hcol'
  rw [hdc] at hoff
  obtain ⟨_, _, hl, _, _, _, hli, _⟩ := hf
  have hsum : inp.l + ((((n : Nat) : Int) * g.dots_per_col : Int) : ℚ)
      = ((li + ((n : Nat) : Int) * g.dots_per_col : Int) : ℚ) := by
    rw [hl]; push_cast; ring
  have hb : |li + ((n : Nat) : Int) * g.dots_per_col| < 2 ^ 53 := by
    generalize ((n : Nat) : Int) * g.dots_per_col = off at hoff ⊢
    rw [abs_le] at hoff hli
    rw [abs_lt]
    constructor <;> norm_num <;> omega
  rw [hsum, fl_intCast _ hb, toInt_intCast, hl]
  push_cast
  ring

/-- C15, as stated, fails: on the frame with `left = 1/2` and `top = 1/2` (`lines = 2`,
`cols = 2`, extents 200 x 100) the first swatch is drawn for `cur_dot_col = 0` and
`cur_dot_row = 100`, so its cell has its left edge at `0`, not at `left + 0 * 200 = 1/2`,
and its lower edge at `100`, not at `top + 1 * 100 = 201/2`. -/
theorem cell_not_at_frame_offset :
    grid (intMap 1 5 (some 2) (some 2) (1 / 2) (401 / 2) (1 / 2) (801 / 2))
        = some ⟨2, 2, 100, 200⟩
    ∧ ∃ post, main (intMap 1 5 (some 2) (some 2) (1 / 2) (401 / 2) (1 / 2) (801 / 2))
        = some (swatch (intMap 1 5 (some 2) (some 2) (1 / 2) (401 / 2) (1 / 2) (801 / 2))
            ⟨2, 2, 100, 200⟩ (-2147483648) 0 100 ++ post)
      ∧ ((0 : Int) : ℚ)
          ≠ (intMap 1 5 (some 2) (some 2) (1 / 2) (401 / 2) (1 / 2) (801 / 2)).l
            + (((0 / 2 : Nat) : Int) : ℚ) * ((200 : Int) : ℚ)
      ∧ ((100 : Int) : ℚ)
          ≠ (intMap 1 5 (some 2) (some 2) (1 / 2) (401 / 2) (1 / 2) (801 / 2)).t
            + ((((0 % 2 : Nat) : Int) : ℚ) + 1) * ((100 : Int) : ℚ) := by
  have hg : grid (intMap 1 5 (some 2) (some 2) (1 / 2) (401 / 2) (1 / 2) (801 / 2))
      = some ⟨2, 2, 100, 200⟩ :=
    grid_of_layout _ 200 400 2 2 (by decide) (by norm_num [intMap]) (by norm_num [intMap])
      (by decide) (by decide) (by decide) (by decide) (by decide) (by decide)
  obtain ⟨rest, hrest⟩ := discrete_head
    (intMap 1 5 (some 2) (some 2) (1 / 2) (401 / 2) (1 / 2) (801 / 2)) ⟨2, 2, 100, 200⟩
    (by decide) (by decide)
  refine ⟨hg, rest, ?_, by norm_num [intMap], by norm_num [intMap]⟩
  rw [main_discrete _ _ rfl hg, hrest]
  have h1 : toInt (fl (intMap 1 5 (some 2) (some 2) (1 / 2) (401 / 2) (1 / 2) (801 / 2)).l)
      = 0 := by
    have : (intMap 1 5 (some 2) (some 2) (1 / 2) (401 / 2) (1 / 2) (801 / 2)).l = 1 / 2 := rfl
    rw [this, fl_half, toInt_half]
  have h2 : toInt (intMap 1 5 (some 2) (some 2) (1 / 2) (401 / 2) (1 / 2) (801 / 2)).t = 0 :=
    toInt_half
  rw [h1, h2]
  rfl

/-- C15, amended: for an integer map drawn into a frame with integer coordinates the
swatches are drawn column-major: the `k`-th swatch drawn (0-based) is the block for column
`k / lines` and row `k % lines`; it is drawn for `cur_dot_col = c` and `cur_dot_row = r`,
where `c = left + (k / lines) * dots_per_col` is the left edge of its cell and the cell
spans vertically from `r - dots_per_line = top + (k % lines) * dots_per_line` to
`r = top + (k % lines + 1) * dots_per_line`. -/
theorem column_major (inp : Input) (g : Grid) (ti bi li ri : Int) (hfp : inp.fp = false)
    (hg : grid inp = some g) (hf : IntFrame inp ti bi li ri)
    (hcols : g.cols ≤ 2147483647) :
    ∃ cmds, main inp = some cmds
      ∧ ∀ k : Nat, k < (fills none cmds).length → ∃ (pre : List Cmd) (a c r : Int)
          (post : List Cmd),
          cmds = pre ++ swatch inp g a c r ++ post
          ∧ (fills none pre).length = k
          ∧ (c : ℚ) = inp.l + ((k / g.lines.toNat : Nat) : ℚ) * (g.dots_per_col : ℚ)
          ∧ (r : ℚ) - (g.dots_per_line : ℚ)
              = inp.t + ((k % g.lines.toNat : Nat) : ℚ) * (g.dots_per_line : ℚ)
          ∧ (r : ℚ) = inp.t + (((k % g.lines.toNat : Nat) : ℚ) + 1)
              * (g.dots_per_line : ℚ) := by
  obtain ⟨keys, hkeys, hlen, _⟩ := discrete_columnMajor inp g
  refine ⟨_, main_discrete inp g hfp hg, ?_⟩
  intro k hk
  rw [hkeys, fills_columnMajor, List.length_map] at hk
  have hkl : k < g.cols.toNat * g.lines.toNat := lt_of_lt_of_le hk hlen
  have hcol : k / g.lines.toNat < g.cols.toNat :=
    Nat.div_lt_of_lt_mul (by rw [Nat.mul_comm]; exact hkl)
  have hedge := col_edge_exact inp g ti bi li ri hf hg hcols _ hcol
  have hrow : ((toInt inp.t
      + (((k % g.lines.toNat : Nat) : Int) + 1) * g.dots_per_line : Int) : ℚ)
      = inp.t + (((k % g.lines.toNat : Nat) : ℚ) + 1) * (g.dots_per_line : ℚ) := by
    rw [hf.1, toInt_intCast]
    simp only [Int.cast_add, Int.cast_mul, Int.cast_one, Int.cast_natCast]
  refine ⟨columnMajor inp g 0 (keys.take k), keys.get ⟨k, hk⟩,
    toInt (fl (inp.l + ((((k / g.lines.toNat : Nat) : Int) * g.dots_per_col : Int) : ℚ))),
    toInt inp.t + (((k % g.lines.toNat : Nat) : Int) + 1) * g.dots_per_line,
    columnMajor inp g (0 + k + 1) (keys.drop (k + 1)), ?_, ?_, ?_, ?_, hrow⟩
  · rw [hkeys]
    have := columnMajor_split inp g keys k hk 0
    simpa using this
  · rw [fills_columnMajor, List.length_map, List.length_take, Nat.min_eq_left hk.le]
  · rw [hedge]; simp only [Int.cast_natCast]
  · rw [hrow]; ring

theorem column_major_witness :
    sampleMap.fp = false
    ∧ grid sampleMap = some sampleGrid
    ∧ IntFrame sampleMap 0 200 0 400
    ∧ sampleGrid.cols ≤ 2147483647
    ∧ ∃ cmds, main sampleMap = some cmds
      ∧ ∀ k : Nat, k < (fills none cmds).length → ∃ (pre : List Cmd) (a c r : Int)
          (post : List Cmd),
          cmds = pre ++ swatch sampleMap sampleGrid a c r ++ post
          ∧ (fills none pre).length = k
          ∧ (c : ℚ) = sampleMap.l + ((k / sampleGrid.lines.toNat : Nat) : ℚ)
              * (sampleGrid.dots_per_col : ℚ)
          ∧ (r : ℚ) - (sampleGrid.dots_per_line : ℚ)
              = sampleMap.t + ((k % sampleGrid.lines.toNat : Nat) : ℚ)
                * (sampleGrid.dots_per_line : ℚ)
          ∧ (r : ℚ) = sampleMap.t + (((k % sampleGrid.lines.toNat : Nat) : ℚ) + 1)
              * (sampleGrid.dots_per_line : ℚ) :=
  have hg : grid sampleMap = some sampleGrid :=
    grid_of_layout _ 200 400 2 2 (by decide) (by norm_num [sampleMap, intMap])
      (by norm_num [sampleMap, intMap]) (by decide) (by decide) (by decide) (by decide)
      (by decide) (by decide)
  have hf : IntFrame sampleMap 0 200 0 400 := by
    refine ⟨?_, ?_, ?_, ?_, ?_, ?_, ?_, ?_⟩ <;> norm_num [sampleMap, intMap]
  ⟨rfl, hg, hf, by decide, column_major sampleMap sampleGrid 0 200 0 400 rfl hg hf
    (by decide)⟩

/-- C18: for an integer map with `-2^31 ≤ min ≤ max < 2^31 - 1` whose grid has
`lines ≥ 1` and `cols ≥ 1`, the first fill is drawn for the null pattern and every further
key handed to `D_color` lies in `[min, max]` and in `[min, min + lines - 1]`; so no
category from `min + lines` on is drawn, whatever `cols` is. -/
theorem keys_below_min_plus_lines (inp : Input) (g : Grid) (hfp : inp.fp = false)
    (hg : grid inp = some g) (hmM : toInt inp.dmin ≤ toInt inp.dmax)
    (hlo : -2147483648 ≤ toInt inp.dmin) (hhi : toInt inp.dmax < 2147483647)
    (hl : 1 ≤ g.lines) (hc : 1 ≤ g.cols) :
    ∃ (cmds : List Cmd) (rest : List Int), main inp = some cmds
      ∧ fills none cmds
          = some (Pen.cat inp.cnull) :: rest.map (fun a => some (Pen.cat a))
      ∧ (∀ key ∈ rest, toInt inp.dmin ≤ key ∧ key ≤ toInt inp.dmax
          ∧ key ≤ toInt inp.dmin + g.lines - 1)
      ∧ (∀ c : Int, toInt inp.dmin + g.lines ≤ c → c ∉ rest) := by
  obtain ⟨keys, hkeys, _, hrest⟩ := discrete_columnMajor inp g
  obtain ⟨rest, hk, hb⟩ := hrest hl hc
  refine ⟨_, rest, main_discrete inp g hfp hg, ?_, hb hhi hlo hmM, ?_⟩
  · rw [hkeys, fills_columnMajor, hk]
    rfl
  · intro c hc hmem
    have := (hb hhi hlo hmM c hmem).2.2
    omega

theorem keys_below_min_plus_lines_witness :
    sampleMap.fp = false
    ∧ grid sampleMap = some sampleGrid
    ∧ toInt sampleMap.dmin ≤ toInt sampleMap.dmax
    ∧ -2147483648 ≤ toInt sampleMap.dmin ∧ toInt sampleMap.dmax < 2147483647
    ∧ ∃ (cmds : List Cmd) (rest : List Int), main sampleMap = some cmds
      ∧ fills none cmds
          = some (Pen.cat sampleMap.cnull) :: rest.map (fun a => some (Pen.cat a))
      ∧ (∀ key ∈ rest, toInt sampleMap.dmin ≤ key ∧ key ≤ toInt sampleMap.dmax
          ∧ key ≤ toInt sampleMap.dmin + sampleGrid.lines - 1)
      ∧ (∀ c : Int, toInt sampleMap.dmin + sampleGrid.lines ≤ c → c ∉ rest) :=
  have hg : grid sampleMap = some sampleGrid :=
    grid_of_layout _ 200 400 2 2 (by decide) (by norm_num [sampleMap, intMap])
      (by norm_num [sampleMap, intMap]) (by decide) (by decide) (by decide) (by decide)
      (by decide) (by decide)
  ⟨rfl, hg, by decide, by decide, by decide,
    keys_below_min_plus_lines sampleMap sampleGrid rfl hg (by decide) (by decide)
      (by decide) (by decide) (by decide)⟩

/-! ## Geometry of the figures -/

theorem exec_swatch (d : Canvas) (inp : Input) (g : Grid) (a c r : Int) :
    ((swatch inp g a c r).foldl exec d).shapes
      = d.shapes ++
        [ ⟨some (Pen.index inp.color), false,
            rect ((c : ℚ) + 2) ((r : ℚ) - (g.dots_per_line : ℚ) + 1)
              ((c : ℚ) + (g.dots_per_col : ℚ)) ((r : ℚ) - 1)⟩,
          ⟨some (Pen.index inp.black), false,
            rect ((c : ℚ) + 3) ((r : ℚ) - (g.dots_per_line : ℚ) + 2)
              ((c : ℚ) + (g.dots_per_col : ℚ) - 1) ((r : ℚ) - 2)⟩,
          ⟨some (Pen.cat a), true,
            rect ((c : ℚ) + 4) ((r : ℚ) - (g.dots_per_line : ℚ) + 3)
              ((c : ℚ) + (g.dots_per_col : ℚ) - 2) ((r : ℚ) - 3)⟩ ] := by
  simp only [swatch, whiteBox, blackBox, colorBox, List.cons_append, List.nil_append,
    List.foldl_cons, List.foldl_nil, exec, x_box, y_box, List.take, relToAbs, rect,
    List.append_assoc, List.singleton_append]
  push_cast
  congr 1
  simp only [List.cons.injEq, Shape.mk.injEq, true_and, and_true, Prod.mk.injEq]
  repeat' apply And.intro
  all_goals first | rfl | ring

theorem render_append_swatch (pre : List Cmd) (inp : Input) (g : Grid) (a c r : Int) :
    render (pre ++ swatch inp g a c r)
      = render pre ++
        [ ⟨some (Pen.index inp.color), false,
            rect ((c : ℚ) + 2) ((r : ℚ) - (g.dots_per_line : ℚ) + 1)
              ((c : ℚ) + (g.dots_per_col : ℚ)) ((r : ℚ) - 1)⟩,
          ⟨some (Pen.index inp.black), false,
            rect ((c : ℚ) + 3) ((r : ℚ) - (g.dots_per_line : ℚ) + 2)
              ((c : ℚ) + (g.dots_per_col : ℚ) - 1) ((r : ℚ) - 2)⟩,
          ⟨some (Pen.cat a), true,
            rect ((c : ℚ) + 4) ((r : ℚ) - (g.dots_per_line : ℚ) + 3)
              ((c : ℚ) + (g.dots_per_col : ℚ) - 2) ((r : ℚ) - 3)⟩ ] := by
  unfold render
  rw [List.foldl_append, exec_swatch]

theorem closed_rect (x0 y0 x1 y1 : ℚ) : Closed (rect x0 y0 x1 y1) := by
  simp [Closed, rect]

theorem axisAligned_rect (x0 y0 x1 y1 : ℚ) : AxisAligned (rect x0 y0 x1 y1) := by
  simp [AxisAligned, rect]

/-- The strip drawn by one pass of the ramp loop. -/
theorem exec_rampLoop (inp : Input) (g : Grid) (c row : Int) (k : Nat) :
    ∀ (d : Canvas) (r : ℚ),
      ((rampLoop inp g c row k r).foldl exec d).shapes
        = d.shapes ++ (List.range k).map (fun i : Nat =>
            (⟨some (Pen.val (dval inp g (r + (i : ℚ)))), true,
              rect ((c : ℚ) + 4) ((row : ℚ) - 4 - (r + (i : ℚ)))
                ((c : ℚ) + (g.dots_per_col : ℚ) - 2) ((row : ℚ) - 3 - (r + (i : ℚ)))⟩
              : Shape)) := by
  induction k with
  | zero => intro d r; simp [rampLoop]
  | succ k ih =>
    intro d r
    rw [rampLoop_succ, List.foldl_cons, List.foldl_cons, List.foldl_cons, ih,
      List.range_succ_eq_map, List.map_cons, List.map_map]
    simp only [exec, x_box, y_box_ramp, y_box, List.set, List.take, relToAbs, rect,
      List.append_assoc, List.singleton_append, Nat.cast_zero, add_zero]
    congr 2
    · push_cast
      simp only [Shape.mk.injEq, true_and, List.cons.injEq, Prod.mk.injEq, and_true]
      repeat' apply And.intro
      all_goals first | rfl | ring
    · apply List.map_congr_left
      intro i _
      simp only [Function.comp, Nat.cast_succ]
      rw [add_assoc, add_comm (1 : ℚ)]

theorem render_continuous (inp : Input) (g : Grid) :
    render (continuous inp g)
      = [ ⟨some (Pen.index inp.color), false,
            rect ((toInt inp.l : ℚ) + 2)
              ((toInt (inp.t + (g.dots_per_line : ℚ)) : ℚ) - (g.dots_per_line : ℚ) + 1)
              ((toInt inp.l : ℚ) + (g.dots_per_col : ℚ))
              ((toInt (inp.t + (g.dots_per_line : ℚ)) : ℚ) - 1)⟩,
          ⟨some (Pen.index inp.black), false,
            rect ((toInt inp.l : ℚ) + 3)
              ((toInt (inp.t + (g.dots_per_line : ℚ)) : ℚ) - (g.dots_per_line : ℚ) + 2)
              ((toInt inp.l : ℚ) + (g.dots_per_col : ℚ) - 1)
              ((toInt (inp.t + (g.dots_per_line : ℚ)) : ℚ) - 2)⟩ ]
        ++ (List.range (g.dots_per_line - 6).toNat).map (fun i : Nat =>
            (⟨some (Pen.val (dval inp g (i : ℚ))), true,
              rect ((toInt inp.l : ℚ) + 4)
                ((toInt (inp.t + (g.dots_per_line : ℚ)) : ℚ) - 4 - (i : ℚ))
                ((toInt inp.l : ℚ) + (g.dots_per_col : ℚ) - 2)
                ((toInt (inp.t + (g.dots_per_line : ℚ)) : ℚ) - 3 - (i : ℚ))⟩ : Shape)) := by
  unfold render continuous
  simp only [List.foldl_append, exec_rampLoop, zero_add]
  congr 1
  simp only [whiteBox, blackBox, List.foldl_cons, List.foldl_nil, exec, rect, blank,
    List.nil_append, List.singleton_append, List.cons_append]
  push_cast
  simp only [List.cons.injEq, Shape.mk.injEq, true_and, and_true, Prod.mk.injEq]
  repeat' apply And.intro
  all_goals first | rfl | ring

/-- C16, as stated, fails: in the cell `[0,10] x [0,10]` (extents 10 x 10) the outer box
has its sides at `x = 2`, `x = 10`, `y = 1`, `y = 9`: only its left side lies 2 units
inside the cell edge, the right side lies on the cell edge and the top and bottom sides 1
unit inside. -/
theorem outer_box_margins_uneven :
    grid (intMap 1 5 (some 2) (some 2) 0 20 0 20) = some ⟨2, 2, 10, 10⟩
    ∧ (∃ post, main (intMap 1 5 (some 2) (some 2) 0 20 0 20)
        = some (swatch (intMap 1 5 (some 2) (some 2) 0 20 0 20) ⟨2, 2, 10, 10⟩
            (-2147483648) 0 10 ++ post))
    ∧ render (swatch (intMap 1 5 (some 2) (some 2) 0 20 0 20) ⟨2, 2, 10, 10⟩
          (-2147483648) 0 10)
        = [ ⟨some (Pen.index 7), false, rect 2 1 10 9⟩,
            ⟨some (Pen.index 0), false, rect 3 2 9 8⟩,
            ⟨some (Pen.cat (-2147483648)), true, rect 4 3 8 7⟩ ]
    ∧ rect 2 1 10 9 ≠ rect (0 + 2) (0 + 2) (10 - 2) (10 - 2) := by
  have hg : grid (intMap 1 5 (some 2) (some 2) 0 20 0 20) = some ⟨2, 2, 10, 10⟩ :=
    grid_of_layout _ 20 20 2 2 (by decide) (by norm_num [intMap]) (by norm_num [intMap])
      (by decide) (by decide) (by decide) (by decide) (by decide) (by decide)
  obtain ⟨rest, hrest⟩ := discrete_head (intMap 1 5 (some 2) (some 2) 0 20 0 20)
    ⟨2, 2, 10, 10⟩ (by decide) (by decide)
  refine ⟨hg, ⟨rest, ?_⟩, ?_, ?_⟩
  · rw [main_discrete _ _ rfl hg, hrest]
    have h0 : (intMap 1 5 (some 2) (some 2) 0 20 0 20).l = 0 := rfl
    rw [h0, fl_zero]
    rfl
  · have := render_append_swatch [] (intMap 1 5 (some 2) (some 2) 0 20 0 20)
      ⟨2, 2, 10, 10⟩ (-2147483648) 0 10
    rw [List.nil_append] at this
    rw [this]
    norm_num [render, blank, intMap]
  · norm_num [rect]

/-- C16, amended: for a cell with edges `cl` (left), `ct` (top), `cr` (right), `cb`
(bottom) and extents above 8, the three figures are drawn in the order outer (separator
colour), middle (black), inner (fill); their left sides lie 2, 3 and 4 units inside the
left cell edge, their right sides 0, 1 and 2 units inside the right edge, and their top
and bottom sides 1, 2 and 3 units inside the top and bottom edges, each box lying 1 unit
inside the one before it on every side. -/
theorem swatch_boxes (inp : Input) (g : Grid) (a c r : Int) (d : Canvas)
    (hc : 8 < g.dots_per_col) (hl : 8 < g.dots_per_line)
    (cl ct cr cb : ℚ) (hcl : cl = (c : ℚ)) (hct : ct = (r : ℚ) - (g.dots_per_line : ℚ))
    (hcr : cr = (c : ℚ) + (g.dots_per_col : ℚ)) (hcb : cb = (r : ℚ)) :
    ((swatch inp g a c r).foldl exec d).shapes
        = d.shapes ++
          [ ⟨some (Pen.index inp.color), false, rect (cl + 2) (ct + 1) (cr - 0) (cb - 1)⟩,
            ⟨some (Pen.index inp.black), false, rect (cl + 3) (ct + 2) (cr - 1) (cb - 2)⟩,
            ⟨some (Pen.cat a), true, rect (cl + 4) (ct + 3) (cr - 2) (cb - 3)⟩ ]
    ∧ cl + 4 < cr - 2 ∧ ct + 3 < cb - 3 := by
  have h1 : (8 : ℚ) < (g.dots_per_col : ℚ) := by exact_mod_cast hc
  have h2 : (8 : ℚ) < (g.dots_per_line : ℚ) := by exact_mod_cast hl
  refine ⟨?_, by linarith, by linarith⟩
  rw [exec_swatch, hcl, hct, hcr, hcb]
  congr 1
  simp only [List.cons.injEq, Shape.mk.injEq, true_and, and_true, rect, Prod.mk.injEq]
  repeat' apply And.intro
  all_goals first | rfl | ring

theorem swatch_boxes_witness :
    8 < smallGrid.dots_per_col ∧ 8 < smallGrid.dots_per_line
    ∧ ((swatch smallMap smallGrid smallMap.cnull 0 10).foldl exec blank).shapes
        = blank.shapes ++
          [ ⟨some (Pen.index smallMap.color), false,
              rect ((0 : ℚ) + 2) ((0 : ℚ) + 1) ((10 : ℚ) - 0) ((10 : ℚ) - 1)⟩,
            ⟨some (Pen.index smallMap.black), false,
              rect ((0 : ℚ) + 3) ((0 : ℚ) + 2) ((10 : ℚ) - 1) ((10 : ℚ) - 2)⟩,
            ⟨some (Pen.cat smallMap.cnull), true,
              rect ((0 : ℚ) + 4) ((0 : ℚ) + 3) ((10 : ℚ) - 2) ((10 : ℚ) - 3)⟩ ]
    ∧ (0 : ℚ) + 4 < (10 : ℚ) - 2 ∧ (0 : ℚ) + 3 < (10 : ℚ) - 3 :=
  ⟨by decide, by decide,
    swatch_boxes smallMap smallGrid smallMap.cnull 0 10 blank (by decide) (by decide)
      0 0 10 10 (by norm_num) (by norm_num [smallGrid]) (by norm_num [smallGrid])
      (by norm_num)⟩

/-- C17, as stated, fails: for extents 20 x 20 the vertices accumulated from the offsets
`x_box`, `y_box` are the corners of the rectangle `[4,18] x [3,17]`, so every edge is
horizontal or vertical; the same holds for the two border outlines. -/
theorem fill_polygon_axis_aligned :
    grid (intMap 1 5 (some 2) (some 2) 0 40 0 40) = some ⟨2, 2, 20, 20⟩
    ∧ relToAbs (4, 17) (x_box ⟨2, 2, 20, 20⟩) (y_box ⟨2, 2, 20, 20⟩) = rect 4 3 18 17
    ∧ AxisAligned (relToAbs (4, 17) (x_box ⟨2, 2, 20, 20⟩) (y_box ⟨2, 2, 20, 20⟩))
    ∧ ∀ s ∈ render (swatch (intMap 1 5 (some 2) (some 2) 0 40 0 40) ⟨2, 2, 20, 20⟩
          (-2147483648) 0 20), AxisAligned s.pts := by
  have hg : grid (intMap 1 5 (some 2) (some 2) 0 40 0 40) = some ⟨2, 2, 20, 20⟩ :=
    grid_of_layout _ 40 40 2 2 (by decide) (by norm_num [intMap]) (by norm_num [intMap])
      (by decide) (by decide) (by decide) (by decide) (by decide) (by decide)
  have hv : relToAbs (4, 17) (x_box ⟨2, 2, 20, 20⟩) (y_box ⟨2, 2, 20, 20⟩)
      = rect 4 3 18 17 := by
    norm_num [relToAbs, x_box, y_box, rect]
  refine ⟨hg, hv, ?_, ?_⟩
  · rw [hv]; exact axisAligned_rect _ _ _ _
  · have := render_append_swatch [] (intMap 1 5 (some 2) (some 2) 0 40 0 40)
      ⟨2, 2, 20, 20⟩ (-2147483648) 0 20
    rw [List.nil_append] at this
    rw [this]
    intro s hs
    simp only [render, blank, List.foldl_nil, List.nil_append, List.mem_cons,
      List.mem_singleton, List.not_mem_nil, or_false] at hs
    rcases hs with rfl | rfl | rfl <;> exact axisAligned_rect _ _ _ _

/-- C17, amended: for `dots_per_col > 6` and `dots_per_line > 6` the vertex sequence
accumulated from the five offsets `x_box`, `y_box` of the fill polygon returns to the
anchor and all its edges are horizontal or vertical: it is a plain axis-aligned rectangle
of positive width and height; the same holds for the two border outlines. -/
theorem swatch_figures_rectangles (inp : Input) (g : Grid) (a c r : Int) (d : Canvas)
    (hc : 6 < g.dots_per_col) (hl : 6 < g.dots_per_line) :
    ∃ o m f : Shape, ((swatch inp g a c r).foldl exec d).shapes = d.shapes ++ [o, m, f]
      ∧ o.filled = false ∧ m.filled = false ∧ f.filled = true
      ∧ f.pts = relToAbs (((c + 4 : Int) : ℚ), ((r - 3 : Int) : ℚ)) (x_box g) (y_box g)
      ∧ ∀ s ∈ [o, m, f], Closed s.pts ∧ AxisAligned s.pts
          ∧ ∃ x0 y0 x1 y1 : ℚ, s.pts = rect x0 y0 x1 y1 ∧ x0 < x1 ∧ y0 < y1 := by
  have h1 : (6 : ℚ) < (g.dots_per_col : ℚ) := by exact_mod_cast hc
  have h2 : (6 : ℚ) < (g.dots_per_line : ℚ) := by exact_mod_cast hl
  refine ⟨_, _, _, exec_swatch d inp g a c r, rfl, rfl, rfl, ?_, ?_⟩
  · simp only [x_box, y_box, relToAbs, rect]
    push_cast
    simp only [List.cons.injEq, Prod.mk.injEq, and_true]
    repeat' apply And.intro
    all_goals first | rfl | ring
  · intro s hs
    simp only [List.mem_cons, List.mem_singleton, List.not_mem_nil, or_false] at hs
    rcases hs with rfl | rfl | rfl
    · exact ⟨closed_rect _ _ _ _, axisAligned_rect _ _ _ _, _, _, _, _, rfl,
        by linarith, by linarith⟩
    · exact ⟨closed_rect _ _ _ _, axisAligned_rect _ _ _ _, _, _, _, _, rfl,
        by linarith, by linarith⟩
    · exact ⟨closed_rect _ _ _ _, axisAligned_rect _ _ _ _, _, _, _, _, rfl,
        by linarith, by linarith⟩

theorem swatch_figures_rectangles_witness :
    6 < smallGrid.dots_per_col ∧ 6 < smallGrid.dots_per_line
    ∧ ∃ o m f : Shape,
        ((swatch smallMap smallGrid smallMap.cnull 0 10).foldl exec blank).shapes
          = blank.shapes ++ [o, m, f]
      ∧ o.filled = false ∧ m.filled = false ∧ f.filled = true
      ∧ f.pts = relToAbs ((((0 : Int) + 4 : Int) : ℚ), (((10 : Int) - 3 : Int) : ℚ))
          (x_box smallGrid) (y_box smallGrid)
      ∧ ∀ s ∈ [o, m, f], Closed s.pts ∧ AxisAligned s.pts
          ∧ ∃ x0 y0 x1 y1 : ℚ, s.pts = rect x0 y0 x1 y1 ∧ x0 < x1 ∧ y0 < y1 :=
  ⟨by decide, by decide,
    swatch_figures_rectangles smallMap smallGrid smallMap.cnull 0 10 blank (by decide)
      (by decide)⟩

/-- C20: for a floating-point map on a frame with integer coordinates and
`dots_per_line > 6`, `dots_per_col > 6`, strip `r` is the unit-height band with vertical
interval `[bottom-4-r, bottom-3-r]` and horizontal interval `[left+4, left+dots_per_col-2]`;
the bands do not overlap, together cover exactly `[top+3, bottom-3]`, and lie strictly
inside the black border box `[left+3, left+dots_per_col-1] x [top+2, bottom-2]`. -/
theorem ramp_strips_tile (inp : Input) (g : Grid) (ti bi li ri : Int)
    (hfp : inp.fp = true) (ht : inp.t = (ti : ℚ)) (hb : inp.b = (bi : ℚ))
    (hl : inp.l = (li : ℚ)) (hr : inp.r = (ri : ℚ)) (hg : grid inp = some g)
    (hdl : 6 < g.dots_per_line) (hdc : 6 < g.dots_per_col) :
    ∃ cmds, main inp = some cmds
      ∧ g.dots_per_line = bi - ti ∧ g.dots_per_col = ri - li
      ∧ render cmds
          = [ ⟨some (Pen.index inp.color), false,
                rect ((li : ℚ) + 2) ((ti : ℚ) + 1) ((li : ℚ) + (g.dots_per_col : ℚ))
                  ((bi : ℚ) - 1)⟩,
              ⟨some (Pen.index inp.black), false,
                rect ((li : ℚ) + 3) ((ti : ℚ) + 2) ((li : ℚ) + (g.dots_per_col : ℚ) - 1)
                  ((bi : ℚ) - 2)⟩ ]
            ++ (List.range (g.dots_per_line - 6).toNat).map (fun r : Nat =>
                (⟨some (Pen.val (dval inp g (r : ℚ))), true,
                  rect ((li : ℚ) + 4) ((bi : ℚ) - 4 - (r : ℚ))
                    ((li : ℚ) + (g.dots_per_col : ℚ) - 2) ((bi : ℚ) - 3 - (r : ℚ))⟩ : Shape))
      ∧ (∀ y : ℚ, ((ti : ℚ) + 3 ≤ y ∧ y ≤ (bi : ℚ) - 3)
          ↔ ∃ r : Nat, r < (g.dots_per_line - 6).toNat
              ∧ (bi : ℚ) - 4 - (r : ℚ) ≤ y ∧ y ≤ (bi : ℚ) - 3 - (r : ℚ))
      ∧ (∀ r1 r2 : Nat, r1 < r2 → (bi : ℚ) - 3 - (r2 : ℚ) ≤ (bi : ℚ) - 4 - (r1 : ℚ))
      ∧ ((li : ℚ) + 3 < (li : ℚ) + 4
          ∧ (li : ℚ) + 4 < (li : ℚ) + (g.dots_per_col : ℚ) - 2
          ∧ (li : ℚ) + (g.dots_per_col : ℚ) - 2 < (li : ℚ) + (g.dots_per_col : ℚ) - 1
          ∧ (ti : ℚ) + 2 < (ti : ℚ) + 3 ∧ (bi : ℚ) - 3 < (bi : ℚ) - 2) := by
  obtain ⟨_, hgl, hgc⟩ := grid_fp_inv inp g hfp hg
  have hdpl : g.dots_per_line = bi - ti := by
    rw [hb, ht, ← Int.cast_sub] at hgl
    exact toInt32_fl_intCast hgl
  have hdpc : g.dots_per_col = ri - li := by
    rw [hr, hl, ← Int.cast_sub] at hgc
    exact toInt32_fl_intCast hgc
  have hrow : toInt (inp.t + (g.dots_per_line : ℚ)) = bi := by
    rw [ht, ← Int.cast_add, toInt_intCast, hdpl]
    ring
  have hcol : toInt inp.l = li := by rw [hl, toInt_intCast]
  have hn : (((g.dots_per_line - 6).toNat : Nat) : ℚ) = (bi : ℚ) - (ti : ℚ) - 6 := by
    have : (((g.dots_per_line - 6).toNat : Nat) : Int) = g.dots_per_line - 6 :=
      Int.toNat_of_nonneg (by omega)
    have h2 : (((g.dots_per_line - 6).toNat : Nat) : ℚ) = ((g.dots_per_line - 6 : Int) : ℚ) := by
      exact_mod_cast this
    rw [h2, hdpl]
    push_cast
    ring
  have hpos : 0 < (g.dots_per_line - 6).toNat := by omega
  refine ⟨_, main_continuous inp g hfp hg, hdpl, hdpc, ?_, ?_, ?_, ?_⟩
  · rw [render_continuous, hrow, hcol]
    have hq : (g.dots_per_line : ℚ) = (bi : ℚ) - (ti : ℚ) := by
      rw [hdpl]; push_cast; ring
    congr 1
    simp only [List.cons.injEq, Shape.mk.injEq, true_and, and_true, rect, Prod.mk.injEq]
    rw [hq]
    repeat' apply And.intro
    all_goals first | rfl | ring
  · intro y
    constructor
    · rintro ⟨h1, h2⟩
      have hu : (0 : ℚ) ≤ (bi : ℚ) - 3 - y := by linarith
      by_cases hlt : ⌊(bi : ℚ) - 3 - y⌋₊ < (g.dots_per_line - 6).toNat
      · refine ⟨⌊(bi : ℚ) - 3 - y⌋₊, hlt, ?_, ?_⟩
        · have := Nat.lt_floor_add_one ((bi : ℚ) - 3 - y)
          linarith
        · have := Nat.floor_le hu
          linarith
      · have hle : (g.dots_per_line - 6).toNat ≤ ⌊(bi : ℚ) - 3 - y⌋₊ := by omega
        have h3 : (((g.dots_per_line - 6).toNat : Nat) : ℚ) ≤ (bi : ℚ) - 3 - y :=
          (Nat.le_floor_iff hu).mp hle
        have h4 : ((((g.dots_per_line - 6).toNat - 1 : Nat)) : ℚ)
            = (((g.dots_per_line - 6).toNat : Nat) : ℚ) - 1 := by
          rw [Nat.cast_sub hpos]; simp
        rw [hn] at h3 h4
        refine ⟨(g.dots_per_line - 6).toNat - 1, by omega, ?_, ?_⟩
        · rw [h4]; linarith
        · rw [h4]; linarith
    · rintro ⟨r, hr, h1, h2⟩
      have hr0 : (0 : ℚ) ≤ (r : ℚ) := Nat.cast_nonneg r
      have hr1 : (r : ℚ) + 1 ≤ (((g.dots_per_line - 6).toNat : Nat) : ℚ) := by
        exact_mod_cast hr
      rw [hn] at hr1
      constructor <;> linarith
  · intro r1 r2 h
    have : (r1 : ℚ) + 1 ≤ (r2 : ℚ) := by exact_mod_cast h
    linarith
  · have hq : (6 : ℚ) < (g.dots_per_col : ℚ) := by exact_mod_cast hdc
    refine ⟨by linarith, by linarith, by linarith, by linarith, by linarith⟩

theorem ramp_strips_tile_witness :
    rampMap.fp = true
    ∧ grid rampMap = some rampGrid
    ∧ ∃ cmds, main rampMap = some cmds
      ∧ rampGrid.dots_per_line = (20 : Int) - 0 ∧ rampGrid.dots_per_col = (40 : Int) - 0
      ∧ render cmds
          = [ ⟨some (Pen.index rampMap.color), false,
                rect (((0 : Int) : ℚ) + 2) (((0 : Int) : ℚ) + 1)
                  (((0 : Int) : ℚ) + (rampGrid.dots_per_col : ℚ)) (((20 : Int) : ℚ) - 1)⟩,
              ⟨some (Pen.index rampMap.black), false,
                rect (((0 : Int) : ℚ) + 3) (((0 : Int) : ℚ) + 2)
                  (((0 : Int) : ℚ) + (rampGrid.dots_per_col : ℚ) - 1)
                  (((20 : Int) : ℚ) - 2)⟩ ]
            ++ (List.range (rampGrid.dots_per_line - 6).toNat).map (fun r : Nat =>
                (⟨some (Pen.val (dval rampMap rampGrid (r : ℚ))), true,
                  rect (((0 : Int) : ℚ) + 4) (((20 : Int) : ℚ) - 4 - (r : ℚ))
                    (((0 : Int) : ℚ) + (rampGrid.dots_per_col : ℚ) - 2)
                    (((20 : Int) : ℚ) - 3 - (r : ℚ))⟩ : Shape))
      ∧ (∀ y : ℚ, (((0 : Int) : ℚ) + 3 ≤ y ∧ y ≤ ((20 : Int) : ℚ) - 3)
          ↔ ∃ r : Nat, r < (rampGrid.dots_per_line - 6).toNat
              ∧ ((20 : Int) : ℚ) - 4 - (r : ℚ) ≤ y ∧ y ≤ ((20 : Int) : ℚ) - 3 - (r : ℚ))
      ∧ (∀ r1 r2 : Nat, r1 < r2 →
          ((20 : Int) : ℚ) - 3 - (r2 : ℚ) ≤ ((20 : Int) : ℚ) - 4 - (r1 : ℚ))
      ∧ (((0 : Int) : ℚ) + 3 < ((0 : Int) : ℚ) + 4
          ∧ ((0 : Int) : ℚ) + 4 < ((0 : Int) : ℚ) + (rampGrid.dots_per_col : ℚ) - 2
          ∧ ((0 : Int) : ℚ) + (rampGrid.dots_per_col : ℚ) - 2
              < ((0 : Int) : ℚ) + (rampGrid.dots_per_col : ℚ) - 1
          ∧ ((0 : Int) : ℚ) + 2 < ((0 : Int) : ℚ) + 3
          ∧ ((20 : Int) : ℚ) - 3 < ((20 : Int) : ℚ) - 2) :=
  have hg : grid rampMap = some rampGrid :=
    grid_fp_int _ rfl 20 40 (by norm_num [rampMap, fpMap]) (by norm_num [rampMap, fpMap])
      (by decide) (by decide)
  ⟨rfl, hg, ramp_strips_tile rampMap rampGrid 0 20 0 40 rfl (by norm_num [rampMap, fpMap])
    (by norm_num [rampMap, fpMap]) (by norm_num [rampMap, fpMap])
    (by norm_num [rampMap, fpMap]) hg (by decide) (by decide)⟩

end Colortable
